import Mathlib

/-!
The parallel racing coordinator of aikido.

A shallow embedding of `src/planner/dart/ConcreteParallelMetaPlanner.cpp`:
the two constructors, the worker task `_plan`, and `plan` with its launch loop
and its polling loop.

Conventions of the embedding.

* Pointers are identities. A `TrajectoryPtr` is `Option Nat`: `none` is `nullptr`.
* The code running around the coordinator (the planners' `canSolve`, how each
  worker's `planner->plan` ends, and when each worker thread has finished) is
  a `RaceEnv`. The coordinator code itself is deterministic in that environment.
* The `do ... while(true)` loop takes a fuel: `none` means the loop is still
  spinning after `fuel` passes.
* An exception that leaves the function of a worker thread makes C++ call
  `std::terminate`: the process, and the call of `plan` with it, is aborted.
* Calls made on other objects are recorded, in program order, in a log of
  `Event`s.
* `mMutex` only guards the reads and writes of `mRunning`; a single call of
  `plan` is modelled, so the lock has no counterpart here.
-/

namespace Aikido

/-- A `trajectory::TrajectoryPtr`: `none` is `nullptr`, `some t` points to trajectory `t`. -/
abbrev TrajectoryPtr := Option Nat

/-- A `common::RNG*` handed to the constructor. -/
abbrev RNGPtr := Nat

/-- A `dart::collision::CollisionDetectorPtr`. -/
abbrev CollisionDetectorPtr := Nat

/-- Modelled from the spec: `util::clone` of `aikido/planner/dart/util.hpp`, whose
body is not among the sources. Per section 4.1 a clone is a deep, independent copy:
`clone src n` is the handle returned by the `n`-th call of `util::clone(src)`,
different from `src` and from the result of every other call. -/
inductive MetaSkeletonPtr where
  | external (id : Nat)
  | clone (src : MetaSkeletonPtr) (n : Nat)
  deriving DecidableEq, Repr

/-- A `PlannerPtr` held in `mPlanners`: a planner handed in by the caller, or the
result of one of the four `clone` calls of the template constructor
(`rng = none` is the overload called without an RNG argument). -/
inductive PlannerPtr where
  | given (id : Nat)
  | dartClone (metaSkeleton : MetaSkeletonPtr) (rng : Option RNGPtr)
  | plainClone (rng : Option RNGPtr)
  deriving DecidableEq, Repr

/-- The exceptions thrown by the coordinator. -/
inductive Exception where
  | invalid_argument (what : String)
  | runtime_error (what : String)
  | domain_error (what : String)
  deriving DecidableEq, Repr

/-- The caller's `Planner::Result` object (`mMessage`, `mStatus`). -/
structure Result where
  mMessage : String
  mStatus : Nat
  deriving DecidableEq, Repr

/-- The data members of `ConcreteParallelMetaPlanner`. -/
structure ConcreteParallelMetaPlanner where
  mMetaSkeleton : MetaSkeletonPtr
  mCollisionDetectors : List CollisionDetectorPtr
  mPlanners : List PlannerPtr
  mClonedMetaSkeletons : List MetaSkeletonPtr
  mRunning : Bool
  deriving DecidableEq, Repr

/-- Calls made by the template constructor on other objects. -/
inductive CtorEvent where
  | cloneMetaSkeleton (i : Nat)
  | clonePlanner (i : Nat)
  deriving DecidableEq, Repr

/-- What a constructor call leaves behind: the calls it made and either the
constructed object or the exception thrown. -/
structure Construction where
  log : List CtorEvent
  outcome : Except Exception ConcreteParallelMetaPlanner

/-- The first constructor (lines 45-57): stores its arguments, `mRunning(false)`,
and leaves `mClonedMetaSkeletons` empty. -/
def ConcreteParallelMetaPlanner.fromPlanners (metaSkeleton : MetaSkeletonPtr)
    (collisionDetectors : List CollisionDetectorPtr) (planners : List PlannerPtr) :
    ConcreteParallelMetaPlanner :=
  { mMetaSkeleton := metaSkeleton
    mCollisionDetectors := collisionDetectors
    mPlanners := planners
    mClonedMetaSkeletons := []
    mRunning := false }

/-- The text built by the string stream at lines 73-75. -/
def mismatchMessage (numDetectors numRngs : Nat) : String :=
  "Number of collision detectors [" ++ toString numDetectors
    ++ "] does not match number of RNGs [ " ++ toString numRngs ++ "]." ++ "\n"

/-- The vectors filled by the loop at lines 85-103, and the calls made so far. -/
structure Provision where
  mPlanners : List PlannerPtr
  mClonedMetaSkeletons : List MetaSkeletonPtr
  log : List CtorEvent

/-- The loop at lines 85-103, with `todo` iterations left to run from index `i`.
`castedPlanner` is true when the dynamic cast to `DartPlanner` succeeded. In the
branch `rngs.size() == numCopies` the index `i` is below `rngs.size()`, so
`rngs.get? i` is `some rngs[i]`. -/
def provisionLoop (mMetaSkeleton : MetaSkeletonPtr) (castedPlanner : Bool)
    (rngs : List RNGPtr) (numCopies : Nat) : Nat → Nat → Provision → Provision
  | 0, _, st => st
  | todo + 1, i, st =>
    let clonedMetaSkeleton := MetaSkeletonPtr.clone mMetaSkeleton i
    let planner :=
      if rngs.length = numCopies then
        if castedPlanner then PlannerPtr.dartClone clonedMetaSkeleton (rngs.get? i)
        else PlannerPtr.plainClone (rngs.get? i)
      else
        if castedPlanner then PlannerPtr.dartClone clonedMetaSkeleton none
        else PlannerPtr.plainClone none
    provisionLoop mMetaSkeleton castedPlanner rngs numCopies todo (i + 1)
      { mPlanners := st.mPlanners ++ [planner]
        mClonedMetaSkeletons := st.mClonedMetaSkeletons ++ [clonedMetaSkeleton]
        log := st.log ++ [CtorEvent.cloneMetaSkeleton i, CtorEvent.clonePlanner i] }

/-- The second constructor (lines 60-105): one planner template, cloned once per
collision detector. -/
def ConcreteParallelMetaPlanner.fromTemplate (metaSkeleton : MetaSkeletonPtr)
    (collisionDetectors : List CollisionDetectorPtr) (castedPlanner : Bool)
    (rngs : List RNGPtr) : Construction :=
  if rngs.length > 0 ∧ collisionDetectors.length ≠ rngs.length then
    { log := []
      outcome := Except.error
        (Exception.invalid_argument (mismatchMessage collisionDetectors.length rngs.length)) }
  else
    let numCopies := collisionDetectors.length
    let st := provisionLoop metaSkeleton castedPlanner rngs numCopies
      collisionDetectors.length 0 { mPlanners := [], mClonedMetaSkeletons := [], log := [] }
    { log := st.log
      outcome := Except.ok
        { mMetaSkeleton := metaSkeleton
          mCollisionDetectors := collisionDetectors
          mPlanners := st.mPlanners
          mClonedMetaSkeletons := st.mClonedMetaSkeletons
          mRunning := false } }

/-- How the call `planner->plan(*problem, result.get())` made by a worker ends,
when it ends: with a trajectory, with `nullptr`, or with an exception. -/
inductive SolveOutcome where
  | found (t : Nat)
  | failed
  | faulted
  deriving DecidableEq, Repr

/-- How the thread started on `_plan` ends: `_plan` returns after one
`promise->set_value(v)`, or an exception leaves `_plan`. `_plan` is the function
of a `std::thread` (line 153, detached at line 154), and C++ calls
`std::terminate` when an exception leaves the function of a thread: the process
is aborted. -/
inductive ThreadEnd where
  | set_value (v : TrajectoryPtr)
  | terminate
  deriving DecidableEq, Repr

/-- The worker task `_plan` (lines 17-42). When `planner->plan` returns, `_plan`
deposits the trajectory, or `nullptr`, in its promise and returns. When
`planner->plan` throws, the exception leaves `_plan` at line 27, before either
`set_value`: `_plan` has no handler, and none stands between it and the thread. -/
def _plan : SolveOutcome → ThreadEnd
  | SolveOutcome.found t => ThreadEnd.set_value (some t)
  | SolveOutcome.failed => ThreadEnd.set_value none
  | SolveOutcome.faulted => ThreadEnd.terminate

/-- Everything `plan` reads from outside the coordinator during one call.
Workers are named by their planner index (`planner_id` in `_plan`).
`finished pass i` tells whether the thread of worker `i` has run to its end by
the time its slot is polled in pass `pass`; for a worker whose `planner->plan`
throws, that end is the call of `std::terminate`. -/
structure RaceEnv where
  isDartProblem : Bool
  canSolve : Nat → Bool
  solve : Nat → SolveOutcome
  finished : Nat → Nat → Bool

/-- What the coordinator meets when it comes to the poll of a slot:
`futures[j].wait_for(0)` gives a status other than `ready`; or it gives `ready`
and `futures[j].get()` gives `v`; or the process has been aborted before the poll
could be made. -/
inductive Polled where
  | timeout
  | ready (v : TrajectoryPtr)
  | aborted
  deriving DecidableEq, Repr

/-- The poll of the slot of worker `i` in pass `pass`. While the thread of the
worker runs, the slot is not ready. Once it has ended, the slot holds the value
deposited, or, if the thread ended in `std::terminate`, the process is gone. -/
def waitFor (env : RaceEnv) (pass i : Nat) : Polled :=
  if env.finished pass i then
    match _plan (env.solve i) with
    | ThreadEnd.set_value v => Polled.ready v
    | ThreadEnd.terminate => Polled.aborted
  else Polled.timeout

/-- Calls and state changes made by `plan`, in program order. -/
inductive Event where
  | setRunning (b : Bool)
  | cloneProblem
  | canSolve (i : Nat)
  | cloneDartProblem (i : Nat) (cd : CollisionDetectorPtr) (ms : MetaSkeletonPtr)
  | launch (i : Nat)
  | timeout (pass slot : Nat)
  | ready (pass slot : Nat) (t : TrajectoryPtr)
  | stopPlanning (i : Nat)
  deriving DecidableEq, Repr

/-- The places where `plan` ends: the throw at line 115, the throw at line 159,
the returns at lines 172, 202 and 217, an index outside a vector (undefined
behaviour in C++), and the abort of the process by `std::terminate` while `plan`
is polling. -/
inductive Exit where
  | alreadyPlanning
  | notSupported
  | noneEligible
  | succeeded (t : Nat)
  | allFailed
  | outOfBounds
  | terminated
  deriving DecidableEq, Repr

/-- What the caller of `plan` receives: a value, an exception, anything at all
(undefined behaviour), or nothing because the process was aborted. -/
inductive Returned where
  | value (t : TrajectoryPtr)
  | throws (e : Exception)
  | undefined
  | aborted
  deriving DecidableEq, Repr

/-- The value returned or exception thrown at each exit. -/
def Exit.returned : Exit → Returned
  | Exit.alreadyPlanning =>
    Returned.throws (Exception.runtime_error "Currently planning another problem")
  | Exit.notSupported => Returned.throws (Exception.runtime_error "Not supported")
  | Exit.noneEligible => Returned.value none
  | Exit.succeeded t => Returned.value (some t)
  | Exit.allFailed => Returned.value none
  | Exit.outOfBounds => Returned.undefined
  | Exit.terminated => Returned.aborted

/-- A finished call of `plan`: where it ended, the coordinator afterwards, the
caller's `Result` object afterwards, and the calls made. At the exit `terminated`
the log holds the calls made before the poll that meets the abort; the abort
itself struck at some moment since the previous poll of that slot. -/
structure Run where
  exit : Exit
  self : ConcreteParallelMetaPlanner
  result : Result
  log : List Event
  deriving DecidableEq, Repr

/-- A loop either runs to its end with a state, or leaves the function. -/
inductive Step (σ : Type) where
  | next (st : σ)
  | halt (exit : Exit) (log : List Event)

/-- The locals of the launch loop: the owner (planner index) of each element of
`futures`, `results.size()`, and the calls made so far. -/
structure Launch where
  futures : List Nat
  results : Nat
  log : List Event
  deriving DecidableEq, Repr

/-- The loop at lines 137-164, with `todo` iterations left to run from index `i`. -/
def launchLoop (self : ConcreteParallelMetaPlanner) (env : RaceEnv) :
    Nat → Nat → Launch → Step Launch
  | 0, _, st => Step.next st
  | todo + 1, i, st =>
    if env.canSolve i = false then
      launchLoop self env todo (i + 1) { st with log := st.log ++ [Event.canSolve i] }
    else if env.isDartProblem then
      match self.mCollisionDetectors.get? i, self.mClonedMetaSkeletons.get? i with
      | some cd, some ms =>
        launchLoop self env todo (i + 1)
          { futures := st.futures ++ [i]
            results := st.results + 1
            log := st.log ++ [Event.canSolve i, Event.cloneDartProblem i cd ms, Event.launch i] }
      | _, _ => Step.halt Exit.outOfBounds (st.log ++ [Event.canSolve i])
    else Step.halt Exit.notSupported (st.log ++ [Event.canSolve i])

/-- The locals of one polling pass. -/
structure Poll where
  future_retrieved : List Bool
  num_failures : Nat
  log : List Event
  deriving DecidableEq, Repr

/-- The inner loop at lines 180-209 in pass `pass`, over the futures still to
visit (given by their owners), the next slot index being `j`. On a ready slot
holding a trajectory, `stopPlanning` is sent to each of the `numPlanners`
planners of `mPlanners`, `mRunning` is cleared and the function returns. When
the thread of the slot's worker has ended in `std::terminate`, nothing more is
run. -/
def pollSlots (numPlanners : Nat) (env : RaceEnv) (pass : Nat) :
    List Nat → Nat → Poll → Step Poll
  | [], _, st => Step.next st
  | w :: rest, j, st =>
    match st.future_retrieved.get? j with
    | none => Step.halt Exit.outOfBounds st.log
    | some true => pollSlots numPlanners env pass rest (j + 1) st
    | some false =>
      match waitFor env pass w with
      | Polled.timeout =>
        pollSlots numPlanners env pass rest (j + 1)
          { st with log := st.log ++ [Event.timeout pass j] }
      | Polled.ready (some t) =>
        Step.halt (Exit.succeeded t)
          (st.log ++ [Event.ready pass j (some t)]
            ++ (List.range numPlanners).map Event.stopPlanning ++ [Event.setRunning false])
      | Polled.ready none =>
        pollSlots numPlanners env pass rest (j + 1)
          { future_retrieved := st.future_retrieved.set j true
            num_failures := st.num_failures + 1
            log := st.log ++ [Event.ready pass j none] }
      | Polled.aborted => Step.halt Exit.terminated st.log

/-- The coordinator after an exit of the polling loop: `mRunning` is cleared on
the two returns, and left as it is otherwise (after an abort of the process no
coordinator is left; the record keeps the last state). -/
def afterPoll (self : ConcreteParallelMetaPlanner) : Exit → ConcreteParallelMetaPlanner
  | Exit.succeeded _ => { self with mRunning := false }
  | Exit.allFailed => { self with mRunning := false }
  | _ => self

/-- The `do ... while(true)` loop at lines 176-219, starting at pass `pass`;
`num_failures` is declared inside the loop body and starts at 0 in every pass. -/
def pollLoop (self : ConcreteParallelMetaPlanner) (env : RaceEnv) (result : Result)
    (futures : List Nat) : Nat → Nat → List Bool → List Event → Option Run
  | 0, _, _, _ => none
  | fuel + 1, pass, future_retrieved, log =>
    match pollSlots self.mPlanners.length env pass futures 0
        { future_retrieved := future_retrieved, num_failures := 0, log := log } with
    | Step.halt exit log1 =>
      some { exit := exit, self := afterPoll self exit, result := result, log := log1 }
    | Step.next st =>
      if st.num_failures = futures.length then
        some { exit := Exit.allFailed, self := afterPoll self Exit.allFailed, result := result
               log := st.log ++ [Event.setRunning false] }
      else pollLoop self env result futures fuel (pass + 1) st.future_retrieved st.log

/-- The member function `plan` (lines 108-228). `result` is the caller's `Result`
object, which the function never writes. `fuel` bounds the number of polling
passes; `none` means no exit within `fuel` passes. -/
def ConcreteParallelMetaPlanner.plan (self : ConcreteParallelMetaPlanner) (env : RaceEnv)
    (result : Result) (fuel : Nat) : Option Run :=
  if self.mRunning then
    some { exit := Exit.alreadyPlanning, self := self, result := result, log := [] }
  else
    let running := { self with mRunning := true }
    let log0 := Event.setRunning true :: (if env.isDartProblem then [] else [Event.cloneProblem])
    match launchLoop running env running.mPlanners.length 0
        { futures := [], results := 0, log := log0 } with
    | Step.halt exit log1 =>
      some { exit := exit, self := running, result := result, log := log1 }
    | Step.next st =>
      if st.futures.length = 0 then
        some { exit := Exit.noneEligible, self := { running with mRunning := false }
               result := result, log := st.log ++ [Event.setRunning false] }
      else
        pollLoop running env result st.futures fuel 0 (List.replicate st.results false) st.log

/-- The member function `stopPlanning` (lines 245-248): returns false and does nothing. -/
def ConcreteParallelMetaPlanner.stopPlanning (self : ConcreteParallelMetaPlanner) :
    Bool × ConcreteParallelMetaPlanner × List Event :=
  (false, self, [])

/-- The events recorded by the polling loop when it looks at a slot. -/
def Event.isPoll : Event → Bool
  | Event.timeout _ _ => true
  | Event.ready _ _ _ => true
  | _ => false

/-- The events recorded by the launch loop. -/
def Event.isLaunchStep : Event → Bool
  | Event.canSolve _ => true
  | Event.cloneDartProblem _ _ _ => true
  | Event.launch _ => true
  | _ => false

/-- The worker started by an event, if the event starts one. -/
def Event.launchee : Event → Option Nat
  | Event.launch i => some i
  | _ => none

/-- The workers started in a log, in the order in which they were started; the
`j`-th one owns result slot `j`. -/
def launched (log : List Event) : List Nat :=
  log.filterMap Event.launchee

/-- The broadcast at lines 194-195 over `numPlanners` planners. -/
def stopAll (numPlanners : Nat) : List Event :=
  (List.range numPlanners).map Event.stopPlanning

/-! ## Concrete inputs -/

/-- A default-constructed `Planner::Result`. -/
def emptyResult : Result :=
  { mMessage := "", mStatus := 0 }

/-- The coordinator that the template constructor builds from two collision
detectors and a `DartPlanner` template, without RNGs. -/
def pool2 : ConcreteParallelMetaPlanner :=
  { mMetaSkeleton := MetaSkeletonPtr.external 0
    mCollisionDetectors := [10, 11]
    mPlanners :=
      [PlannerPtr.dartClone (MetaSkeletonPtr.clone (MetaSkeletonPtr.external 0) 0) none,
       PlannerPtr.dartClone (MetaSkeletonPtr.clone (MetaSkeletonPtr.external 0) 1) none]
    mClonedMetaSkeletons :=
      [MetaSkeletonPtr.clone (MetaSkeletonPtr.external 0) 0,
       MetaSkeletonPtr.clone (MetaSkeletonPtr.external 0) 1]
    mRunning := false }

/-- The coordinator that the template constructor builds from three collision
detectors and a `DartPlanner` template, without RNGs. -/
def pool3 : ConcreteParallelMetaPlanner :=
  { mMetaSkeleton := MetaSkeletonPtr.external 0
    mCollisionDetectors := [10, 11, 12]
    mPlanners :=
      [PlannerPtr.dartClone (MetaSkeletonPtr.clone (MetaSkeletonPtr.external 0) 0) none,
       PlannerPtr.dartClone (MetaSkeletonPtr.clone (MetaSkeletonPtr.external 0) 1) none,
       PlannerPtr.dartClone (MetaSkeletonPtr.clone (MetaSkeletonPtr.external 0) 2) none]
    mClonedMetaSkeletons :=
      [MetaSkeletonPtr.clone (MetaSkeletonPtr.external 0) 0,
       MetaSkeletonPtr.clone (MetaSkeletonPtr.external 0) 1,
       MetaSkeletonPtr.clone (MetaSkeletonPtr.external 0) 2]
    mRunning := false }

/-- A `DartProblem` every planner can solve; every worker returns `nullptr`.
Worker 0 has finished when the first pass (pass 0) polls it, every other worker
has finished from the fifth pass (pass 4) on. -/
def staggeredFailures : RaceEnv where
  isDartProblem := true
  canSolve := fun _ => true
  solve := fun _ => SolveOutcome.failed
  finished := fun pass i => i == 0 || decide (4 ≤ pass)

/-- A `DartProblem` every planner can solve; every worker returns `nullptr` and
has finished when the first pass polls it. -/
def simultaneousFailures : RaceEnv where
  isDartProblem := true
  canSolve := fun _ => true
  solve := fun _ => SolveOutcome.failed
  finished := fun _ _ => true

/-- A `DartProblem` that no planner can solve. -/
def nobodyEligible : RaceEnv where
  isDartProblem := true
  canSolve := fun _ => false
  solve := fun _ => SolveOutcome.failed
  finished := fun _ _ => true

/-- A `DartProblem` every planner can solve. Worker 1 finds trajectory 5 and has
finished from pass 3 on; every other worker returns `nullptr` at once. -/
def lateWinner : RaceEnv where
  isDartProblem := true
  canSolve := fun _ => true
  solve := fun i => if i = 1 then SolveOutcome.found 5 else SolveOutcome.failed
  finished := fun pass i => i != 1 || decide (3 ≤ pass)

/-- A `DartProblem` every planner can solve. Worker 2 finds trajectory 7 and has
finished when the first pass polls it; workers 0 and 1 would find trajectories
20 and 21 but are still running throughout. -/
def thirdFirst : RaceEnv where
  isDartProblem := true
  canSolve := fun _ => true
  solve := fun i => if i = 2 then SolveOutcome.found 7 else SolveOutcome.found (20 + i)
  finished := fun _ i => i == 2

/-- The log of `plan` when the polling loop is reached or the launch loop is left:
the write of `mRunning` at line 118, the clone at line 131 for a problem that is
not a `DartProblem`, then the events `steps` of the launch loop. -/
def raceLog (env : RaceEnv) (steps : List Event) : List Event :=
  Event.setRunning true :: ((if env.isDartProblem then [] else [Event.cloneProblem]) ++ steps)

/-- The events by which a worker is given its resources and started. -/
def Event.usesResource : Event → Bool
  | Event.cloneDartProblem _ _ _ => true
  | Event.launch _ => true
  | _ => false

/-- A log in which every per-worker clone of the problem took collision detector
`i` and cloned MetaSkeleton `i` of the coordinator for worker `i`, and every
worker started has had such a clone made for it. -/
def LaunchesSound (self : ConcreteParallelMetaPlanner) (log : List Event) : Prop :=
  (∀ i cd ms, Event.cloneDartProblem i cd ms ∈ log →
      self.mCollisionDetectors[i]? = some cd ∧ self.mClonedMetaSkeletons[i]? = some ms)
    ∧ (∀ i, Event.launch i ∈ log → ∃ cd ms, Event.cloneDartProblem i cd ms ∈ log)

/-- The planner that iteration `i` of the loop at lines 85-103 appends to
`mPlanners` (lines 89-102). -/
def clonedPlanner (mMetaSkeleton : MetaSkeletonPtr) (castedPlanner : Bool)
    (rngs : List RNGPtr) (numCopies : Nat) (i : Nat) : PlannerPtr :=
  if rngs.length = numCopies then
    if castedPlanner then
      PlannerPtr.dartClone (MetaSkeletonPtr.clone mMetaSkeleton i) (rngs.get? i)
    else PlannerPtr.plainClone (rngs.get? i)
  else
    if castedPlanner then PlannerPtr.dartClone (MetaSkeletonPtr.clone mMetaSkeleton i) none
    else PlannerPtr.plainClone none

/-- The MetaSkeleton a planner was created from: the first argument of the
`DartPlanner::clone` call that made it, if it was made by that call. -/
def PlannerPtr.createdFrom : PlannerPtr → Option MetaSkeletonPtr
  | PlannerPtr.dartClone metaSkeleton _ => some metaSkeleton
  | _ => none

/-- The RNG argument of the `clone` call that made a planner, if it had one. -/
def PlannerPtr.rngArgument : PlannerPtr → Option RNGPtr
  | PlannerPtr.dartClone _ rng => rng
  | PlannerPtr.plainClone rng => rng
  | PlannerPtr.given _ => none

/-- A `DartProblem` every planner can solve; the `planner->plan` call of every
worker throws, and every worker thread has ended when the first pass polls. -/
def faultyWorkers : RaceEnv where
  isDartProblem := true
  canSolve := fun _ => true
  solve := fun _ => SolveOutcome.faulted
  finished := fun _ _ => true

/-- A `DartProblem` every planner can solve; the `planner->plan` call of worker 0
throws, every other worker finds trajectory 5; all threads have ended when the
first pass polls. -/
def faultThenWinner : RaceEnv where
  isDartProblem := true
  canSolve := fun _ => true
  solve := fun i => if i = 0 then SolveOutcome.faulted else SolveOutcome.found 5
  finished := fun _ _ => true

/-- A `DartProblem` that planner 1 cannot solve and the others can; every worker
returns `nullptr`. Worker 0 has finished when the first pass (pass 0) polls it,
the other workers have finished from the fifth pass (pass 4) on. -/
def staggeredWithIneligible : RaceEnv where
  isDartProblem := true
  canSolve := fun i => i != 1
  solve := fun _ => SolveOutcome.failed
  finished := fun pass i => i == 0 || decide (4 ≤ pass)

/-- A `DartProblem` that planner 1 cannot solve and the others can; every worker
returns `nullptr` and has finished when the first pass polls it. -/
def simultaneousWithIneligible : RaceEnv where
  isDartProblem := true
  canSolve := fun i => i != 1
  solve := fun _ => SolveOutcome.failed
  finished := fun _ _ => true

/-! ## More concrete inputs for the coordinator -/

/-- A problem that is not a `DartProblem` and that every planner can solve. -/
def plainProblem : RaceEnv where
  isDartProblem := false
  canSolve := fun _ => true
  solve := fun _ => SolveOutcome.failed
  finished := fun _ _ => true

/-! ## The type `double`

The times of `Interpolated` and the scores of `ConfigurationRanker` are C++
`double`s: IEEE 754 binary64 values, with NaN, the two infinities, signed zeros,
subnormal numbers, and arithmetic rounded to nearest, ties to even. Every finite
double is an integer multiple of `2 ^ (-1074)`, below `2 ^ 1024` in magnitude,
with at most 53 significant bits. -/

set_option exponentiation.threshold 4096

/-- A value of type `double`: NaN, an infinity, or the finite value
`± m · 2 ^ (-1074)` (`finite true 0` is `-0.0`). -/
inductive Double where
  | nan
  | inf (negative : Bool)
  | finite (negative : Bool) (m : Nat)
  deriving DecidableEq, Repr

/-- The exponents tried by `ilog2`: `2 ^ (n - 1)`, ..., 4, 2, 1. -/
def halvings : Nat → List Nat
  | 0 => []
  | n + 1 => 2 ^ n :: halvings n

/-- Binary search for the position of the leading bit: `q` is divided by
`2 ^ k` for each `k` of the list it is not below. -/
def ilog2Aux : List Nat → Nat → Nat → Nat
  | [], _, acc => acc
  | k :: ks, q, acc => if 2 ^ k ≤ q then ilog2Aux ks (q / 2 ^ k) (acc + k) else ilog2Aux ks q acc

/-- The position of the leading bit of `q` (0 for `q = 0`): `Nat.log2 q`, computed
in twelve steps for the numbers below `2 ^ 4096`, which is all that arithmetic
on doubles produces. -/
def ilog2 (q : Nat) : Nat :=
  if q < 2 ^ 4096 then ilog2Aux (halvings 12) q 0 else Nat.log2 q

/-- Rounding to nearest, ties to even, of the positive rational `N / D` to the
grid of the doubles, all in units of `2 ^ (-1074)`. Between `2 ^ (b - 1)` and
`2 ^ b` units, `b ≥ 53`, doubles are `2 ^ (b - 53)` units apart; below `2 ^ 53`
units they are one unit apart (the subnormal numbers and the first binade). -/
def roundedMagnitude (N D : Nat) : Nat :=
  let sh := ilog2 (N / D) - 52
  let ulp := D * 2 ^ sh
  let Q := N / ulp
  let R := N % ulp
  let Q1 :=
    if 2 * R < ulp then Q
    else if ulp < 2 * R then Q + 1
    else if Q % 2 = 0 then Q
    else Q + 1
  Q1 * 2 ^ sh

/-- The double nearest to the exact value `± (N / D) · 2 ^ (-1074)`, for `N > 0`
and `D > 0`. A rounded magnitude of `2 ^ 2098` units (`2 ^ 1024`) or more is an
infinity. -/
def roundNat (negative : Bool) (N D : Nat) : Double :=
  if 2 ^ 2098 ≤ roundedMagnitude N D then Double.inf negative
  else Double.finite negative (roundedMagnitude N D)

/-- The double nearest to the rational `num / den`, `den > 0`: the value of a
literal such as `1.5` (`ofRat 3 2`) or `-0.001` (`ofRat (-1) 1000`). -/
def Double.ofRat (num : Int) (den : Nat) : Double :=
  if num = 0 then Double.finite false 0
  else roundNat (decide (num < 0)) (num.natAbs * 2 ^ 1074) den

/-- The value of a finite double in units of `2 ^ (-1074)`. -/
def signed (negative : Bool) (m : Nat) : Int :=
  if negative then -(m : Int) else (m : Int)

/-- `std::isnan`. -/
def Double.isNaN : Double → Bool
  | Double.nan => true
  | _ => false

/-- `std::isfinite`. -/
def Double.isFinite : Double → Bool
  | Double.finite _ _ => true
  | _ => false

/-- The comparison `a < b` of two doubles: false when either is NaN; `-0.0` and
`0.0` are equal. -/
def Double.lt : Double → Double → Bool
  | Double.finite a m, Double.finite b n => decide (signed a m < signed b n)
  | Double.finite _ _, Double.inf negative => !negative
  | Double.inf negative, Double.finite _ _ => negative
  | Double.inf a, Double.inf b => a && !b
  | _, _ => false

/-- The comparison `a <= b` of two doubles: false when either is NaN. -/
def Double.le : Double → Double → Bool
  | Double.finite a m, Double.finite b n => decide (signed a m ≤ signed b n)
  | Double.finite _ _, Double.inf negative => !negative
  | Double.inf negative, Double.finite _ _ => negative
  | Double.inf a, Double.inf b => a || !b
  | _, _ => false

instance : LT Double := ⟨fun a b => Double.lt a b = true⟩

instance : LE Double := ⟨fun a b => Double.le a b = true⟩

instance (a b : Double) : Decidable (a < b) :=
  inferInstanceAs (Decidable (Double.lt a b = true))

instance (a b : Double) : Decidable (a ≤ b) :=
  inferInstanceAs (Decidable (Double.le a b = true))

/-- Unary minus: the sign bit is flipped. -/
def Double.neg : Double → Double
  | Double.nan => Double.nan
  | Double.inf negative => Double.inf (!negative)
  | Double.finite negative m => Double.finite (!negative) m

/-- The sum `a + b`, rounded. An exact sum of zero is `+0.0`, except that
`-0.0 + -0.0` is `-0.0`; the sum of the two infinities is NaN. -/
def Double.add : Double → Double → Double
  | Double.nan, _ => Double.nan
  | _, Double.nan => Double.nan
  | Double.inf a, Double.inf b => if a = b then Double.inf a else Double.nan
  | Double.inf a, Double.finite _ _ => Double.inf a
  | Double.finite _ _, Double.inf b => Double.inf b
  | Double.finite a m, Double.finite b n =>
    if signed a m + signed b n = 0 then Double.finite (a && b) 0
    else roundNat (decide (signed a m + signed b n < 0)) (signed a m + signed b n).natAbs 1

/-- The difference `a - b`: the sum of `a` and `-b`. -/
def Double.sub (a b : Double) : Double :=
  Double.add a (Double.neg b)

/-- The product `a * b`, rounded; an infinity times a zero is NaN. -/
def Double.mul : Double → Double → Double
  | Double.nan, _ => Double.nan
  | _, Double.nan => Double.nan
  | Double.inf a, Double.inf b => Double.inf (a != b)
  | Double.inf a, Double.finite b n => if n = 0 then Double.nan else Double.inf (a != b)
  | Double.finite a m, Double.inf b => if m = 0 then Double.nan else Double.inf (a != b)
  | Double.finite a m, Double.finite b n =>
    if m * n = 0 then Double.finite (a != b) 0 else roundNat (a != b) (m * n) (2 ^ 1074)

/-- The quotient `a / b`, rounded. A zero or an infinity divided by one of its
kind is NaN; another finite number divided by a zero is an infinity. -/
def Double.div : Double → Double → Double
  | Double.nan, _ => Double.nan
  | _, Double.nan => Double.nan
  | Double.inf _, Double.inf _ => Double.nan
  | Double.inf a, Double.finite b _ => Double.inf (a != b)
  | Double.finite a _, Double.inf b => Double.finite (a != b) 0
  | Double.finite a m, Double.finite b n =>
    if n = 0 then (if m = 0 then Double.nan else Double.inf (a != b))
    else if m = 0 then Double.finite (a != b) 0
    else roundNat (a != b) (m * 2 ^ 1074) n

instance : Neg Double := ⟨Double.neg⟩

instance : Add Double := ⟨Double.add⟩

instance : Sub Double := ⟨Double.sub⟩

instance : Mul Double := ⟨Double.mul⟩

instance : Div Double := ⟨Double.div⟩

/-! ## Interpolated trajectories

A shallow embedding of `src/trajectory/Interpolated.cpp`. Times are `double`s and
are compared, subtracted and divided as such. States are values of a type `S`;
`copyState` copies the value. -/

/-- How a call can end without a result: with a C++ exception, by indexing
`mWaypoints` outside its range, or by calling through a null pointer (the last
two are undefined behaviour in C++). -/
inductive Abort where
  | thrown (e : Exception)
  | outOfBounds
  | nullDereference
  deriving DecidableEq, Repr

/-- The struct `Interpolated::Waypoint`: a time and a state. -/
structure Waypoint (S : Type) where
  t : Double
  state : S
  deriving DecidableEq, Repr

/-- `Waypoint::operator<(double rhs)` (lines 242-245). -/
def Waypoint.ltTime {S : Type} (w : Waypoint S) (rhs : Double) : Bool :=
  decide (w.t < rhs)

/-- The part of `statespace::Interpolator` and of the state space that the
trajectory calls; their code is outside `Interpolated.cpp`, so they are taken
as given. A tangent vector (`Eigen::VectorXd`) is a list of coordinates. -/
structure Interpolator (S : Type) where
  getNumDerivatives : Nat
  interpolate : S → S → Double → S
  getDerivative : S → S → Int → Double → List Double
  getDimension : Nat

/-- The data members of `Interpolated`: the interpolator (with the state space it
is defined on) and the waypoints. -/
structure Interpolated (S : Type) where
  mInterpolator : Interpolator S
  mWaypoints : List (Waypoint S)

/-- The constructor (lines 14-20): no waypoints. -/
def Interpolated.new {S : Type} (interpolator : Interpolator S) : Interpolated S :=
  { mInterpolator := interpolator, mWaypoints := [] }

/-- The loop of `std::lower_bound`, on the range of `len` waypoints that starts at
index `first`: the waypoint in the middle is compared with `_t`, and the search
goes on in the half after it when it is less than `_t`, in the half before it
otherwise. `fuel` bounds the number of iterations. -/
def lowerBoundLoop {S : Type} (ws : List (Waypoint S)) (t : Double) : Nat → Nat → Nat → Nat
  | 0, first, _ => first
  | fuel + 1, first, len =>
    if len = 0 then first
    else
      let half := len / 2
      match ws.get? (first + half) with
      | some middle =>
        if middle.ltTime t then lowerBoundLoop ws t fuel (first + half + 1) (len - half - 1)
        else lowerBoundLoop ws t fuel first half
      | none => first

/-- `std::lower_bound(mWaypoints.begin(), mWaypoints.end(), _t)` as an index: the
binary search of the standard library, which halves the range `mWaypoints.size()`
times at most. On a range partitioned by `w < _t`, as a list sorted by time is,
the result is the position of the first waypoint `w` for which `w < _t` is false,
and `mWaypoints.size()` if there is none. -/
def lower_bound {S : Type} (ws : List (Waypoint S)) (t : Double) : Nat :=
  lowerBoundLoop ws t ws.length 0 ws.length

/-- `getStartTime` (lines 48-54). -/
def Interpolated.getStartTime {S : Type} (traj : Interpolated S) : Except Abort Double :=
  match traj.mWaypoints.head? with
  | none =>
    Except.error (Abort.thrown (Exception.domain_error "Requested getEndTime on empty trajectory."))
  | some front => Except.ok front.t

/-- `getEndTime` (lines 57-63). -/
def Interpolated.getEndTime {S : Type} (traj : Interpolated S) : Except Abort Double :=
  match traj.mWaypoints.getLast? with
  | none =>
    Except.error (Abort.thrown (Exception.domain_error "Requested getEndTime on empty trajectory."))
  | some back => Except.ok back.t

/-- `getDuration` (lines 66-72). -/
def Interpolated.getDuration {S : Type} (traj : Interpolated S) : Except Abort Double :=
  if traj.mWaypoints.isEmpty = false then
    match traj.getEndTime, traj.getStartTime with
    | Except.ok e, Except.ok s => Except.ok (e - s)
    | Except.error a, _ => Except.error a
    | _, Except.error a => Except.error a
  else Except.ok (Double.ofRat 0 1)

/-- `addWaypoint` (lines 156-164): the copy of the state is inserted before the
position given by `lower_bound`. -/
def Interpolated.addWaypoint {S : Type} (traj : Interpolated S) (t : Double) (state : S) :
    Interpolated S :=
  let it := lower_bound traj.mWaypoints t
  { traj with
    mWaypoints := traj.mWaypoints.take it ++ { t := t, state := state } :: traj.mWaypoints.drop it }

/-- `getWaypointIndexAfterTime` (lines 216-226). -/
def Interpolated.getWaypointIndexAfterTime {S : Type} (traj : Interpolated S) (t : Double) :
    Except Abort Nat :=
  let it := lower_bound traj.mWaypoints t
  if it = traj.mWaypoints.length then
    Except.error (Abort.thrown
      (Exception.domain_error "_t is larger than the time value on the last waypoint."))
  else Except.ok it

/-- The call by which `evaluate` writes its output state: `copyState` of a
waypoint state, or `interpolate` between two waypoint states at a ratio. -/
inductive StateWrite (S : Type) where
  | copyState (source : S)
  | interpolate (prev current : S) (alpha : Double)
  deriving DecidableEq, Repr

/-- The body of the `try` block of `evaluate` (lines 83-98). -/
def Interpolated.evaluateTry {S : Type} (traj : Interpolated S) (t : Double) :
    Except Abort (StateWrite S) :=
  match traj.getWaypointIndexAfterTime t with
  | Except.error a => Except.error a
  | Except.ok idx =>
    if idx = 0 then
      match traj.mWaypoints.get? 0 with
      | some first => Except.ok (StateWrite.copyState first.state)
      | none => Except.error Abort.outOfBounds
    else
      match traj.mWaypoints.get? idx, traj.mWaypoints.get? (idx - 1) with
      | some currentWpt, some prevWpt =>
        Except.ok (StateWrite.interpolate prevWpt.state currentWpt.state
          ((t - prevWpt.t) / (currentWpt.t - prevWpt.t)))
      | _, _ => Except.error Abort.outOfBounds

/-- `evaluate` (lines 75-105), up to the call that writes the output state. A
`std::domain_error` from the `try` block is caught and the last waypoint copied. -/
def Interpolated.evaluateCall {S : Type} (traj : Interpolated S) (t : Double) :
    Except Abort (StateWrite S) :=
  if traj.mWaypoints.isEmpty then
    Except.error (Abort.thrown
      (Exception.invalid_argument "Requested trajectory point from an empty trajectory"))
  else
    match traj.evaluateTry t with
    | Except.error (Abort.thrown (Exception.domain_error _)) =>
      match traj.mWaypoints.getLast? with
      | some back => Except.ok (StateWrite.copyState back.state)
      | none => Except.error Abort.outOfBounds
    | r => r

/-- The state written by a call. -/
def StateWrite.run {S : Type} (interpolator : Interpolator S) : StateWrite S → S
  | StateWrite.copyState source => source
  | StateWrite.interpolate prev current alpha => interpolator.interpolate prev current alpha

/-- `evaluate` (lines 75-105): the output state. -/
def Interpolated.evaluate {S : Type} (traj : Interpolated S) (t : Double) : Except Abort S :=
  match traj.evaluateCall t with
  | Except.ok call => Except.ok (call.run traj.mInterpolator)
  | Except.error a => Except.error a

/-- The trajectory obtained from the empty one by a sequence of `addWaypoint`
calls, made in list order. -/
def Interpolated.ofCalls {S : Type} (interpolator : Interpolator S) (calls : List (Double × S)) :
    Interpolated S :=
  calls.foldl (fun traj call => traj.addWaypoint call.1 call.2) (Interpolated.new interpolator)

/-- The waypoint times of a trajectory, in waypoint order. -/
def Interpolated.times {S : Type} (traj : Interpolated S) : List Double :=
  traj.mWaypoints.map Waypoint.t

/-- The point of the plane with integer coordinates `x` and `y`. -/
def point (x y : Int) : Double × Double :=
  (Double.ofRat x 1, Double.ofRat y 1)

/-- The straight-line interpolator on planar states, with one derivative: the
point at ratio `alpha` on the segment from `a` to `b`, computed in doubles. -/
def linearR2 : Interpolator (Double × Double) where
  getNumDerivatives := 1
  interpolate := fun a b alpha => (a.1 + alpha * (b.1 - a.1), a.2 + alpha * (b.2 - a.2))
  getDerivative := fun a b derivative _ =>
    if derivative = 1 then [b.1 - a.1, b.2 - a.2] else [Double.ofRat 0 1, Double.ofRat 0 1]
  getDimension := 2

/-- The trajectory of the test fixture: (0,0) at 1, (3,3) at 3, (8,1) at 7. -/
def testTrajectory : Interpolated (Double × Double) :=
  Interpolated.ofCalls linearR2
    [(Double.ofRat 1 1, point 0 0), (Double.ofRat 3 1, point 3 3), (Double.ofRat 7 1, point 8 1)]

/-! ## Derivatives and unbounded waypoints of interpolated trajectories -/

/-- The conversion `static_cast<std::size_t>(_derivative)` of an `int`, for a
64-bit `std::size_t`. -/
def castSizeT (derivative : Int) : Nat :=
  (derivative % (2 ^ 64 : Int)).toNat

/-- The vector left by `resize(mStateSpace->getDimension())` and `setZero()`. -/
def zeroVector (dimension : Nat) : List Double :=
  List.replicate dimension (Double.ofRat 0 1)

/-- The body of the `try` block of `evaluateDerivative` (lines 129-145);
`_tangentVector /= segmentTime` divides each coordinate. -/
def Interpolated.evaluateDerivativeTry {S : Type} (traj : Interpolated S) (t : Double)
    (derivative : Int) : Except Abort (List Double) :=
  match traj.getWaypointIndexAfterTime t with
  | Except.error a => Except.error a
  | Except.ok idx =>
    if idx = 0 then
      Except.error (Abort.thrown (Exception.domain_error "Time is before the trajectory starts."))
    else
      match traj.mWaypoints.get? idx, traj.mWaypoints.get? (idx - 1) with
      | some currentWpt, some prevWpt =>
        let segmentTime := currentWpt.t - prevWpt.t
        let alpha := (t - prevWpt.t) / segmentTime
        Except.ok
          ((traj.mInterpolator.getDerivative prevWpt.state currentWpt.state derivative alpha).map
            (fun x => x / segmentTime))
      | _, _ => Except.error Abort.outOfBounds

/-- `evaluateDerivative` (lines 108-153): the content of `_tangentVector` when the
call returns; `tangentVector` is its content when the call is made. The block at
lines 115-120 zeroes the vector and control goes on to line 123. -/
def Interpolated.evaluateDerivative {S : Type} (traj : Interpolated S) (t : Double)
    (derivative : Int) (tangentVector : List Double) : Except Abort (List Double) :=
  if derivative = 0 then
    Except.error (Abort.thrown
      (Exception.invalid_argument "0th derivative not available. Use evaluate(t, state)."))
  else
    let _zeroed : List Double :=
      if castSizeT derivative > traj.mInterpolator.getNumDerivatives then
        zeroVector traj.mInterpolator.getDimension
      else tangentVector
    match traj.evaluate t with
    | Except.error a => Except.error a
    | Except.ok _ =>
      match traj.evaluateDerivativeTry t derivative with
      | Except.error (Abort.thrown (Exception.domain_error _)) =>
        Except.ok (zeroVector traj.mInterpolator.getDimension)
      | r => r

/-- `addWaypointUnbounded` (lines 167-188). `subspaceCopy` is the outcome of the
cast of `mStateSpace` to `CartesianProduct`: `none` when the state space is not
one (the null pointer is then used at line 170), and otherwise the map from the
given state to the new state built subspace by subspace at lines 173-183. The
new state is inserted as in `addWaypoint`. -/
def Interpolated.addWaypointUnbounded {S : Type} (traj : Interpolated S)
    (subspaceCopy : Option (S → S)) (t : Double) (state : S) : Except Abort (Interpolated S) :=
  match subspaceCopy with
  | none => Except.error Abort.nullDereference
  | some copy =>
    let it := lower_bound traj.mWaypoints t
    Except.ok
      { traj with
        mWaypoints :=
          traj.mWaypoints.take it ++ { t := t, state := copy state } :: traj.mWaypoints.drop it }

/-- A call that adds a waypoint. -/
inductive WaypointCall (S : Type) where
  | addWaypoint (t : Double) (state : S)
  | addWaypointUnbounded (t : Double) (state : S)

/-- The time given to a call. -/
def WaypointCall.time {S : Type} : WaypointCall S → Double
  | WaypointCall.addWaypoint t _ => t
  | WaypointCall.addWaypointUnbounded t _ => t

/-- A sequence of calls, made in list order on a trajectory; it stops at the first
call that does not return. -/
def Interpolated.applyCalls {S : Type} (subspaceCopy : Option (S → S)) :
    Interpolated S → List (WaypointCall S) → Except Abort (Interpolated S)
  | traj, [] => Except.ok traj
  | traj, WaypointCall.addWaypoint t state :: rest =>
    Interpolated.applyCalls subspaceCopy (traj.addWaypoint t state) rest
  | traj, WaypointCall.addWaypointUnbounded t state :: rest =>
    match traj.addWaypointUnbounded subspaceCopy t state with
    | Except.ok traj1 => Interpolated.applyCalls subspaceCopy traj1 rest
    | Except.error a => Except.error a

/-- An interpolator on planar states that announces one derivative and whose
`getDerivative` yields the constant vector (2, 2) at order 2 (the first
derivative is that of `linearR2`). -/
def curvedR2 : Interpolator (Double × Double) where
  getNumDerivatives := 1
  interpolate := linearR2.interpolate
  getDerivative := fun a b derivative _ =>
    if derivative = 1 then [b.1 - a.1, b.2 - a.2]
    else if derivative = 2 then [Double.ofRat 2 1, Double.ofRat 2 1]
    else [Double.ofRat 0 1, Double.ofRat 0 1]
  getDimension := 2

/-- The waypoints of the test fixture with the interpolator `curvedR2`. -/
def curvedTrajectory : Interpolated (Double × Double) :=
  Interpolated.ofCalls curvedR2
    [(Double.ofRat 1 1, point 0 0), (Double.ofRat 3 1, point 3 3), (Double.ofRat 7 1, point 8 1)]

/-! ## Example trajectories -/

/-- The largest finite double, `DBL_MAX`: (2^53 - 1) * 2^971. -/
def DBL_MAX : Double :=
  Double.finite false ((2 ^ 53 - 1) * 2 ^ 2045)

/-- The least positive double, `DBL_TRUE_MIN`: 2^(-1074), about 5e-324. -/
def DBL_TRUE_MIN : Double :=
  Double.finite false 1

/-- The waypoints of the test fixture and one more, (4,4), added at time 3 after
the waypoint (3,3) at time 3. -/
def duplicateTrajectory : Interpolated (Double × Double) :=
  Interpolated.ofCalls linearR2
    [(Double.ofRat 1 1, point 0 0), (Double.ofRat 3 1, point 3 3), (Double.ofRat 3 1, point 4 4),
      (Double.ofRat 7 1, point 8 1)]

/-- Two waypoints, (0,0) at `-DBL_MAX` and (1,1) at `DBL_MAX`. -/
def wideTrajectory : Interpolated (Double × Double) :=
  Interpolated.ofCalls linearR2 [(-DBL_MAX, point 0 0), (DBL_MAX, point 1 1)]

/-- Two waypoints, (10^16, 0) at time 1 and (1, 0) at time 3. -/
def steepTrajectory : Interpolated (Double × Double) :=
  Interpolated.ofCalls linearR2
    [(Double.ofRat 1 1, point 10000000000000000 0), (Double.ofRat 3 1, point 1 0)]

/-- Two waypoints, (0,0) at time 0 and (1,1) at time 4. -/
def shortTrajectory : Interpolated (Double × Double) :=
  Interpolated.ofCalls linearR2 [(Double.ofRat 0 1, point 0 0), (Double.ofRat 4 1, point 1 1)]

/-! ## The worker planner ConfigurationToConfiguration_to_ConfigurationToTSR

A shallow embedding of `plan` and `stopPlanning` of
`src/planner/dart/ConfigurationToConfiguration_to_ConfigurationToTSR.cpp`. The
sampling loop takes a fuel, one unit per evaluation of the loop condition. -/

/-- The data members read or written by `plan` and `stopPlanning`: the planning
flag and the end-effector body node (`none` when not set). -/
structure ConfigurationToConfiguration_to_ConfigurationToTSR where
  mPlanning : Bool
  mEndEffectorBodyNode : Option Nat
  deriving DecidableEq, Repr

/-- `stopPlanning` (lines 219-225): clears the flag and returns true. -/
def ConfigurationToConfiguration_to_ConfigurationToTSR.stopPlanning
    (self : ConfigurationToConfiguration_to_ConfigurationToTSR) :
    Bool × ConfigurationToConfiguration_to_ConfigurationToTSR :=
  (true, { self with mPlanning := false })

/-- Everything `plan` reads from outside the planner during one call. Iterations
of the sampling loop are counted from 0. `stopBefore k` tells whether another
thread has called `stopPlanning` after the previous access to the flag (the write
at line 49 for `k = 0`, the check of iteration `k - 1` otherwise) and before the
check of iteration `k`. -/
structure SamplingEnv where
  numDofs : Nat
  dofOfOtherSkeleton : Bool
  matchingNodes : Nat
  canSample : Nat → Bool
  sample : Nat → Bool
  delegatePlan : Nat → TrajectoryPtr
  stopBefore : Nat → Bool

/-- Writes of the flag and calls made by `plan`, in program order. -/
inductive WorkerEvent where
  | setPlanning (b : Bool)
  | canSample (k : Nat)
  | stopObserved (k : Nat)
  | sample (k : Nat)
  | delegatePlan (k : Nat)
  deriving DecidableEq, Repr

/-- A finished call of `plan` on the worker. -/
structure WorkerRun where
  returned : Returned
  self : ConfigurationToConfiguration_to_ConfigurationToTSR
  log : List WorkerEvent
  deriving DecidableEq, Repr

/-- The loop at lines 116-151 from iteration `k` on, followed by lines 153-157. -/
def samplingLoop (env : SamplingEnv) :
    Nat → Nat → ConfigurationToConfiguration_to_ConfigurationToTSR → List WorkerEvent →
      Option WorkerRun
  | 0, _, _, _ => none
  | fuel + 1, k, self, log =>
    if env.canSample k = false then
      some { returned := Returned.value none, self := { self with mPlanning := false }
             log := log ++ [WorkerEvent.canSample k, WorkerEvent.setPlanning false] }
    else
      let self1 := if env.stopBefore k then self.stopPlanning.2 else self
      if self1.mPlanning = false then
        some { returned := Returned.value none, self := self1
               log := log ++ [WorkerEvent.canSample k, WorkerEvent.stopObserved k] }
      else if env.sample k = false then
        samplingLoop env fuel (k + 1) self1
          (log ++ [WorkerEvent.canSample k, WorkerEvent.sample k])
      else
        match env.delegatePlan k with
        | some traj =>
          some { returned := Returned.value (some traj), self := { self1 with mPlanning := false }
                 log := log ++ [WorkerEvent.canSample k, WorkerEvent.sample k,
                   WorkerEvent.delegatePlan k, WorkerEvent.setPlanning false] }
        | none =>
          samplingLoop env fuel (k + 1) self1
            (log ++ [WorkerEvent.canSample k, WorkerEvent.sample k, WorkerEvent.delegatePlan k])

/-- The run that ends with a throw from one of the validations at lines 52-89,
each of which clears the flag first. -/
def validationThrow (self : ConfigurationToConfiguration_to_ConfigurationToTSR)
    (e : Exception) : WorkerRun :=
  { returned := Returned.throws e, self := { self with mPlanning := false }
    log := [WorkerEvent.setPlanning true, WorkerEvent.setPlanning false] }

/-- The member function `plan` (lines 43-158). -/
def ConfigurationToConfiguration_to_ConfigurationToTSR.plan
    (self : ConfigurationToConfiguration_to_ConfigurationToTSR) (env : SamplingEnv)
    (fuel : Nat) : Option WorkerRun :=
  let planning := { self with mPlanning := true }
  if planning.mEndEffectorBodyNode.isNone then
    some (validationThrow planning (Exception.runtime_error
      "ConfigurationToConfiguration_to_ConfigurationToTSR needs to set mEndEffectorBodyNode"))
  else if env.numDofs = 0 then
    some (validationThrow planning
      (Exception.invalid_argument "MetaSkeleton has 0 degrees of freedom."))
  else if env.dofOfOtherSkeleton then
    some (validationThrow planning
      (Exception.invalid_argument "MetaSkeleton has more than 1 skeleton."))
  else if env.matchingNodes = 0 then
    some (validationThrow planning
      (Exception.invalid_argument "End-effector BodyNode not found in Planner's MetaSkeleton."))
  else samplingLoop env fuel 0 planning [WorkerEvent.setPlanning true]

/-- A worker whose end effector is set and whose flag is false, as a
`stopPlanning` call of an earlier race leaves it. -/
def stoppedWorker : ConfigurationToConfiguration_to_ConfigurationToTSR :=
  { mPlanning := false, mEndEffectorBodyNode := some 0 }

/-- A call in which sampling always succeeds and the delegate never finds a
trajectory within 5 samples; another thread calls `stopPlanning` before the check
of iteration 2. -/
def stoppedAtTwo : SamplingEnv where
  numDofs := 7
  dofOfOtherSkeleton := false
  matchingNodes := 1
  canSample := fun k => decide (k < 5)
  sample := fun _ => true
  delegatePlan := fun _ => none
  stopBefore := fun k => k == 2

/-- A call in which sampling always succeeds, the delegate finds trajectory 9 at
iteration 1, and no thread calls `stopPlanning`. -/
def undisturbed : SamplingEnv where
  numDofs := 7
  dofOfOtherSkeleton := false
  matchingNodes := 1
  canSample := fun k => decide (k < 5)
  sample := fun _ => true
  delegatePlan := fun k => if k = 1 then some 9 else none
  stopBefore := fun _ => false

/-! ## ConfigurationRanker

A shallow embedding of `src/distance/ConfigurationRanker.cpp`. States are values
of a type `S`, scores are `double`s, and the virtual `evaluateIKSolution` is
taken as given. -/

/-- The data member `mIKSolutions`: states paired with scores. -/
structure ConfigurationRanker (S : Type) where
  mIKSolutions : List (S × Double)

/-- The constructor (lines 10-35); a null pointer argument is `none`. -/
def ConfigurationRanker.new {S : Type} (metaSkeletonStateSpace metaSkeleton : Option Nat)
    (ikSolutions : List S) : Except Exception (ConfigurationRanker S) :=
  if metaSkeletonStateSpace.isNone then
    Except.error (Exception.invalid_argument "MetaSkeletonStateSpace is nullptr.")
  else if metaSkeleton.isNone then
    Except.error (Exception.invalid_argument "MetaSkeleton is nullptr.")
  else if ikSolutions.isEmpty then
    Except.error (Exception.invalid_argument "Vector of IK Solutions is empty.")
  else Except.ok { mIKSolutions := ikSolutions.map (fun state => (state, Double.ofRat 0 1)) }

/-- The comparison object `sortingFunction` (lines 50-58): `<` on the scores, which
is false when either score is NaN. -/
def sortingFunction {S : Type} (left right : S × Double) : Bool :=
  decide (left.2 < right.2)

/-- The requirement of the standard on the comparison object of `std::sort`, on
the values of the range: `comp(a, a)` is false, `comp` is transitive, and so is
the equivalence `!comp(a, b) && !comp(b, a)`. -/
def strictWeakOrdering {α : Type} (comp : α → α → Bool) (range : List α) : Bool :=
  range.all (fun a => !comp a a)
    && range.all (fun a => range.all (fun b => range.all (fun c =>
        !(comp a b && comp b c) || comp a c)))
    && range.all (fun a => range.all (fun b => range.all (fun c =>
        !((!comp a b && !comp b a) && (!comp b c && !comp c b)) || (!comp a c && !comp c a))))

/-- `std::sort` with a comparison object. When the comparison object is no strict
weak ordering on the range the behaviour is undefined: `none`. Otherwise the
standard asks for a permutation in which no element is placed after one it
compares less than, and leaves the order of equivalent elements open; insertion
sort gives one such result. -/
def sort {α : Type} (comp : α → α → Bool) (range : List α) : Option (List α) :=
  if strictWeakOrdering comp range then
    some (range.insertionSort (fun a b => comp b a = false))
  else none

/-- `getRankedIKSolutions` (lines 44-61): the list returned, which is also the new
content of `mIKSolutions`; `none` when the behaviour of `std::sort` is undefined. -/
def ConfigurationRanker.getRankedIKSolutions {S : Type} (self : ConfigurationRanker S)
    (evaluateIKSolution : S → Double) : Option (List (S × Double) × ConfigurationRanker S) :=
  let scored := self.mIKSolutions.map (fun entry => (entry.1, evaluateIKSolution entry.1))
  match sort sortingFunction scored with
  | some sorted => some (sorted, { mIKSolutions := sorted })
  | none => none

/-! ## Lemmas on the launch loop -/

theorem launchLoop_none_eligible (self : ConcreteParallelMetaPlanner) (env : RaceEnv) :
    ∀ (todo i : Nat) (st : Launch),
      (∀ k, i ≤ k → k < i + todo → env.canSolve k = false) →
      launchLoop self env todo i st
        = Step.next { st with log := st.log ++ (List.range' i todo).map Event.canSolve } := by
  intro todo
  induction todo with
  | zero => intro i st _; simp [launchLoop]
  | succ n ih =>
    intro i st h
    have h0 : env.canSolve i = false := h i (Nat.le_refl i) (by omega)
    have hrest : ∀ k, i + 1 ≤ k → k < i + 1 + n → env.canSolve k = false :=
      fun k h1 h2 => h k (by omega) (by omega)
    simp [launchLoop, h0, ih (i + 1) _ hrest, List.range'_succ]

theorem launched_append (l1 l2 : List Event) : launched (l1 ++ l2) = launched l1 ++ launched l2 := by
  simp [launched, List.filterMap_append]

theorem launched_of_isPoll (l : List Event) (h : ∀ e ∈ l, e.isPoll = true) : launched l = [] := by
  induction l with
  | nil => rfl
  | cons e l ih =>
    have he := h e (List.mem_cons_self e l)
    have hl := ih (fun x hx => h x (List.mem_cons_of_mem e hx))
    cases e <;> simp_all [launched, Event.isPoll, Event.launchee]

theorem launchLoop_next (self : ConcreteParallelMetaPlanner) (env : RaceEnv) :
    ∀ (todo i : Nat) (st st1 : Launch), launchLoop self env todo i st = Step.next st1 →
      ∃ ext, st1.log = st.log ++ ext ∧ (∀ e ∈ ext, e.isLaunchStep = true)
        ∧ st1.futures = st.futures ++ launched ext
        ∧ st1.results = st.results + (launched ext).length := by
  intro todo
  induction todo with
  | zero =>
    intro i st st1 h
    simp only [launchLoop, Step.next.injEq] at h
    subst h
    exact ⟨[], by simp [launched]⟩
  | succ n ih =>
    intro i st st1 h
    unfold launchLoop at h
    split at h
    · obtain ⟨ext, h1, h2, h3, h4⟩ := ih _ _ _ h
      refine ⟨Event.canSolve i :: ext, ?_, ?_, ?_, ?_⟩
      · simpa using h1
      · intro e he
        rcases List.mem_cons.mp he with rfl | he
        · rfl
        · exact h2 e he
      · simpa [launched, Event.launchee] using h3
      · simpa [launched, Event.launchee] using h4
    · split at h
      · split at h
        · rename_i cd ms _ _
          obtain ⟨ext, h1, h2, h3, h4⟩ := ih _ _ _ h
          refine ⟨Event.canSolve i :: Event.cloneDartProblem i cd ms :: Event.launch i :: ext,
            ?_, ?_, ?_, ?_⟩
          · simpa using h1
          · intro e he
            simp only [List.mem_cons] at he
            rcases he with rfl | rfl | rfl | he
            · rfl
            · rfl
            · rfl
            · exact h2 e he
          · simpa [launched, Event.launchee] using h3
          · have h5 : launched (Event.canSolve i :: Event.cloneDartProblem i cd ms
                :: Event.launch i :: ext) = i :: launched ext := by
              simp [launched, Event.launchee]
            rw [h5, h4]
            simp only [List.length_cons]
            omega
        · cases h
      · cases h

theorem launchLoop_halt (self : ConcreteParallelMetaPlanner) (env : RaceEnv) :
    ∀ (todo i : Nat) (st : Launch) (exit : Exit) (log : List Event),
      launchLoop self env todo i st = Step.halt exit log →
      (exit = Exit.outOfBounds ∨ exit = Exit.notSupported)
        ∧ ∃ ext, log = st.log ++ ext ∧ ∀ e ∈ ext, e.isLaunchStep = true := by
  intro todo
  induction todo with
  | zero => intro i st exit log h; simp [launchLoop] at h
  | succ n ih =>
    intro i st exit log h
    unfold launchLoop at h
    split at h
    · obtain ⟨h0, ext, h1, h2⟩ := ih _ _ _ _ h
      refine ⟨h0, Event.canSolve i :: ext, by simpa using h1, ?_⟩
      intro e he
      rcases List.mem_cons.mp he with rfl | he
      · rfl
      · exact h2 e he
    · split at h
      · split at h
        · rename_i cd ms _ _
          obtain ⟨h0, ext, h1, h2⟩ := ih _ _ _ _ h
          refine ⟨h0, Event.canSolve i :: Event.cloneDartProblem i cd ms :: Event.launch i :: ext,
            by simpa using h1, ?_⟩
          intro e he
          simp only [List.mem_cons] at he
          rcases he with rfl | rfl | rfl | he
          · rfl
          · rfl
          · rfl
          · exact h2 e he
        · simp only [Step.halt.injEq] at h
          obtain ⟨rfl, rfl⟩ := h
          exact ⟨Or.inl rfl, [Event.canSolve i], rfl, by simp [Event.isLaunchStep]⟩
      · simp only [Step.halt.injEq] at h
        obtain ⟨rfl, rfl⟩ := h
        exact ⟨Or.inr rfl, [Event.canSolve i], rfl, by simp [Event.isLaunchStep]⟩

theorem launchLoop_dart (self : ConcreteParallelMetaPlanner) (env : RaceEnv)
    (hdart : env.isDartProblem = true) :
    ∀ (todo i : Nat) (st : Launch),
      (∀ k, i ≤ k → k < i + todo → env.canSolve k = true →
        k < self.mCollisionDetectors.length ∧ k < self.mClonedMetaSkeletons.length) →
      ∃ st1, launchLoop self env todo i st = Step.next st1
        ∧ st1.futures = st.futures ++ (List.range' i todo).filter env.canSolve := by
  intro todo
  induction todo with
  | zero => intro i st _; exact ⟨st, by simp [launchLoop]⟩
  | succ n ih =>
    intro i st h
    have hrest : ∀ k, i + 1 ≤ k → k < i + 1 + n → env.canSolve k = true →
        k < self.mCollisionDetectors.length ∧ k < self.mClonedMetaSkeletons.length :=
      fun k h1 h2 => h k (by omega) (by omega)
    unfold launchLoop
    by_cases hc : env.canSolve i = false
    · obtain ⟨st1, h1, h2⟩ := ih (i + 1) { st with log := st.log ++ [Event.canSolve i] } hrest
      exact ⟨st1, by simpa [hc] using h1, by simpa [List.range'_succ, List.filter_cons, hc] using h2⟩
    · have hc1 : env.canSolve i = true := by simpa using hc
      obtain ⟨hcd, hms⟩ := h i (Nat.le_refl i) (by omega) hc1
      obtain ⟨cd, hcd1⟩ : ∃ cd, self.mCollisionDetectors.get? i = some cd :=
        ⟨_, List.get?_eq_get hcd⟩
      obtain ⟨ms, hms1⟩ : ∃ ms, self.mClonedMetaSkeletons.get? i = some ms :=
        ⟨_, List.get?_eq_get hms⟩
      obtain ⟨st1, h1, h2⟩ := ih (i + 1)
        { futures := st.futures ++ [i]
          results := st.results + 1
          log := st.log ++ [Event.canSolve i, Event.cloneDartProblem i cd ms, Event.launch i] } hrest
      refine ⟨st1, ?_, ?_⟩
      · simp only [hc1, hdart, hcd1, hms1]
        simpa using h1
      · simpa [List.range'_succ, List.filter_cons, hc1] using h2

/-! ## Lemmas on one polling pass -/

theorem pollSlots_append (numPlanners : Nat) (env : RaceEnv) (pass : Nat) :
    ∀ (a b : List Nat) (j : Nat) (st : Poll),
      pollSlots numPlanners env pass (a ++ b) j st
        = match pollSlots numPlanners env pass a j st with
          | Step.next st1 => pollSlots numPlanners env pass b (j + a.length) st1
          | Step.halt exit log => Step.halt exit log := by
  intro a
  induction a with
  | nil => intro b j st; simp [pollSlots]
  | cons w a ih =>
    intro b j st
    have hj : j + 1 + a.length = j + (a.length + 1) := by omega
    rw [List.cons_append]
    simp only [pollSlots, List.length_cons]
    split
    · rfl
    · rw [ih, hj]
    · split
      · rw [ih, hj]
      · rfl
      · rw [ih, hj]
      · rfl

theorem pollSlots_halt (numPlanners : Nat) (env : RaceEnv) (pass : Nat) :
    ∀ (rest : List Nat) (j : Nat) (st : Poll) (exit : Exit) (log : List Event),
      pollSlots numPlanners env pass rest j st = Step.halt exit log →
      ∃ ext, (∀ e ∈ ext, e.isPoll = true) ∧
        ((exit = Exit.outOfBounds ∧ log = st.log ++ ext) ∨
          (∃ t w, exit = Exit.succeeded t ∧ w ∈ rest
            ∧ waitFor env pass w = Polled.ready (some t)
            ∧ log = st.log ++ ext ++ stopAll numPlanners ++ [Event.setRunning false]) ∨
          (∃ w, exit = Exit.terminated ∧ w ∈ rest ∧ waitFor env pass w = Polled.aborted
            ∧ log = st.log ++ ext)) := by
  intro rest
  induction rest with
  | nil => intro j st exit log h; simp [pollSlots] at h
  | cons w rest ih =>
    intro j st exit log h
    unfold pollSlots at h
    split at h
    · simp only [Step.halt.injEq] at h
      obtain ⟨rfl, rfl⟩ := h
      exact ⟨[], by simp, Or.inl ⟨rfl, by simp⟩⟩
    · obtain ⟨ext, h1, h2⟩ := ih _ _ _ _ h
      refine ⟨ext, h1, ?_⟩
      rcases h2 with h2 | ⟨t, w1, h3, h4, h5, h6⟩ | ⟨w1, h3, h4, h5, h6⟩
      · exact Or.inl h2
      · exact Or.inr (Or.inl ⟨t, w1, h3, List.mem_cons_of_mem w h4, h5, h6⟩)
      · exact Or.inr (Or.inr ⟨w1, h3, List.mem_cons_of_mem w h4, h5, h6⟩)
    · split at h
      · obtain ⟨ext, h1, h2⟩ := ih _ _ _ _ h
        refine ⟨Event.timeout pass j :: ext, ?_, ?_⟩
        · intro e he
          rcases List.mem_cons.mp he with rfl | he
          · rfl
          · exact h1 e he
        · rcases h2 with ⟨h2, h3⟩ | ⟨t, w1, h3, h4, h5, h6⟩ | ⟨w1, h3, h4, h5, h6⟩
          · exact Or.inl ⟨h2, by simpa using h3⟩
          · exact Or.inr (Or.inl
              ⟨t, w1, h3, List.mem_cons_of_mem w h4, h5, by simpa using h6⟩)
          · exact Or.inr (Or.inr ⟨w1, h3, List.mem_cons_of_mem w h4, h5, by simpa using h6⟩)
      · rename_i t hw
        simp only [Step.halt.injEq] at h
        obtain ⟨rfl, rfl⟩ := h
        refine ⟨[Event.ready pass j (some t)], by simp [Event.isPoll],
          Or.inr (Or.inl ⟨t, w, rfl, ?_, hw, ?_⟩)⟩
        · exact List.mem_cons_self w rest
        · simp [stopAll]
      · obtain ⟨ext, h1, h2⟩ := ih _ _ _ _ h
        refine ⟨Event.ready pass j none :: ext, ?_, ?_⟩
        · intro e he
          rcases List.mem_cons.mp he with rfl | he
          · rfl
          · exact h1 e he
        · rcases h2 with ⟨h2, h3⟩ | ⟨t, w1, h3, h4, h5, h6⟩ | ⟨w1, h3, h4, h5, h6⟩
          · exact Or.inl ⟨h2, by simpa using h3⟩
          · exact Or.inr (Or.inl
              ⟨t, w1, h3, List.mem_cons_of_mem w h4, h5, by simpa using h6⟩)
          · exact Or.inr (Or.inr ⟨w1, h3, List.mem_cons_of_mem w h4, h5, by simpa using h6⟩)
      · rename_i hw
        simp only [Step.halt.injEq] at h
        obtain ⟨rfl, rfl⟩ := h
        exact ⟨[], by simp, Or.inr (Or.inr ⟨w, rfl, List.mem_cons_self w rest, hw, by simp⟩)⟩

theorem pollSlots_next (numPlanners : Nat) (env : RaceEnv) (pass : Nat) :
    ∀ (rest : List Nat) (j : Nat) (st st1 : Poll),
      pollSlots numPlanners env pass rest j st = Step.next st1 →
      ∃ ext, st1.log = st.log ++ ext ∧ (∀ e ∈ ext, e.isPoll = true)
        ∧ st1.future_retrieved.length = st.future_retrieved.length
        ∧ (∀ k, k < j ∨ j + rest.length ≤ k → st1.future_retrieved[k]? = st.future_retrieved[k]?)
        ∧ st1.num_failures ≤ st.num_failures + rest.length
        ∧ (st1.num_failures = st.num_failures + rest.length →
            ∀ idx w, rest[idx]? = some w →
              waitFor env pass w = Polled.ready none
                ∧ Event.ready pass (j + idx) none ∈ ext) := by
  intro rest
  induction rest with
  | nil =>
    intro j st st1 h
    simp only [pollSlots, Step.next.injEq] at h
    subst h
    exact ⟨[], by simp⟩
  | cons w rest ih =>
    intro j st st1 h
    unfold pollSlots at h
    split at h
    · cases h
    · obtain ⟨ext, h1, h2, h3, h4, h5, h6⟩ := ih _ _ _ h
      refine ⟨ext, h1, h2, h3, ?_, ?_, ?_⟩
      · intro k hk
        exact h4 k (by simp only [List.length_cons] at hk; omega)
      · simp only [List.length_cons]; omega
      · intro heq
        simp only [List.length_cons] at heq
        omega
    · split at h
      · obtain ⟨ext, h1, h2, h3, h4, h5, h6⟩ := ih _ _ _ h
        refine ⟨Event.timeout pass j :: ext, by simpa using h1, ?_, h3, ?_, ?_, ?_⟩
        · intro e he
          rcases List.mem_cons.mp he with rfl | he
          · rfl
          · exact h2 e he
        · intro k hk
          exact h4 k (by simp only [List.length_cons] at hk; omega)
        · simp only [List.length_cons]; simp only at h5; omega
        · intro heq
          simp only [List.length_cons] at heq
          simp only at h5
          omega
      · cases h
      · rename_i hw
        obtain ⟨ext, h1, h2, h3, h4, h5, h6⟩ := ih _ _ _ h
        refine ⟨Event.ready pass j none :: ext, by simpa using h1, ?_, ?_, ?_, ?_, ?_⟩
        · intro e he
          rcases List.mem_cons.mp he with rfl | he
          · rfl
          · exact h2 e he
        · simpa using h3
        · intro k hk
          rw [h4 k (by simp only [List.length_cons] at hk; omega)]
          simp only [List.length_cons] at hk
          exact List.getElem?_set_ne (by omega)
        · simp only [List.length_cons]; simp only at h5; omega
        · intro heq idx w1 hidx
          simp only [List.length_cons] at heq
          simp only at h6
          have h7 := h6 (by omega)
          cases idx with
          | zero =>
            simp only [List.getElem?_cons_zero, Option.some.injEq] at hidx
            subst hidx
            exact ⟨hw, by simp⟩
          | succ idx =>
            simp only [List.getElem?_cons_succ] at hidx
            obtain ⟨h8, h9⟩ := h7 idx w1 hidx
            refine ⟨h8, List.mem_cons_of_mem _ ?_⟩
            have hj : j + (idx + 1) = j + 1 + idx := by omega
            rw [hj]
            exact h9
      · cases h

theorem pollSlots_quiet (numPlanners : Nat) (env : RaceEnv) (pass : Nat) :
    ∀ (rest : List Nat) (j : Nat) (st : Poll),
      j + rest.length ≤ st.future_retrieved.length →
      (∀ w ∈ rest, waitFor env pass w = Polled.timeout ∨ waitFor env pass w = Polled.ready none) →
      ∃ st1, pollSlots numPlanners env pass rest j st = Step.next st1 := by
  intro rest
  induction rest with
  | nil => intro j st _ _; exact ⟨st, rfl⟩
  | cons w rest ih =>
    intro j st hlen hq
    simp only [List.length_cons] at hlen
    have hrest : ∀ w1 ∈ rest,
        waitFor env pass w1 = Polled.timeout ∨ waitFor env pass w1 = Polled.ready none :=
      fun w1 h1 => hq w1 (List.mem_cons_of_mem w h1)
    have hw := hq w (List.mem_cons_self w rest)
    unfold pollSlots
    split
    · rename_i hget
      rw [List.get?_eq_none] at hget
      omega
    · exact ih _ _ (by omega) hrest
    · split
      · exact ih _ _ (by simp only; omega) hrest
      · rename_i t ht
        rcases hw with hw | hw <;> rw [hw] at ht <;> cases ht
      · exact ih _ _ (by simp only [List.length_set]; omega) hrest
      · rename_i ht
        rcases hw with hw | hw <;> rw [hw] at ht <;> cases ht

theorem waitFor_stable (env : RaceEnv) (p q w : Nat) (v : TrajectoryPtr)
    (h : waitFor env p w = Polled.ready v) :
    waitFor env q w = Polled.timeout ∨ waitFor env q w = Polled.ready v := by
  unfold waitFor at h ⊢
  by_cases hp : env.finished p w = true
  · rw [if_pos hp] at h
    by_cases hq : env.finished q w = true
    · exact Or.inr (by rw [if_pos hq]; exact h)
    · exact Or.inl (by rw [if_neg hq])
  · rw [if_neg hp] at h
    cases h

/-! ## Lemmas on the polling loop -/

theorem pollLoop_first_success (self : ConcreteParallelMetaPlanner) (env : RaceEnv)
    (result : Result) (pre post : List Nat) (w0 T p0 : Nat)
    (hwin : waitFor env p0 w0 = Polled.ready (some T))
    (hearlier : ∀ p, p < p0 → ∀ w ∈ pre ++ w0 :: post,
      waitFor env p w = Polled.timeout ∨ waitFor env p w = Polled.ready none)
    (hsame : ∀ w ∈ pre,
      waitFor env p0 w = Polled.timeout ∨ waitFor env p0 w = Polled.ready none) :
    ∀ (d pass : Nat) (retrieved : List Bool) (log : List Event),
      pass + d = p0 → retrieved.length = (pre ++ w0 :: post).length →
      retrieved[pre.length]? = some false →
      ∀ fuel, d < fuel →
        ∃ log1, pollLoop self env result (pre ++ w0 :: post) fuel pass retrieved log
          = some { exit := Exit.succeeded T, self := afterPoll self (Exit.succeeded T)
                   result := result, log := log1 } := by
  intro d
  induction d with
  | zero =>
    intro pass retrieved log hp hlen hget fuel hfuel
    obtain ⟨f, rfl⟩ : ∃ f, fuel = f + 1 := ⟨fuel - 1, by omega⟩
    have hp0 : pass = p0 := by omega
    subst hp0
    simp only [List.length_append, List.length_cons] at hlen
    obtain ⟨s1, hs1⟩ := pollSlots_quiet self.mPlanners.length env pass pre 0
      { future_retrieved := retrieved, num_failures := 0, log := log }
      (by simp only; omega) hsame
    obtain ⟨ext, _, _, _, h4, _, _⟩ := pollSlots_next _ _ _ _ _ _ _ hs1
    have hget1 : s1.future_retrieved.get? (0 + pre.length) = some false := by
      rw [List.get?_eq_getElem?, Nat.zero_add, h4 pre.length (Or.inr (by omega))]
      exact hget
    unfold pollLoop
    rw [pollSlots_append, hs1]
    simp only [pollSlots, hget1, hwin]
    exact ⟨_, rfl⟩
  | succ d ih =>
    intro pass retrieved log hp hlen hget fuel hfuel
    obtain ⟨f, rfl⟩ : ∃ f, fuel = f + 1 := ⟨fuel - 1, by omega⟩
    have hlt : pass < p0 := by omega
    have hlen1 := hlen
    simp only [List.length_append, List.length_cons] at hlen1
    have hq := hearlier pass hlt
    have hw0 : waitFor env pass w0 = Polled.timeout := by
      rcases waitFor_stable env p0 pass w0 (some T) hwin with h | h
      · exact h
      · rcases hq w0 (by simp) with h1 | h1 <;> rw [h1] at h <;> cases h
    obtain ⟨s1, hs1⟩ := pollSlots_quiet self.mPlanners.length env pass pre 0
      { future_retrieved := retrieved, num_failures := 0, log := log }
      (by simp only; omega) (fun w hw => hq w (by simp [hw]))
    obtain ⟨_, _, _, h3, h4, h5, _⟩ := pollSlots_next _ _ _ _ _ _ _ hs1
    simp only at h3 h4 h5
    have hget1 : s1.future_retrieved.get? (0 + pre.length) = some false := by
      rw [List.get?_eq_getElem?, Nat.zero_add, h4 pre.length (Or.inr (by omega))]
      exact hget
    obtain ⟨s2, hs2⟩ := pollSlots_quiet self.mPlanners.length env pass post (0 + pre.length + 1)
      { s1 with log := s1.log ++ [Event.timeout pass (0 + pre.length)] }
      (by simp only; omega) (fun w hw => hq w (by simp [hw]))
    obtain ⟨_, _, _, k3, k4, k5, _⟩ := pollSlots_next _ _ _ _ _ _ _ hs2
    simp only at k3 k4 k5
    have hne : s2.num_failures ≠ (pre ++ w0 :: post).length := by
      simp only [List.length_append, List.length_cons]
      omega
    have hget2 : s2.future_retrieved[pre.length]? = some false := by
      rw [k4 pre.length (Or.inl (by omega)), h4 pre.length (Or.inr (by omega))]
      exact hget
    obtain ⟨log1, hlog1⟩ := ih (pass + 1) s2.future_retrieved s2.log (by omega)
      (by rw [k3, h3]; exact hlen) hget2 f (by omega)
    refine ⟨log1, ?_⟩
    unfold pollLoop
    rw [pollSlots_append, hs1]
    simp only [pollSlots, hget1, hw0, hs2, if_neg hne]
    exact hlog1

theorem pollLoop_some (self : ConcreteParallelMetaPlanner) (env : RaceEnv) (result : Result)
    (futures : List Nat) :
    ∀ (fuel pass : Nat) (retrieved : List Bool) (log : List Event) (run : Run),
      pollLoop self env result futures fuel pass retrieved log = some run →
      run.self = afterPoll self run.exit ∧ run.result = result ∧
      ∃ ext, (∀ e ∈ ext, e.isPoll = true) ∧
        ((run.exit = Exit.outOfBounds ∧ run.log = log ++ ext) ∨
         (∃ t w p, run.exit = Exit.succeeded t ∧ w ∈ futures
            ∧ waitFor env p w = Polled.ready (some t)
            ∧ run.log = log ++ ext ++ stopAll self.mPlanners.length ++ [Event.setRunning false]) ∨
         (∃ p, run.exit = Exit.allFailed ∧ run.log = log ++ ext ++ [Event.setRunning false]
            ∧ ∀ idx w, futures[idx]? = some w →
                waitFor env p w = Polled.ready none ∧ Event.ready p idx none ∈ ext) ∨
         (∃ w p, run.exit = Exit.terminated ∧ w ∈ futures ∧ waitFor env p w = Polled.aborted
            ∧ run.log = log ++ ext)) := by
  intro fuel
  induction fuel with
  | zero => intro pass retrieved log run h; simp [pollLoop] at h
  | succ f ih =>
    intro pass retrieved log run h
    unfold pollLoop at h
    split at h
    · rename_i exit log1 hs
      simp only [Option.some.injEq] at h
      subst h
      refine ⟨rfl, rfl, ?_⟩
      obtain ⟨ext, h1, h2⟩ := pollSlots_halt _ _ _ _ _ _ _ _ hs
      refine ⟨ext, h1, ?_⟩
      rcases h2 with ⟨h2, h3⟩ | ⟨t, w, h2, h3, h4, h5⟩ | ⟨w, h2, h3, h4, h5⟩
      · exact Or.inl ⟨h2, h3⟩
      · exact Or.inr (Or.inl ⟨t, w, pass, h2, h3, h4, h5⟩)
      · exact Or.inr (Or.inr (Or.inr ⟨w, pass, h2, h3, h4, h5⟩))
    · rename_i st hs
      obtain ⟨ext, h1, h2, _, _, _, h6⟩ := pollSlots_next _ _ _ _ _ _ _ hs
      simp only at h1 h6
      split at h
      · rename_i hall
        simp only [Option.some.injEq] at h
        subst h
        refine ⟨rfl, rfl, ext, h2, Or.inr (Or.inr (Or.inl ⟨pass, rfl, by simp [h1], ?_⟩))⟩
        intro idx w hw
        have := h6 (by omega) idx w hw
        simpa using this
      · obtain ⟨k1, k2, ext2, k3, k4⟩ := ih _ _ _ _ h
        refine ⟨k1, k2, ext ++ ext2, ?_, ?_⟩
        · intro e he
          rcases List.mem_append.mp he with he | he
          · exact h2 e he
          · exact k3 e he
        · rcases k4 with ⟨k4, k5⟩ | ⟨t, w, p, k4, k5, k6, k7⟩ | ⟨p, k4, k5, k6⟩
              | ⟨w, p, k4, k5, k6, k7⟩
          · exact Or.inl ⟨k4, by rw [k5, h1, List.append_assoc]⟩
          · exact Or.inr (Or.inl ⟨t, w, p, k4, k5, k6, by rw [k7, h1]; simp⟩)
          · refine Or.inr (Or.inr (Or.inl ⟨p, k4, by rw [k5, h1]; simp, ?_⟩))
            intro idx w hw
            obtain ⟨k8, k9⟩ := k6 idx w hw
            exact ⟨k8, List.mem_append_right _ k9⟩
          · exact Or.inr (Or.inr (Or.inr
              ⟨w, p, k4, k5, k6, by rw [k7, h1, List.append_assoc]⟩))

theorem pollLoop_stuck (self : ConcreteParallelMetaPlanner) (env : RaceEnv) (result : Result)
    (pre post : List Nat) (w0 : Nat)
    (hnever : ∀ p, ∀ w ∈ pre ++ w0 :: post,
      waitFor env p w = Polled.timeout ∨ waitFor env p w = Polled.ready none) :
    ∀ (fuel pass : Nat) (retrieved : List Bool) (log : List Event),
      retrieved.length = (pre ++ w0 :: post).length →
      retrieved[pre.length]? = some true →
      pollLoop self env result (pre ++ w0 :: post) fuel pass retrieved log = none := by
  intro fuel
  induction fuel with
  | zero => intro pass retrieved log _ _; rfl
  | succ f ih =>
    intro pass retrieved log hlen hget
    have hlen1 := hlen
    simp only [List.length_append, List.length_cons] at hlen1
    have hq := hnever pass
    obtain ⟨s1, hs1⟩ := pollSlots_quiet self.mPlanners.length env pass pre 0
      { future_retrieved := retrieved, num_failures := 0, log := log }
      (by simp only; omega) (fun w hw => hq w (by simp [hw]))
    obtain ⟨_, _, _, h3, h4, h5, _⟩ := pollSlots_next _ _ _ _ _ _ _ hs1
    simp only at h3 h4 h5
    have hget1 : s1.future_retrieved.get? (0 + pre.length) = some true := by
      rw [List.get?_eq_getElem?, Nat.zero_add, h4 pre.length (Or.inr (by omega))]
      exact hget
    obtain ⟨s2, hs2⟩ := pollSlots_quiet self.mPlanners.length env pass post (0 + pre.length + 1)
      s1 (by omega) (fun w hw => hq w (by simp [hw]))
    obtain ⟨_, _, _, k3, k4, k5, _⟩ := pollSlots_next _ _ _ _ _ _ _ hs2
    have hne : s2.num_failures ≠ (pre ++ w0 :: post).length := by
      simp only [List.length_append, List.length_cons]
      omega
    have hget2 : s2.future_retrieved[pre.length]? = some true := by
      rw [k4 pre.length (Or.inl (by omega)), h4 pre.length (Or.inr (by omega))]
      exact hget
    unfold pollLoop
    rw [pollSlots_append, hs1]
    simp only [pollSlots, hget1, hs2, if_neg hne]
    exact ih (pass + 1) s2.future_retrieved s2.log (by rw [k3, h3]; exact hlen) hget2

/-! ## Lemmas on `plan` -/

theorem launched_of_isLaunchStep_raceLog (env : RaceEnv) (steps : List Event) :
    launched (raceLog env steps) = launched steps := by
  unfold raceLog
  cases env.isDartProblem <;> simp [launched, Event.launchee]

theorem clear_not_mem_raceLog (env : RaceEnv) (steps : List Event)
    (h : ∀ e ∈ steps, e.isLaunchStep = true) : Event.setRunning false ∉ raceLog env steps := by
  unfold raceLog
  intro hmem
  have hs : Event.setRunning false ∉ steps := fun hm => by
    have := h _ hm
    simp [Event.isLaunchStep] at this
  cases hd : env.isDartProblem <;> simp [hd] at hmem <;> exact hs hmem

theorem clear_not_mem_of_isPoll (ext : List Event) (h : ∀ e ∈ ext, e.isPoll = true) :
    Event.setRunning false ∉ ext := fun hm => by
  have := h _ hm
  simp [Event.isPoll] at this

theorem plan_running (self : ConcreteParallelMetaPlanner) (env : RaceEnv) (result : Result)
    (fuel : Nat) (h : self.mRunning = true) :
    self.plan env result fuel
      = some { exit := Exit.alreadyPlanning, self := self, result := result, log := [] } := by
  simp [ConcreteParallelMetaPlanner.plan, h]

theorem plan_idle_some (self : ConcreteParallelMetaPlanner) (env : RaceEnv) (result : Result)
    (fuel : Nat) (run : Run) (hidle : self.mRunning = false)
    (h : self.plan env result fuel = some run) :
    run.result = result ∧
    ∃ steps, (∀ e ∈ steps, e.isLaunchStep = true) ∧
      (((run.exit = Exit.outOfBounds ∨ run.exit = Exit.notSupported)
          ∧ run.self = { self with mRunning := true } ∧ run.log = raceLog env steps) ∨
       (run.exit = Exit.noneEligible ∧ launched steps = []
          ∧ run.self = { self with mRunning := false }
          ∧ run.log = raceLog env steps ++ [Event.setRunning false]) ∨
       (launched steps ≠ [] ∧ ∃ polls, (∀ e ∈ polls, e.isPoll = true) ∧
          ((run.exit = Exit.outOfBounds ∧ run.self = { self with mRunning := true }
              ∧ run.log = raceLog env steps ++ polls) ∨
           (∃ t w p, run.exit = Exit.succeeded t ∧ w ∈ launched steps
              ∧ waitFor env p w = Polled.ready (some t)
              ∧ run.self = { self with mRunning := false }
              ∧ run.log = raceLog env steps ++ polls ++ stopAll self.mPlanners.length
                  ++ [Event.setRunning false]) ∨
           (∃ p, run.exit = Exit.allFailed ∧ run.self = { self with mRunning := false }
              ∧ run.log = raceLog env steps ++ polls ++ [Event.setRunning false]
              ∧ ∀ idx w, (launched steps)[idx]? = some w →
                  waitFor env p w = Polled.ready none ∧ Event.ready p idx none ∈ polls) ∨
           (∃ w p, run.exit = Exit.terminated ∧ w ∈ launched steps
              ∧ waitFor env p w = Polled.aborted
              ∧ run.self = { self with mRunning := true }
              ∧ run.log = raceLog env steps ++ polls)))) := by
  unfold ConcreteParallelMetaPlanner.plan at h
  simp only [hidle, Bool.false_eq_true, if_false] at h
  split at h
  · rename_i exit log1 hl
    simp only [Option.some.injEq] at h
    subst h
    obtain ⟨h1, steps, h2, h3⟩ := launchLoop_halt _ _ _ _ _ _ _ hl
    exact ⟨rfl, steps, h3, Or.inl ⟨h1, rfl, by simpa [raceLog] using h2⟩⟩
  · rename_i st hl
    obtain ⟨steps, h1, h2, h3, h4⟩ := launchLoop_next _ _ _ _ _ _ hl
    simp only [List.nil_append, Nat.zero_add] at h3 h4
    have hlog : st.log = raceLog env steps := by simpa [raceLog] using h1
    split at h
    · rename_i hzero
      simp only [Option.some.injEq] at h
      subst h
      refine ⟨rfl, steps, h2, Or.inr (Or.inl ⟨rfl, ?_, rfl, by simp [hlog]⟩)⟩
      rw [← h3]
      exact List.length_eq_zero.mp hzero
    · rename_i hpos
      obtain ⟨k1, k2, polls, k3, k4⟩ := pollLoop_some _ _ _ _ _ _ _ _ _ h
      refine ⟨k2, steps, h2, Or.inr (Or.inr ⟨?_, polls, k3, ?_⟩)⟩
      · rw [← h3]
        intro hnil
        exact hpos (by simp [hnil])
      · rcases k4 with ⟨k4, k5⟩ | ⟨t, w, p, k4, k5, k6, k7⟩ | ⟨p, k4, k5, k6⟩
            | ⟨w, p, k4, k5, k6, k7⟩
        · exact Or.inl ⟨k4, by rw [k1, k4]; rfl, by rw [k5, hlog]⟩
        · refine Or.inr (Or.inl ⟨t, w, p, k4, by rw [← h3]; exact k5, k6, ?_, ?_⟩)
          · rw [k1, k4]; rfl
          · rw [k7, hlog]
        · refine Or.inr (Or.inr (Or.inl ⟨p, k4, ?_, by rw [k5, hlog], ?_⟩))
          · rw [k1, k4]; rfl
          · rw [← h3]; exact k6
        · refine Or.inr (Or.inr (Or.inr ⟨w, p, k4, by rw [← h3]; exact k5, k6, ?_, ?_⟩))
          · rw [k1, k4]; rfl
          · rw [k7, hlog]

theorem eligible_split (canSolve : Nat → Bool) (numPlanners w0 : Nat) (hw : w0 < numPlanners)
    (hc : canSolve w0 = true) :
    (List.range' 0 numPlanners).filter canSolve
      = (List.range' 0 w0).filter canSolve
          ++ w0 :: (List.range' (w0 + 1) (numPlanners - w0 - 1)).filter canSolve := by
  have h1 : List.range' 0 numPlanners
      = List.range' 0 w0 ++ List.range' (0 + w0) (numPlanners - w0) := by
    rw [List.range'_append_1]
    congr 1
    omega
  have h2 : List.range' (0 + w0) (numPlanners - w0)
      = w0 :: List.range' (w0 + 1) (numPlanners - w0 - 1) := by
    obtain ⟨m, hm⟩ : ∃ m, numPlanners - w0 = m + 1 := ⟨numPlanners - w0 - 1, by omega⟩
    rw [hm, List.range'_succ]
    simp
  rw [h1, h2, List.filter_append, List.filter_cons, if_pos hc]

theorem launched_stopAll (numPlanners : Nat) : launched (stopAll numPlanners) = [] := by
  unfold stopAll launched
  rw [List.filterMap_eq_nil_iff]
  intro e he
  rw [List.mem_map] at he
  obtain ⟨i, _, rfl⟩ := he
  rfl

theorem pollLoop_launched (self : ConcreteParallelMetaPlanner) (env : RaceEnv) (result : Result)
    (futures : List Nat) (fuel pass : Nat) (retrieved : List Bool) (log : List Event) (run : Run)
    (h : pollLoop self env result futures fuel pass retrieved log = some run) :
    launched run.log = launched log := by
  obtain ⟨_, _, ext, h1, h2⟩ := pollLoop_some _ _ _ _ _ _ _ _ _ h
  have hext := launched_of_isPoll ext h1
  rcases h2 with ⟨_, h3⟩ | ⟨t, w, p, _, _, _, h3⟩ | ⟨p, _, h3, _⟩ | ⟨w, p, _, _, _, h3⟩
  · rw [h3, launched_append, hext, List.append_nil]
  · rw [h3, launched_append, launched_append, launched_append, hext, launched_stopAll]
    simp [launched, Event.launchee]
  · rw [h3, launched_append, launched_append, hext]
    simp [launched, Event.launchee]
  · rw [h3, launched_append, hext, List.append_nil]

theorem plan_first_success (self : ConcreteParallelMetaPlanner) (env : RaceEnv)
    (result : Result) (pre post : List Nat) (w0 T p0 : Nat)
    (hidle : self.mRunning = false) (hdart : env.isDartProblem = true)
    (hbounds : ∀ k, k < self.mPlanners.length → env.canSolve k = true →
      k < self.mCollisionDetectors.length ∧ k < self.mClonedMetaSkeletons.length)
    (hsplit : (List.range' 0 self.mPlanners.length).filter env.canSolve = pre ++ w0 :: post)
    (hwin : waitFor env p0 w0 = Polled.ready (some T))
    (hearlier : ∀ p, p < p0 → ∀ w ∈ pre ++ w0 :: post,
      waitFor env p w = Polled.timeout ∨ waitFor env p w = Polled.ready none)
    (hsame : ∀ w ∈ pre,
      waitFor env p0 w = Polled.timeout ∨ waitFor env p0 w = Polled.ready none)
    (fuel : Nat) (hfuel : p0 < fuel) :
    ∃ log, self.plan env result fuel
        = some { exit := Exit.succeeded T, self := { self with mRunning := false }
                 result := result, log := log }
      ∧ launched log = pre ++ w0 :: post := by
  unfold ConcreteParallelMetaPlanner.plan
  simp only [hidle, Bool.false_eq_true, if_false]
  obtain ⟨st, hst, hfut⟩ := launchLoop_dart { self with mRunning := true } env hdart
    self.mPlanners.length 0
    { futures := [], results := 0
      log := Event.setRunning true :: (if env.isDartProblem then [] else [Event.cloneProblem]) }
    (fun k _ hk hc => hbounds k (by omega) hc)
  obtain ⟨steps, h1, _, h3, h4⟩ := launchLoop_next _ _ _ _ _ _ hst
  simp only [List.nil_append, Nat.zero_add] at h3 h4 hfut
  have hlaunched : launched st.log = st.futures := by
    have h5 : st.log = raceLog env steps := by simpa [raceLog] using h1
    rw [h5, launched_of_isLaunchStep_raceLog, h3]
  rw [hst]
  simp only
  rw [hsplit] at hfut
  have hlen : st.futures.length ≠ 0 := by
    rw [hfut]; simp
  rw [if_neg hlen, hfut]
  have hres : st.results = st.futures.length := by rw [h4, h3]
  obtain ⟨log1, hlog1⟩ := pollLoop_first_success { self with mRunning := true } env result
    pre post w0 T p0 hwin hearlier hsame
    p0 0 (List.replicate st.results false) st.log (by omega)
    (by rw [List.length_replicate, hres, hfut])
    (by
      rw [List.getElem?_replicate, if_pos]
      rw [hres, hfut]
      simp)
    fuel hfuel
  refine ⟨log1, hlog1, ?_⟩
  have := pollLoop_launched _ _ _ _ _ _ _ _ _ hlog1
  simp only at this
  rw [this, hlaunched, hfut]

theorem waitFor_some_none (env : RaceEnv) (p w : Nat)
    (h : waitFor env p w = Polled.ready none) :
    env.solve w = SolveOutcome.failed ∧ env.finished p w = true := by
  unfold waitFor at h
  by_cases hf : env.finished p w = true
  · rw [if_pos hf] at h
    refine ⟨?_, hf⟩
    cases hs : env.solve w <;> simp [hs, _plan] at h
    rfl
  · rw [if_neg hf] at h
    cases h

theorem waitFor_aborted (env : RaceEnv) (p w : Nat) :
    waitFor env p w = Polled.aborted
      ↔ env.solve w = SolveOutcome.faulted ∧ env.finished p w = true := by
  unfold waitFor
  by_cases hf : env.finished p w = true
  · rw [if_pos hf]
    cases hs : env.solve w <;> simp [_plan, hf]
  · rw [if_neg hf]
    simp [hf]

theorem Exit.returned_value_some (exit : Exit) (t : Nat)
    (h : exit.returned = Returned.value (some t)) : exit = Exit.succeeded t := by
  cases exit <;> simp [Exit.returned] at h
  rw [h]

theorem Exit.returned_value_none (exit : Exit) (h : exit.returned = Returned.value none) :
    exit = Exit.noneEligible ∨ exit = Exit.allFailed := by
  cases exit <;> simp [Exit.returned] at h
  · exact Or.inl rfl
  · exact Or.inr rfl

/-! ## The claims -/

/-- C1 (the code departs from the claim). Two eligible workers of the pool built
from two collision detectors both return `nullptr` on a `DartProblem`; the slot of
worker 0 is ready in the first pass, the slot of worker 1 is still pending in the
fourth pass and ready in the fifth. Every slot has then become ready with a null
trajectory, yet `plan` has no exit within any number of passes: `num_failures`
restarts at 0 in each pass and a slot already retrieved is skipped without being
counted, so the count never reaches `futures.size()`. -/
theorem plan_staggered_failures_never_returns :
    (ConcreteParallelMetaPlanner.fromTemplate (MetaSkeletonPtr.external 0) [10, 11] true
        []).outcome = Except.ok pool2
      ∧ waitFor staggeredFailures 0 0 = Polled.ready none
      ∧ waitFor staggeredFailures 3 1 = Polled.timeout
      ∧ waitFor staggeredFailures 4 1 = Polled.ready none
      ∧ ∀ fuel, pool2.plan staggeredFailures emptyResult fuel = none := by
  refine ⟨rfl, rfl, rfl, rfl, ?_⟩
  intro fuel
  cases fuel with
  | zero => rfl
  | succ f =>
    have hstep : ∃ log, pool2.plan staggeredFailures emptyResult (f + 1)
        = pollLoop { pool2 with mRunning := true } staggeredFailures emptyResult
            ([] ++ 0 :: [1]) f 1 [true, false] log := ⟨_, rfl⟩
    obtain ⟨log, hlog⟩ := hstep
    rw [hlog]
    apply pollLoop_stuck
    · intro p w _
      unfold waitFor
      split
      · exact Or.inr rfl
      · exact Or.inl rfl
    · rfl
    · rfl

/-- C2. Single winner: on an idle coordinator whose eligible planners all have a
collision detector and a cloned MetaSkeleton, racing a `DartProblem`, let worker
`k` be eligible with its slot ready in pass `p` holding trajectory `T`, and let the
slot of every other worker be, at every poll, not ready or ready with `nullptr`.
Then `plan` returns within `p + 1` passes, and what it returns is exactly `T`,
whichever index `k` is. -/
theorem plan_single_winner (self : ConcreteParallelMetaPlanner) (env : RaceEnv)
    (result : Result) (k T p : Nat)
    (hidle : self.mRunning = false) (hdart : env.isDartProblem = true)
    (hbounds : ∀ i, i < self.mPlanners.length → env.canSolve i = true →
      i < self.mCollisionDetectors.length ∧ i < self.mClonedMetaSkeletons.length)
    (hk : k < self.mPlanners.length) (hck : env.canSolve k = true)
    (hready : waitFor env p k = Polled.ready (some T))
    (hothers : ∀ i, i ≠ k → ∀ q,
      waitFor env q i = Polled.timeout ∨ waitFor env q i = Polled.ready none)
    (fuel : Nat) (hfuel : p < fuel) :
    ∃ run, self.plan env result fuel = some run
      ∧ run.exit.returned = Returned.value (some T) ∧ run.self.mRunning = false := by
  have hex : ∃ q, waitFor env q k = Polled.ready (some T) := ⟨p, hready⟩
  have hmin : ∀ q, q < Nat.find hex → waitFor env q k ≠ Polled.ready (some T) :=
    fun q hq => Nat.find_min hex hq
  have hle : Nat.find hex ≤ p := Nat.find_min' hex hready
  obtain ⟨log, hlog, _⟩ := plan_first_success self env result
    ((List.range' 0 k).filter env.canSolve)
    ((List.range' (k + 1) (self.mPlanners.length - k - 1)).filter env.canSolve)
    k T (Nat.find hex) hidle hdart hbounds (eligible_split env.canSolve _ k hk hck)
    (Nat.find_spec hex)
    (fun q hq w _ => by
      by_cases hwk : w = k
      · subst hwk
        rcases waitFor_stable env (Nat.find hex) q w (some T) (Nat.find_spec hex) with h | h
        · exact Or.inl h
        · exact absurd h (hmin q hq)
      · exact hothers w hwk q)
    (fun w hw => by
      rw [List.mem_filter, List.mem_range'_1] at hw
      exact hothers w (by omega) _)
    fuel (by omega)
  exact ⟨_, hlog, rfl, rfl⟩

/-- Witness for C2: in the pool of two workers, worker 1 finds trajectory 5 in the
fourth pass after worker 0 has failed; four passes return trajectory 5. -/
theorem plan_single_winner_witness :
    ∃ run, pool2.plan lateWinner emptyResult 4 = some run
      ∧ run.exit.returned = Returned.value (some 5) ∧ run.self.mRunning = false :=
  plan_single_winner pool2 lateWinner emptyResult 1 5 3 rfl rfl
    (fun _ hi _ => ⟨hi, hi⟩) (by decide) rfl rfl
    (fun i hi q => by
      unfold waitFor
      split
      · exact Or.inr (by simp [lateWinner, _plan, hi])
      · exact Or.inl rfl)
    4 (by decide)

/-- C3. Tie-break by observation order: on an idle coordinator racing a
`DartProblem`, the result slots are owned, in slot order, by the eligible planners
in index order. Let slot `j0` (owner `w0`) be ready with trajectory `T` in pass
`p0`, and let no slot be ready with a trajectory at an earlier pair in the
lexicographic order of (pass, slot index), the process being alive at each of
these polls (no worker polled there has thrown). Then `plan` returns `T` in pass
`p0`, and the workers it launched are the slot owners in slot order. -/
theorem plan_first_observed_success_wins (self : ConcreteParallelMetaPlanner)
    (env : RaceEnv) (result : Result) (j0 w0 T p0 : Nat)
    (hidle : self.mRunning = false) (hdart : env.isDartProblem = true)
    (hbounds : ∀ i, i < self.mPlanners.length → env.canSolve i = true →
      i < self.mCollisionDetectors.length ∧ i < self.mClonedMetaSkeletons.length)
    (hslot : ((List.range self.mPlanners.length).filter env.canSolve)[j0]? = some w0)
    (hwin : waitFor env p0 w0 = Polled.ready (some T))
    (hfirst : ∀ p j w, ((List.range self.mPlanners.length).filter env.canSolve)[j]? = some w →
      p < p0 ∨ (p = p0 ∧ j < j0) → ∀ t, waitFor env p w ≠ Polled.ready (some t))
    (halive : ∀ p j w, ((List.range self.mPlanners.length).filter env.canSolve)[j]? = some w →
      p < p0 ∨ (p = p0 ∧ j < j0) → waitFor env p w ≠ Polled.aborted)
    (fuel : Nat) (hfuel : p0 < fuel) :
    ∃ run, self.plan env result fuel = some run
      ∧ run.exit.returned = Returned.value (some T)
      ∧ launched run.log = (List.range self.mPlanners.length).filter env.canSolve := by
  rw [List.range_eq_range'] at hslot hfirst halive ⊢
  have hquiet : ∀ p j w,
      ((List.range' 0 self.mPlanners.length).filter env.canSolve)[j]? = some w →
      p < p0 ∨ (p = p0 ∧ j < j0) →
      waitFor env p w = Polled.timeout ∨ waitFor env p w = Polled.ready none := by
    intro p j w hjw hlt
    have h1 := hfirst p j w hjw hlt
    have h2 := halive p j w hjw hlt
    cases hp : waitFor env p w with
    | timeout => exact Or.inl rfl
    | ready v =>
      cases v with
      | none => exact Or.inr rfl
      | some t => exact absurd hp (h1 t)
    | aborted => exact absurd hp h2
  obtain ⟨hj0, hw0⟩ := List.getElem?_eq_some.mp hslot
  have hsplit : (List.range' 0 self.mPlanners.length).filter env.canSolve
      = ((List.range' 0 self.mPlanners.length).filter env.canSolve).take j0
        ++ w0 :: ((List.range' 0 self.mPlanners.length).filter env.canSolve).drop (j0 + 1) := by
    rw [← hw0, List.getElem_cons_drop, List.take_append_drop]
  obtain ⟨log, hlog, hlaunched⟩ := plan_first_success self env result _ _ w0 T p0 hidle hdart
    hbounds hsplit hwin
    (fun p hp w hw => by
      rw [← hsplit] at hw
      obtain ⟨j, hj, hjw⟩ := List.getElem_of_mem hw
      exact hquiet p j w (List.getElem?_eq_some.mpr ⟨hj, hjw⟩) (Or.inl hp))
    (fun w hw => by
      obtain ⟨j, hj, hjw⟩ := List.getElem_of_mem hw
      rw [List.getElem_take] at hjw
      rw [List.length_take] at hj
      exact hquiet p0 j w (List.getElem?_eq_some.mpr ⟨by omega, hjw⟩)
        (Or.inr ⟨rfl, by omega⟩))
    fuel hfuel
  exact ⟨_, hlog, rfl, by rw [hlaunched, ← hsplit]⟩

/-- Witness for C3: three workers, only the slot of worker 2 is ready in the first
pass (workers 0 and 1 would succeed later): trajectory 7 of worker 2 is returned. -/
theorem plan_first_observed_success_wins_witness :
    ∃ run, pool3.plan thirdFirst emptyResult 1 = some run
      ∧ run.exit.returned = Returned.value (some 7)
      ∧ launched run.log = (List.range pool3.mPlanners.length).filter thirdFirst.canSolve :=
  plan_first_observed_success_wins pool3 thirdFirst emptyResult 2 2 7 0 rfl rfl
    (fun _ hi _ => ⟨hi, hi⟩) rfl rfl
    (fun p j w hjw hlt t => by
      have hj : j < 2 := by omega
      have hw : w ≠ 2 := by
        interval_cases j <;> simp [pool3, thirdFirst, List.range, List.range.loop] at hjw
          <;> omega
      unfold waitFor
      simp [thirdFirst, hw])
    (fun p j w hjw hlt => by
      have hj : j < 2 := by omega
      have hw : w ≠ 2 := by
        interval_cases j <;> simp [pool3, thirdFirst, List.range, List.range.loop] at hjw
          <;> omega
      unfold waitFor
      simp [thirdFirst, hw])
    1 (by decide)

/-- C4. Cancellation on success: whenever `plan` returns a non-null trajectory, the
log of the call ends with `stopPlanning` on every planner of `mPlanners`, in
index order, followed by the write `mRunning = false`, and `mRunning` is not
cleared anywhere before that broadcast. -/
theorem success_stops_every_planner (self : ConcreteParallelMetaPlanner) (env : RaceEnv)
    (result : Result) (fuel : Nat) (run : Run) (t : Nat)
    (h : self.plan env result fuel = some run)
    (hret : run.exit.returned = Returned.value (some t)) :
    (∃ before, run.log = before ++ (List.range self.mPlanners.length).map Event.stopPlanning
          ++ [Event.setRunning false]
        ∧ Event.setRunning false ∉ before)
      ∧ (∀ i, i < self.mPlanners.length → Event.stopPlanning i ∈ run.log)
      ∧ run.self.mRunning = false := by
  have hexit := Exit.returned_value_some _ _ hret
  cases hrun : self.mRunning with
  | true =>
    rw [plan_running self env result fuel hrun] at h
    simp only [Option.some.injEq] at h
    subst h
    cases hexit
  | false =>
    obtain ⟨_, steps, h1, h2⟩ := plan_idle_some self env result fuel run hrun h
    rcases h2 with ⟨h3 | h3, _⟩ | ⟨h3, _⟩ | ⟨_, polls, h4, h5⟩
    · rw [h3] at hexit; cases hexit
    · rw [h3] at hexit; cases hexit
    · rw [h3] at hexit; cases hexit
    · rcases h5 with ⟨h3, _⟩ | ⟨t1, w, p, _, _, _, h6, h7⟩ | ⟨p, h3, _⟩ | ⟨w, p, h3, _⟩
      · rw [h3] at hexit; cases hexit
      · refine ⟨⟨raceLog env steps ++ polls, h7, ?_⟩, ?_, by rw [h6]⟩
        · intro hmem
          rcases List.mem_append.mp hmem with hm | hm
          · exact clear_not_mem_raceLog env steps h1 hm
          · exact clear_not_mem_of_isPoll polls h4 hm
        · intro i hi
          rw [h7]
          simp only [stopAll, List.mem_append, List.mem_map, List.mem_range]
          exact Or.inl (Or.inr ⟨i, hi, rfl⟩)
      · rw [h3] at hexit; cases hexit
      · rw [h3] at hexit; cases hexit

/-- Witness for C4: the race of two workers won by worker 1 in the fourth pass. -/
theorem success_stops_every_planner_witness :
    ∃ run, pool2.plan lateWinner emptyResult 4 = some run
      ∧ run.exit.returned = Returned.value (some 5)
      ∧ (∃ before, run.log = before ++ (List.range pool2.mPlanners.length).map Event.stopPlanning
            ++ [Event.setRunning false]
          ∧ Event.setRunning false ∉ before)
      ∧ (∀ i, i < pool2.mPlanners.length → Event.stopPlanning i ∈ run.log)
      ∧ run.self.mRunning = false :=
  ⟨_, rfl, rfl, success_stops_every_planner pool2 lateWinner emptyResult 4 _ 5 rfl rfl⟩

/-- C5. Single-flight guard: on a coordinator with `mRunning = true`, `plan` ends
at once, whatever the problem and the workers do, by throwing
`runtime_error("Currently planning another problem")`; the coordinator is
unchanged (so `mRunning` stays true), the caller's `Result` is unchanged, and no
call has been made: no `canSolve`, no launch, no `stopPlanning`. -/
theorem plan_rejected_while_running (self : ConcreteParallelMetaPlanner) (env : RaceEnv)
    (result : Result) (fuel : Nat) (hrunning : self.mRunning = true) :
    ∃ run, self.plan env result fuel = some run
      ∧ run.exit.returned
          = Returned.throws (Exception.runtime_error "Currently planning another problem")
      ∧ run.self = self ∧ run.self.mRunning = true ∧ run.result = result ∧ run.log = [] :=
  ⟨_, plan_running self env result fuel hrunning, rfl, rfl, hrunning, rfl, rfl⟩

/-- Witness for C5: a second call on the pool of two workers while a race is in
flight, with no polling pass allowed. -/
theorem plan_rejected_while_running_witness :
    ∃ run, ({ pool2 with mRunning := true } : ConcreteParallelMetaPlanner).plan
        thirdFirst emptyResult 0 = some run
      ∧ run.exit.returned
          = Returned.throws (Exception.runtime_error "Currently planning another problem")
      ∧ run.self = { pool2 with mRunning := true } ∧ run.self.mRunning = true
      ∧ run.result = emptyResult ∧ run.log = [] :=
  plan_rejected_while_running { pool2 with mRunning := true } thirdFirst emptyResult 0 rfl

/-- C6. Coordinator state machine: both constructors leave `mRunning` false; and
after every call of `plan` that ends with the return of a trajectory (Succeeded)
or with one of the two `nullptr` returns (AllFailed, NoneEligible), `mRunning` is
false, so that no later call of `plan` on that coordinator ends at the
single-flight guard. -/
theorem coordinator_idle_after_race :
    (∀ ms cds planners, (ConcreteParallelMetaPlanner.fromPlanners ms cds planners).mRunning = false)
      ∧ (∀ ms cds castedPlanner rngs c,
          (ConcreteParallelMetaPlanner.fromTemplate ms cds castedPlanner rngs).outcome = Except.ok c →
          c.mRunning = false)
      ∧ (∀ (self : ConcreteParallelMetaPlanner) env result fuel run,
          self.plan env result fuel = some run →
          (run.exit = Exit.noneEligible ∨ run.exit = Exit.allFailed
            ∨ ∃ t, run.exit = Exit.succeeded t) →
          run.self.mRunning = false
            ∧ ∀ env2 result2 fuel2 run2, run.self.plan env2 result2 fuel2 = some run2 →
                run2.exit ≠ Exit.alreadyPlanning) := by
  refine ⟨fun _ _ _ => rfl, ?_, ?_⟩
  · intro ms cds castedPlanner rngs c h
    unfold ConcreteParallelMetaPlanner.fromTemplate at h
    split at h
    · cases h
    · simp only [Except.ok.injEq] at h
      rw [← h]
  · intro self env result fuel run h hconcl
    have hidle : run.self.mRunning = false := by
      cases hrun : self.mRunning with
      | true =>
        rw [plan_running self env result fuel hrun] at h
        simp only [Option.some.injEq] at h
        subst h
        rcases hconcl with h1 | h1 | ⟨t, h1⟩ <;> cases h1
      | false =>
        obtain ⟨_, steps, _, h2⟩ := plan_idle_some self env result fuel run hrun h
        rcases h2 with ⟨h3 | h3, _⟩ | ⟨_, _, h3, _⟩ | ⟨_, polls, _, h5⟩
        · rw [h3] at hconcl; rcases hconcl with h1 | h1 | ⟨t, h1⟩ <;> cases h1
        · rw [h3] at hconcl; rcases hconcl with h1 | h1 | ⟨t, h1⟩ <;> cases h1
        · rw [h3]
        · rcases h5 with ⟨h3, _⟩ | ⟨t1, w, p, _, _, _, h6, _⟩ | ⟨p, _, h6, _⟩ | ⟨w, p, h3, _⟩
          · rw [h3] at hconcl; rcases hconcl with h1 | h1 | ⟨t, h1⟩ <;> cases h1
          · rw [h6]
          · rw [h6]
          · rw [h3] at hconcl; rcases hconcl with h1 | h1 | ⟨t, h1⟩ <;> cases h1
    refine ⟨hidle, ?_⟩
    intro env2 result2 fuel2 run2 h2 hrej
    obtain ⟨_, steps, _, k2⟩ := plan_idle_some run.self env2 result2 fuel2 run2 hidle h2
    rcases k2 with ⟨h3 | h3, _⟩ | ⟨h3, _⟩ | ⟨_, polls, _, h5⟩
    · rw [h3] at hrej; cases hrej
    · rw [h3] at hrej; cases hrej
    · rw [h3] at hrej; cases hrej
    · rcases h5 with ⟨h3, _⟩ | ⟨t1, w, p, h3, _⟩ | ⟨p, h3, _⟩ | ⟨w, p, h3, _⟩ <;>
        rw [h3] at hrej <;> cases hrej

/-- Witness for C6: after the race in which both workers of the pool fail in the
first pass, the coordinator is idle, and the next race on it, won by worker 1, is
not rejected. -/
theorem coordinator_idle_after_race_witness :
    ∃ run run2, pool2.plan simultaneousFailures emptyResult 1 = some run
      ∧ run.exit = Exit.allFailed
      ∧ run.self.plan lateWinner emptyResult 4 = some run2
      ∧ run.self.mRunning = false ∧ run2.exit ≠ Exit.alreadyPlanning :=
  ⟨_, _, rfl, rfl, rfl,
    (coordinator_idle_after_race.2.2 pool2 simultaneousFailures emptyResult 1 _ rfl
      (Or.inr (Or.inl rfl))).1,
    (coordinator_idle_after_race.2.2 pool2 simultaneousFailures emptyResult 1 _ rfl
      (Or.inr (Or.inl rfl))).2 lateWinner emptyResult 4 _ rfl⟩

/-- C7. No eligible worker: on an idle coordinator, if `canSolve` is false on every
planner of `mPlanners` (in particular if `mPlanners` is empty), `plan` returns
`nullptr` whatever the number of polling passes allowed, and leaves `mRunning`
false. Its calls are exactly: the write `mRunning = true`, one `problem.clone()`
if the problem is not a `DartProblem`, `canSolve` once on each planner in index
order, the write `mRunning = false`. So no worker is launched, no per-worker
clone of the problem is made, and no slot is polled. -/
theorem plan_none_eligible (self : ConcreteParallelMetaPlanner) (env : RaceEnv)
    (result : Result) (fuel : Nat) (hidle : self.mRunning = false)
    (hnone : ∀ i, i < self.mPlanners.length → env.canSolve i = false) :
    ∃ run, self.plan env result fuel = some run
      ∧ run.exit = Exit.noneEligible
      ∧ run.exit.returned = Returned.value none
      ∧ run.self.mRunning = false
      ∧ run.log = Event.setRunning true
          :: ((if env.isDartProblem then [] else [Event.cloneProblem])
              ++ (List.range self.mPlanners.length).map Event.canSolve
              ++ [Event.setRunning false])
      ∧ launched run.log = []
      ∧ (∀ i cd ms, Event.cloneDartProblem i cd ms ∉ run.log)
      ∧ (∀ e ∈ run.log, e.isPoll = false) := by
  have hloop := launchLoop_none_eligible { self with mRunning := true } env
    self.mPlanners.length 0
    { futures := [], results := 0
      log := Event.setRunning true :: (if env.isDartProblem then [] else [Event.cloneProblem]) }
    (fun k _ hk => hnone k (by omega))
  have hplan : self.plan env result fuel = some
      { exit := Exit.noneEligible, self := { self with mRunning := false }, result := result
        log := Event.setRunning true
          :: ((if env.isDartProblem then [] else [Event.cloneProblem])
              ++ (List.range self.mPlanners.length).map Event.canSolve
              ++ [Event.setRunning false]) } := by
    unfold ConcreteParallelMetaPlanner.plan
    simp only [hidle, Bool.false_eq_true, if_false]
    rw [hloop]
    simp [List.range_eq_range']
  refine ⟨_, hplan, rfl, rfl, rfl, rfl, ?_, ?_, ?_⟩
  · cases env.isDartProblem <;> simp [launched, Event.launchee, List.filterMap_eq_nil_iff]
  · intro i cd ms
    cases env.isDartProblem <;> simp
  · intro e he
    cases hd : env.isDartProblem <;> simp [hd] at he <;>
      rcases he with rfl | he <;> try rfl
    all_goals
      first
      | (rcases he with rfl | he
         · rfl
         · rcases he with ⟨i, _, rfl⟩ | rfl <;> rfl)
      | (rcases he with ⟨i, _, rfl⟩ | rfl <;> rfl)

/-- Witness for C7: on the pool of two workers no planner can solve the problem;
`plan` returns `nullptr` with no polling pass allowed. -/
theorem plan_none_eligible_witness :
    ∃ run, pool2.plan nobodyEligible emptyResult 0 = some run
      ∧ run.exit = Exit.noneEligible
      ∧ run.exit.returned = Returned.value none
      ∧ run.self.mRunning = false
      ∧ run.log = Event.setRunning true
          :: ((if nobodyEligible.isDartProblem then [] else [Event.cloneProblem])
              ++ (List.range pool2.mPlanners.length).map Event.canSolve
              ++ [Event.setRunning false])
      ∧ launched run.log = []
      ∧ (∀ i cd ms, Event.cloneDartProblem i cd ms ∉ run.log)
      ∧ (∀ e ∈ run.log, e.isPoll = false) :=
  plan_none_eligible pool2 nobodyEligible emptyResult 0 rfl (fun _ _ => rfl)

/-- Counterexample to C8 as stated: on the pool of two workers, the run in which no
planner is eligible and the run in which both launched workers fail hand the
caller the same return value (`nullptr`), the same `Result` object and the same
coordinator. -/
theorem noneEligible_allFailed_same_outputs :
    ∃ runA runB, pool2.plan nobodyEligible emptyResult 1 = some runA
      ∧ runA.exit = Exit.noneEligible
      ∧ pool2.plan simultaneousFailures emptyResult 1 = some runB
      ∧ runB.exit = Exit.allFailed
      ∧ runA.exit.returned = runB.exit.returned
      ∧ runA.result = runB.result
      ∧ runA.self = runB.self :=
  ⟨_, _, rfl, rfl, rfl, rfl, rfl, rfl, rfl⟩

/-- C8, amended. The exits NoneEligible and AllFailed are not told apart by what
`plan` hands back: for any two runs started on the same coordinator with the same
caller `Result`, one ending with no planner eligible and one ending with every
launched worker failed, both return `nullptr`, both leave the `Result` object as
it was, and both leave the same coordinator, with `mRunning` false. They differ
only in the calls made (workers launched, slots polled). -/
theorem noneEligible_allFailed_not_distinguished (self : ConcreteParallelMetaPlanner)
    (envA envB : RaceEnv) (result : Result) (fuelA fuelB : Nat) (runA runB : Run)
    (hA : self.plan envA result fuelA = some runA) (hAexit : runA.exit = Exit.noneEligible)
    (hB : self.plan envB result fuelB = some runB) (hBexit : runB.exit = Exit.allFailed) :
    runA.exit.returned = Returned.value none
      ∧ runB.exit.returned = Returned.value none
      ∧ runA.result = result ∧ runB.result = result
      ∧ runA.self = runB.self ∧ runA.self.mRunning = false
      ∧ launched runA.log = [] ∧ launched runB.log ≠ [] := by
  cases hrun : self.mRunning with
  | true =>
    rw [plan_running self envA result fuelA hrun] at hA
    simp only [Option.some.injEq] at hA
    subst hA
    cases hAexit
  | false =>
    obtain ⟨a1, stepsA, _, a2⟩ := plan_idle_some self envA result fuelA runA hrun hA
    obtain ⟨b1, stepsB, _, b2⟩ := plan_idle_some self envB result fuelB runB hrun hB
    have hselfA : runA.self = { self with mRunning := false } ∧ launched runA.log = [] := by
      rcases a2 with ⟨h3 | h3, _⟩ | ⟨_, h4, h3, h5⟩ | ⟨_, polls, _, h5⟩
      · rw [h3] at hAexit; cases hAexit
      · rw [h3] at hAexit; cases hAexit
      · refine ⟨h3, ?_⟩
        rw [h5, launched_append, launched_of_isLaunchStep_raceLog, h4]
        rfl
      · rcases h5 with ⟨h3, _⟩ | ⟨t1, w, p, h3, _⟩ | ⟨p, h3, _⟩ | ⟨w, p, h3, _⟩ <;>
          rw [h3] at hAexit <;> cases hAexit
    have hselfB : runB.self = { self with mRunning := false } ∧ launched runB.log ≠ [] := by
      rcases b2 with ⟨h3 | h3, _⟩ | ⟨h3, _⟩ | ⟨h4, polls, h6, h5⟩
      · rw [h3] at hBexit; cases hBexit
      · rw [h3] at hBexit; cases hBexit
      · rw [h3] at hBexit; cases hBexit
      · rcases h5 with ⟨h3, _⟩ | ⟨t1, w, p, h3, _⟩ | ⟨p, _, h3, h7, _⟩ | ⟨w, p, h3, _⟩
        · rw [h3] at hBexit; cases hBexit
        · rw [h3] at hBexit; cases hBexit
        · refine ⟨h3, ?_⟩
          rw [h7, launched_append, launched_append, launched_of_isLaunchStep_raceLog,
            launched_of_isPoll polls h6]
          simpa [launched, Event.launchee] using h4
        · rw [h3] at hBexit; cases hBexit
    refine ⟨by rw [hAexit]; rfl, by rw [hBexit]; rfl, a1, b1, ?_, ?_, hselfA.2, hselfB.2⟩
    · rw [hselfA.1, hselfB.1]
    · rw [hselfA.1]

/-- Witness for C8, amended: the two kinds of run on the pool of three workers. -/
theorem noneEligible_allFailed_not_distinguished_witness :
    ∃ runA runB, pool3.plan nobodyEligible emptyResult 0 = some runA
      ∧ pool3.plan simultaneousFailures emptyResult 1 = some runB
      ∧ runA.exit.returned = Returned.value none
      ∧ runB.exit.returned = Returned.value none
      ∧ runA.result = emptyResult ∧ runB.result = emptyResult
      ∧ runA.self = runB.self ∧ runA.self.mRunning = false
      ∧ launched runA.log = [] ∧ launched runB.log ≠ [] :=
  ⟨_, _, rfl, rfl,
    noneEligible_allFailed_not_distinguished pool3 nobodyEligible simultaneousFailures
      emptyResult 0 1 _ _ rfl rfl rfl rfl⟩

/-- C9. AllFailed is never reported early: whenever `plan` returns `nullptr` after
having launched at least one worker, there is a polling pass `p` in which every
result slot `j`, owned by the `j`-th launched worker `w`, was observed ready
holding `nullptr`: the worker had finished, its `planner->plan` had returned
`nullptr`, and the observation is in the log of the call. -/
theorem allFailed_only_after_every_worker_reported (self : ConcreteParallelMetaPlanner)
    (env : RaceEnv) (result : Result) (fuel : Nat) (run : Run)
    (h : self.plan env result fuel = some run)
    (hret : run.exit.returned = Returned.value none)
    (hlaunched : launched run.log ≠ []) :
    ∃ p, ∀ j w, (launched run.log)[j]? = some w →
      env.finished p w = true ∧ env.solve w = SolveOutcome.failed
        ∧ waitFor env p w = Polled.ready none ∧ Event.ready p j none ∈ run.log := by
  cases hrun : self.mRunning with
  | true =>
    rw [plan_running self env result fuel hrun] at h
    simp only [Option.some.injEq] at h
    subst h
    exact absurd rfl hlaunched
  | false =>
    obtain ⟨_, steps, _, h2⟩ := plan_idle_some self env result fuel run hrun h
    have hexit := Exit.returned_value_none _ hret
    rcases h2 with ⟨h3 | h3, _⟩ | ⟨_, h4, _, h5⟩ | ⟨_, polls, h6, h5⟩
    · rw [h3] at hexit; rcases hexit with h | h <;> cases h
    · rw [h3] at hexit; rcases hexit with h | h <;> cases h
    · exfalso
      apply hlaunched
      rw [h5, launched_append, launched_of_isLaunchStep_raceLog, h4]
      rfl
    · rcases h5 with ⟨h3, _⟩ | ⟨t1, w, p, h3, _⟩ | ⟨p, _, _, h7, h8⟩ | ⟨w, p, h3, _⟩
      · rw [h3] at hexit; rcases hexit with h | h <;> cases h
      · rw [h3] at hexit; rcases hexit with h | h <;> cases h
      · have hl : launched run.log = launched steps := by
          rw [h7, launched_append, launched_append, launched_of_isLaunchStep_raceLog,
            launched_of_isPoll polls h6]
          simp [launched, Event.launchee]
        refine ⟨p, ?_⟩
        intro j w hjw
        rw [hl] at hjw
        obtain ⟨h9, h10⟩ := h8 j w hjw
        obtain ⟨h11, h12⟩ := waitFor_some_none env p w h9
        refine ⟨h12, h11, h9, ?_⟩
        rw [h7]
        simp only [List.mem_append]
        exact Or.inl (Or.inr h10)
      · rw [h3] at hexit; rcases hexit with h | h <;> cases h

/-- Witness for C9: both workers of the pool of two fail in the first pass. -/
theorem allFailed_only_after_every_worker_reported_witness :
    ∃ run, pool2.plan simultaneousFailures emptyResult 1 = some run
      ∧ run.exit.returned = Returned.value none
      ∧ launched run.log = [0, 1]
      ∧ ∃ p, ∀ j w, (launched run.log)[j]? = some w →
          simultaneousFailures.finished p w = true
            ∧ simultaneousFailures.solve w = SolveOutcome.failed
            ∧ waitFor simultaneousFailures p w = Polled.ready none
            ∧ Event.ready p j none ∈ run.log :=
  ⟨_, rfl, rfl, rfl,
    allFailed_only_after_every_worker_reported pool2 simultaneousFailures emptyResult 1 _ rfl
      rfl (by decide)⟩

/-- C10. Count mismatch in the template constructor: for `K` collision detectors
and `M` RNGs with `M > 0` and `M ≠ K`, construction throws `std::invalid_argument`
whose text names both counts, and no call has been made before the throw: no
MetaSkeleton is cloned and no planner is cloned. -/
theorem fromTemplate_count_mismatch (metaSkeleton : MetaSkeletonPtr)
    (collisionDetectors : List CollisionDetectorPtr) (castedPlanner : Bool)
    (rngs : List RNGPtr) (hpos : 0 < rngs.length)
    (hne : rngs.length ≠ collisionDetectors.length) :
    (ConcreteParallelMetaPlanner.fromTemplate metaSkeleton collisionDetectors castedPlanner
        rngs).outcome
      = Except.error (Exception.invalid_argument
          ("Number of collision detectors [" ++ toString collisionDetectors.length
            ++ "] does not match number of RNGs [ " ++ toString rngs.length ++ "]." ++ "\n"))
      ∧ (ConcreteParallelMetaPlanner.fromTemplate metaSkeleton collisionDetectors castedPlanner
          rngs).log = [] := by
  have hcond : rngs.length > 0 ∧ collisionDetectors.length ≠ rngs.length :=
    ⟨hpos, fun h => hne h.symm⟩
  unfold ConcreteParallelMetaPlanner.fromTemplate
  rw [if_pos hcond]
  exact ⟨rfl, rfl⟩

/-- Witness for C10: three collision detectors and two RNGs. -/
theorem fromTemplate_count_mismatch_witness :
    (ConcreteParallelMetaPlanner.fromTemplate (MetaSkeletonPtr.external 0) [10, 11, 12] true
        [1, 2]).outcome
      = Except.error (Exception.invalid_argument
          "Number of collision detectors [3] does not match number of RNGs [ 2].\n")
      ∧ (ConcreteParallelMetaPlanner.fromTemplate (MetaSkeletonPtr.external 0) [10, 11, 12] true
          [1, 2]).log = [] :=
  fromTemplate_count_mismatch (MetaSkeletonPtr.external 0) [10, 11, 12] true [1, 2]
    (by decide) (by decide)

/-! ## Lemmas on the template constructor -/

theorem provisionLoop_eq (ms : MetaSkeletonPtr) (castedPlanner : Bool) (rngs : List RNGPtr)
    (numCopies : Nat) :
    ∀ (todo i : Nat) (st : Provision),
      (provisionLoop ms castedPlanner rngs numCopies todo i st).mPlanners
          = st.mPlanners ++ (List.range' i todo).map (clonedPlanner ms castedPlanner rngs numCopies)
        ∧ (provisionLoop ms castedPlanner rngs numCopies todo i st).mClonedMetaSkeletons
          = st.mClonedMetaSkeletons ++ (List.range' i todo).map (MetaSkeletonPtr.clone ms) := by
  intro todo
  induction todo with
  | zero => intro i st; simp [provisionLoop]
  | succ n ih =>
    intro i st
    unfold provisionLoop
    obtain ⟨h1, h2⟩ := ih (i + 1)
      { mPlanners := st.mPlanners ++ [clonedPlanner ms castedPlanner rngs numCopies i]
        mClonedMetaSkeletons := st.mClonedMetaSkeletons ++ [MetaSkeletonPtr.clone ms i]
        log := st.log ++ [CtorEvent.cloneMetaSkeleton i, CtorEvent.clonePlanner i] }
    refine ⟨?_, ?_⟩
    · simpa [clonedPlanner, List.range'_succ] using h1
    · simpa [clonedPlanner, List.range'_succ] using h2

theorem fromTemplate_ok (ms : MetaSkeletonPtr) (cds : List CollisionDetectorPtr)
    (castedPlanner : Bool) (rngs : List RNGPtr) (c : ConcreteParallelMetaPlanner)
    (h : (ConcreteParallelMetaPlanner.fromTemplate ms cds castedPlanner rngs).outcome
      = Except.ok c) :
    c.mMetaSkeleton = ms ∧ c.mCollisionDetectors = cds
      ∧ c.mPlanners = (List.range cds.length).map (clonedPlanner ms castedPlanner rngs cds.length)
      ∧ c.mClonedMetaSkeletons = (List.range cds.length).map (MetaSkeletonPtr.clone ms)
      ∧ c.mRunning = false
      ∧ (rngs.length = 0 ∨ rngs.length = cds.length) := by
  unfold ConcreteParallelMetaPlanner.fromTemplate at h
  split at h
  · cases h
  · rename_i hcond
    simp only [Except.ok.injEq] at h
    obtain ⟨h1, h2⟩ := provisionLoop_eq ms castedPlanner rngs cds.length cds.length 0
      { mPlanners := [], mClonedMetaSkeletons := [], log := [] }
    subst h
    refine ⟨rfl, rfl, ?_, ?_, rfl, ?_⟩
    · simpa [List.range_eq_range'] using h1
    · simpa [List.range_eq_range'] using h2
    · by_cases h0 : rngs.length = 0
      · exact Or.inl h0
      · right
        by_contra hne
        exact hcond ⟨by omega, fun heq => hne heq.symm⟩

/-! ## Lemmas on the resources handed to the workers -/

theorem LaunchesSound.append_neutral (self : ConcreteParallelMetaPlanner) (log ext : List Event)
    (h : LaunchesSound self log) (hext : ∀ e ∈ ext, e.usesResource = false) :
    LaunchesSound self (log ++ ext) := by
  have hclone : ∀ i cd ms, Event.cloneDartProblem i cd ms ∉ ext := fun i cd ms hm => by
    have := hext _ hm
    simp [Event.usesResource] at this
  have hlaunch : ∀ i, Event.launch i ∉ ext := fun i hm => by
    have := hext _ hm
    simp [Event.usesResource] at this
  refine ⟨?_, ?_⟩
  · intro i cd ms hm
    rcases List.mem_append.mp hm with hm | hm
    · exact h.1 i cd ms hm
    · exact absurd hm (hclone i cd ms)
  · intro i hm
    rcases List.mem_append.mp hm with hm | hm
    · obtain ⟨cd, ms, hc⟩ := h.2 i hm
      exact ⟨cd, ms, List.mem_append_left _ hc⟩
    · exact absurd hm (hlaunch i)

theorem LaunchesSound.append_launch (self : ConcreteParallelMetaPlanner) (log : List Event)
    (i : Nat) (cd : CollisionDetectorPtr) (ms : MetaSkeletonPtr)
    (h : LaunchesSound self log)
    (hcd : self.mCollisionDetectors[i]? = some cd) (hms : self.mClonedMetaSkeletons[i]? = some ms) :
    LaunchesSound self
      (log ++ [Event.canSolve i, Event.cloneDartProblem i cd ms, Event.launch i]) := by
  refine ⟨?_, ?_⟩
  · intro k cd1 ms1 hm
    rcases List.mem_append.mp hm with hm | hm
    · exact h.1 k cd1 ms1 hm
    · simp only [List.mem_cons, List.mem_singleton, Event.cloneDartProblem.injEq] at hm
      rcases hm with hm | ⟨rfl, rfl, rfl⟩ | hm
      · cases hm
      · exact ⟨hcd, hms⟩
      · rcases hm with hm | hm
        · cases hm
        · cases hm
  · intro k hm
    rcases List.mem_append.mp hm with hm | hm
    · obtain ⟨cd1, ms1, hc⟩ := h.2 k hm
      exact ⟨cd1, ms1, List.mem_append_left _ hc⟩
    · simp only [List.mem_cons, List.mem_singleton, Event.launch.injEq] at hm
      rcases hm with hm | hm | hm
      · cases hm
      · cases hm
      · rcases hm with rfl | hm
        · exact ⟨cd, ms, List.mem_append_right _ (by simp)⟩
        · cases hm

theorem launchLoop_log_sound (self : ConcreteParallelMetaPlanner) (env : RaceEnv) :
    ∀ (todo i : Nat) (st : Launch), LaunchesSound self st.log →
      (∀ st1, launchLoop self env todo i st = Step.next st1 → LaunchesSound self st1.log)
        ∧ (∀ exit log, launchLoop self env todo i st = Step.halt exit log →
            LaunchesSound self log) := by
  intro todo
  induction todo with
  | zero =>
    intro i st h
    refine ⟨?_, ?_⟩
    · intro st1 h1
      simp only [launchLoop, Step.next.injEq] at h1
      subst h1
      exact h
    · intro exit log h1
      simp [launchLoop] at h1
  | succ n ih =>
    intro i st h
    have hcan : LaunchesSound self (st.log ++ [Event.canSolve i]) :=
      LaunchesSound.append_neutral self _ _ h (by simp [Event.usesResource])
    unfold launchLoop
    split
    · exact ih (i + 1) _ hcan
    · split
      · split
        · rename_i cd ms hcd hms
          rw [List.get?_eq_getElem?] at hcd hms
          exact ih (i + 1) _ (LaunchesSound.append_launch self _ i cd ms h hcd hms)
        · refine ⟨fun st1 h1 => (nomatch h1), ?_⟩
          intro exit log h1
          simp only [Step.halt.injEq] at h1
          rw [← h1.2]
          exact hcan
      · refine ⟨fun st1 h1 => (nomatch h1), ?_⟩
        intro exit log h1
        simp only [Step.halt.injEq] at h1
        rw [← h1.2]
        exact hcan

theorem usesResource_of_isPoll (ext : List Event) (h : ∀ e ∈ ext, e.isPoll = true) :
    ∀ e ∈ ext, e.usesResource = false := by
  intro e he
  have := h e he
  cases e <;> simp_all [Event.isPoll, Event.usesResource]

theorem usesResource_stopAll (numPlanners : Nat) :
    ∀ e ∈ stopAll numPlanners, e.usesResource = false := by
  intro e he
  unfold stopAll at he
  rw [List.mem_map] at he
  obtain ⟨i, _, rfl⟩ := he
  rfl

theorem plan_log_sound (self : ConcreteParallelMetaPlanner) (env : RaceEnv) (result : Result)
    (fuel : Nat) (run : Run) (h : self.plan env result fuel = some run) :
    LaunchesSound self run.log := by
  have hnil : LaunchesSound self [] := ⟨fun _ _ _ hm => (nomatch hm), fun _ hm => (nomatch hm)⟩
  cases hrun : self.mRunning with
  | true =>
    rw [plan_running self env result fuel hrun] at h
    simp only [Option.some.injEq] at h
    subst h
    exact hnil
  | false =>
    unfold ConcreteParallelMetaPlanner.plan at h
    simp only [hrun, Bool.false_eq_true, if_false] at h
    have h0 : LaunchesSound { self with mRunning := true }
        (Event.setRunning true :: (if env.isDartProblem then [] else [Event.cloneProblem])) := by
      have := LaunchesSound.append_neutral { self with mRunning := true } []
        (Event.setRunning true :: (if env.isDartProblem then [] else [Event.cloneProblem]))
        ⟨fun _ _ _ hm => (nomatch hm), fun _ hm => (nomatch hm)⟩
        (by
          intro e he
          cases hd : env.isDartProblem <;> simp [hd] at he
          · rcases he with rfl | rfl <;> rfl
          · subst he; rfl)
      simpa using this
    obtain ⟨hnext, hhalt⟩ := launchLoop_log_sound { self with mRunning := true } env
      self.mPlanners.length 0
      { futures := [], results := 0
        log := Event.setRunning true :: (if env.isDartProblem then [] else [Event.cloneProblem]) }
      h0
    split at h
    · rename_i exit log1 hl
      simp only [Option.some.injEq] at h
      subst h
      exact hhalt _ _ hl
    · rename_i st hl
      have hst : LaunchesSound self st.log := hnext st hl
      split at h
      · simp only [Option.some.injEq] at h
        subst h
        exact LaunchesSound.append_neutral self _ _ hst (by simp [Event.usesResource])
      · obtain ⟨_, _, ext, k3, k4⟩ := pollLoop_some _ _ _ _ _ _ _ _ _ h
        have hext := usesResource_of_isPoll ext k3
        have h1 := LaunchesSound.append_neutral self _ _ hst hext
        rcases k4 with ⟨_, k5⟩ | ⟨t, w, p, _, _, _, k5⟩ | ⟨p, _, k5, _⟩ | ⟨w, p, _, _, _, k5⟩
        · rw [k5]; exact h1
        · rw [k5]
          have h2 := LaunchesSound.append_neutral self _ _ h1
            (usesResource_stopAll self.mPlanners.length)
          exact LaunchesSound.append_neutral self _ _ h2 (by simp [Event.usesResource])
        · rw [k5]
          exact LaunchesSound.append_neutral self _ _ h1 (by simp [Event.usesResource])
        · rw [k5]; exact h1

theorem plan_launched_of_dart (self : ConcreteParallelMetaPlanner) (env : RaceEnv)
    (result : Result) (fuel : Nat) (run : Run)
    (hidle : self.mRunning = false) (hdart : env.isDartProblem = true)
    (hbounds : ∀ k, k < self.mPlanners.length → env.canSolve k = true →
      k < self.mCollisionDetectors.length ∧ k < self.mClonedMetaSkeletons.length)
    (h : self.plan env result fuel = some run) :
    launched run.log = (List.range self.mPlanners.length).filter env.canSolve := by
  unfold ConcreteParallelMetaPlanner.plan at h
  simp only [hidle, Bool.false_eq_true, if_false] at h
  obtain ⟨st, hst, hfut⟩ := launchLoop_dart { self with mRunning := true } env hdart
    self.mPlanners.length 0
    { futures := [], results := 0
      log := Event.setRunning true :: (if env.isDartProblem then [] else [Event.cloneProblem]) }
    (fun k _ hk hc => hbounds k (by omega) hc)
  obtain ⟨steps, h1, _, h3, _⟩ := launchLoop_next _ _ _ _ _ _ hst
  simp only [List.nil_append] at h3 hfut
  have hlaunched : launched st.log = st.futures := by
    have h5 : st.log = raceLog env steps := by simpa [raceLog] using h1
    rw [h5, launched_of_isLaunchStep_raceLog, h3]
  rw [hst] at h
  simp only at h
  rw [List.range_eq_range', ← hfut, ← hlaunched]
  split at h
  · simp only [Option.some.injEq] at h
    subst h
    simp [launched_append, launched, Event.launchee]
  · exact pollLoop_launched _ _ _ _ _ _ _ _ _ h

theorem MetaSkeletonPtr.clone_ne_self (ms : MetaSkeletonPtr) : ∀ n, MetaSkeletonPtr.clone ms n ≠ ms := by
  induction ms with
  | external id => intro n h; cases h
  | clone src m ih =>
    intro n h
    injection h with h1 h2
    exact ih m h1

/-! ## Lemmas on worker faults -/

theorem waitFor_faulted (env : RaceEnv) (p w : Nat) (h : env.solve w = SolveOutcome.faulted)
    (v : TrajectoryPtr) : waitFor env p w ≠ Polled.ready v := by
  unfold waitFor
  rw [h]
  split <;> simp [_plan]

theorem pollSlots_total (numPlanners : Nat) (env : RaceEnv) (pass : Nat) :
    ∀ (rest : List Nat) (j : Nat) (st : Poll),
      j + rest.length ≤ st.future_retrieved.length →
      (∃ exit log, pollSlots numPlanners env pass rest j st = Step.halt exit log
          ∧ (exit = Exit.terminated ∨ ∃ t, exit = Exit.succeeded t))
        ∨ ∃ st1, pollSlots numPlanners env pass rest j st = Step.next st1 := by
  intro rest
  induction rest with
  | nil => intro j st _; exact Or.inr ⟨st, rfl⟩
  | cons w rest ih =>
    intro j st hlen
    simp only [List.length_cons] at hlen
    unfold pollSlots
    split
    · rename_i hget
      rw [List.get?_eq_none] at hget
      omega
    · exact ih _ _ (by omega)
    · split
      · exact ih _ _ (by simp only; omega)
      · rename_i t _
        exact Or.inl ⟨_, _, rfl, Or.inr ⟨t, rfl⟩⟩
      · exact ih _ _ (by simp only [List.length_set]; omega)
      · exact Or.inl ⟨_, _, rfl, Or.inl rfl⟩

theorem pollSlots_faulted (numPlanners : Nat) (env : RaceEnv) (pass w0 : Nat)
    (hf : ∀ v, waitFor env pass w0 ≠ Polled.ready v) :
    ∀ (rest : List Nat) (j : Nat) (st : Poll) (i : Nat),
      rest[i]? = some w0 → st.future_retrieved[j + i]? = some false →
      j + rest.length ≤ st.future_retrieved.length →
      (∃ exit log, pollSlots numPlanners env pass rest j st = Step.halt exit log
          ∧ (exit = Exit.terminated ∨ ∃ t, exit = Exit.succeeded t))
        ∨ ∃ st1, pollSlots numPlanners env pass rest j st = Step.next st1
            ∧ waitFor env pass w0 = Polled.timeout
            ∧ st1.future_retrieved[j + i]? = some false
            ∧ st1.future_retrieved.length = st.future_retrieved.length
            ∧ st1.num_failures < st.num_failures + rest.length := by
  intro rest
  induction rest with
  | nil => intro j st i hi; simp at hi
  | cons w rest ih =>
    intro j st i hi hget hlen
    simp only [List.length_cons] at hlen
    have hstep : ∀ st2 : Poll, st2.future_retrieved.length = st.future_retrieved.length →
        st2.num_failures ≤ st.num_failures + 1 →
        (i = 0 → w = w0 → waitFor env pass w0 = Polled.timeout
          ∧ st2.future_retrieved[j]? = some false
          ∧ st2.num_failures = st.num_failures) →
        (∀ k, i = k + 1 → st2.future_retrieved[j + 1 + k]? = some false) →
        (∃ exit log, pollSlots numPlanners env pass rest (j + 1) st2 = Step.halt exit log
            ∧ (exit = Exit.terminated ∨ ∃ t, exit = Exit.succeeded t))
          ∨ ∃ st1, pollSlots numPlanners env pass rest (j + 1) st2 = Step.next st1
              ∧ waitFor env pass w0 = Polled.timeout
              ∧ st1.future_retrieved[j + i]? = some false
              ∧ st1.future_retrieved.length = st.future_retrieved.length
              ∧ st1.num_failures < st.num_failures + (rest.length + 1) := by
      intro st2 hl2 hn2 hzero hsucc
      cases i with
      | zero =>
        simp only [List.getElem?_cons_zero, Option.some.injEq] at hi
        obtain ⟨h1, h2, h3⟩ := hzero rfl hi
        rcases pollSlots_total numPlanners env pass rest (j + 1) st2 (by omega) with h | ⟨st1, h⟩
        · exact Or.inl h
        · obtain ⟨_, _, _, k3, k4, k5, _⟩ := pollSlots_next _ _ _ _ _ _ _ h
          refine Or.inr ⟨st1, h, h1, ?_, by rw [k3, hl2], by omega⟩
          rw [Nat.add_zero, k4 j (Or.inl (by omega))]
          exact h2
      | succ k =>
        simp only [List.getElem?_cons_succ] at hi
        rcases ih (j + 1) st2 k hi (hsucc k rfl) (by omega) with h | ⟨st1, h, k1, k2, k3, k4⟩
        · exact Or.inl h
        · refine Or.inr ⟨st1, h, k1, ?_, by rw [k3, hl2], by omega⟩
          have hjk : j + (k + 1) = j + 1 + k := by omega
          rw [hjk]
          exact k2
    unfold pollSlots
    split
    · rename_i hnone
      rw [List.get?_eq_none] at hnone
      omega
    · rename_i htrue
      rw [List.get?_eq_getElem?] at htrue
      refine hstep st rfl (by omega) ?_ ?_
      · intro h0 _
        subst h0
        rw [Nat.add_zero, htrue] at hget
        cases hget
      · intro k hk
        subst hk
        have hjk : j + (k + 1) = j + 1 + k := by omega
        rw [← hjk]
        exact hget
    · rename_i hfalse
      rw [List.get?_eq_getElem?] at hfalse
      split
      · rename_i hw
        refine hstep _ rfl (by simp only; omega) ?_ ?_
        · intro _ hww
          subst hww
          exact ⟨hw, hfalse, rfl⟩
        · intro k hk
          subst hk
          have hjk : j + (k + 1) = j + 1 + k := by omega
          rw [← hjk]
          exact hget
      · rename_i t _
        exact Or.inl ⟨_, _, rfl, Or.inr ⟨t, rfl⟩⟩
      · rename_i hw
        refine hstep _ (by simp only [List.length_set]) (by simp only; omega) ?_ ?_
        · intro _ hww
          subst hww
          exact absurd hw (hf none)
        · intro k hk
          subst hk
          have hjk : j + (k + 1) = j + 1 + k := by omega
          simp only
          rw [List.getElem?_set_ne (by omega), ← hjk]
          exact hget
      · exact Or.inl ⟨_, _, rfl, Or.inl rfl⟩

theorem pollLoop_faulted (self : ConcreteParallelMetaPlanner) (env : RaceEnv) (result : Result)
    (futures : List Nat) (i w0 p0 : Nat) (hi : futures[i]? = some w0)
    (hfault : env.solve w0 = SolveOutcome.faulted) (hfin : env.finished p0 w0 = true) :
    ∀ (d pass : Nat) (retrieved : List Bool) (log : List Event),
      pass + d = p0 → retrieved.length = futures.length → retrieved[i]? = some false →
      ∀ fuel, d < fuel →
        ∃ run, pollLoop self env result futures fuel pass retrieved log = some run
          ∧ (run.exit = Exit.terminated ∨ ∃ t, run.exit = Exit.succeeded t) := by
  intro d
  induction d with
  | zero =>
    intro pass retrieved log hp hlen hget fuel hfuel
    obtain ⟨f, rfl⟩ : ∃ f, fuel = f + 1 := ⟨fuel - 1, by omega⟩
    have hp0 : pass = p0 := by omega
    subst hp0
    have hab : waitFor env pass w0 = Polled.aborted := (waitFor_aborted env pass w0).mpr ⟨hfault, hfin⟩
    rcases pollSlots_faulted self.mPlanners.length env pass w0 (waitFor_faulted env pass w0 hfault)
      futures 0 { future_retrieved := retrieved, num_failures := 0, log := log } i hi
      (by simpa using hget) (by simp only; omega) with ⟨exit, log1, h, hexit⟩ | ⟨st1, _, h, _⟩
    · refine ⟨_, by unfold pollLoop; rw [h], hexit⟩
    · rw [hab] at h
      cases h
  | succ d ih =>
    intro pass retrieved log hp hlen hget fuel hfuel
    obtain ⟨f, rfl⟩ : ∃ f, fuel = f + 1 := ⟨fuel - 1, by omega⟩
    rcases pollSlots_faulted self.mPlanners.length env pass w0 (waitFor_faulted env pass w0 hfault)
      futures 0 { future_retrieved := retrieved, num_failures := 0, log := log } i hi
      (by simpa using hget) (by simp only; omega)
      with ⟨exit, log1, h, hexit⟩ | ⟨st1, h, _, k2, k3, k4⟩
    · refine ⟨_, by unfold pollLoop; rw [h], hexit⟩
    · simp only [Nat.zero_add] at k2 k3 k4
      have hne : st1.num_failures ≠ futures.length := by omega
      obtain ⟨run, hrun, hexit⟩ := ih (pass + 1) st1.future_retrieved st1.log (by omega)
        (by rw [k3, hlen]) k2 f (by omega)
      refine ⟨run, ?_, hexit⟩
      unfold pollLoop
      rw [h]
      simp only [if_neg hne]
      exact hrun

theorem plan_faulted (self : ConcreteParallelMetaPlanner) (env : RaceEnv) (result : Result)
    (w p : Nat) (hidle : self.mRunning = false) (hdart : env.isDartProblem = true)
    (hbounds : ∀ k, k < self.mPlanners.length → env.canSolve k = true →
      k < self.mCollisionDetectors.length ∧ k < self.mClonedMetaSkeletons.length)
    (hw : w < self.mPlanners.length) (hcan : env.canSolve w = true)
    (hfault : env.solve w = SolveOutcome.faulted) (hfin : env.finished p w = true)
    (fuel : Nat) (hfuel : p < fuel) :
    ∃ run, self.plan env result fuel = some run
      ∧ (run.exit = Exit.terminated ∨ ∃ t, run.exit = Exit.succeeded t) := by
  unfold ConcreteParallelMetaPlanner.plan
  simp only [hidle, Bool.false_eq_true, if_false]
  obtain ⟨st, hst, hfut⟩ := launchLoop_dart { self with mRunning := true } env hdart
    self.mPlanners.length 0
    { futures := [], results := 0
      log := Event.setRunning true :: (if env.isDartProblem then [] else [Event.cloneProblem]) }
    (fun k _ hk hc => hbounds k (by omega) hc)
  obtain ⟨steps, _, _, h3, h4⟩ := launchLoop_next _ _ _ _ _ _ hst
  simp only [List.nil_append, Nat.zero_add] at h3 h4 hfut
  have hres : st.results = st.futures.length := by rw [h4, h3]
  have hmem : w ∈ st.futures := by
    rw [hfut, List.mem_filter, List.mem_range'_1]
    exact ⟨⟨by omega, by omega⟩, hcan⟩
  obtain ⟨i, hi, hiw⟩ := List.getElem_of_mem hmem
  rw [hst]
  simp only
  have hlen : st.futures.length ≠ 0 := by omega
  rw [if_neg hlen]
  exact pollLoop_faulted { self with mRunning := true } env result st.futures i w p
    (List.getElem?_eq_some.mpr ⟨hi, hiw⟩) hfault hfin p 0 (List.replicate st.results false)
    st.log (by omega) (by rw [List.length_replicate, hres])
    (by rw [List.getElem?_replicate, if_pos (by omega)]) fuel hfuel

/-! ## The claims on provisioning, abort and worker faults -/

/-- Counterexample to C11 as stated: from one collision detector and a template
that is not a `DartPlanner`, construction succeeds, MetaSkeleton clone 0 is made,
and planner 0 is made by `planner->clone()`, which is not given that clone. -/
theorem plain_template_planner_not_from_clone :
    ∃ c, (ConcreteParallelMetaPlanner.fromTemplate (MetaSkeletonPtr.external 0) [10] false
          []).outcome = Except.ok c
      ∧ c.mClonedMetaSkeletons[0]? = some (MetaSkeletonPtr.clone (MetaSkeletonPtr.external 0) 0)
      ∧ ∃ p, c.mPlanners[0]? = some p
          ∧ p.createdFrom ≠ some (MetaSkeletonPtr.clone (MetaSkeletonPtr.external 0) 0) :=
  ⟨_, rfl, rfl, _, rfl, by decide⟩

/-- C11, amended. Cardinality: after every successful construction from `K`
collision detectors the coordinator holds `K` planners, `K` cloned MetaSkeletons
and the `K` collision detectors; cloned MetaSkeleton `i` is the `i`-th clone of
the given MetaSkeleton; planner `i` was created from cloned MetaSkeleton `i` when
the template is a `DartPlanner`, and was cloned without any MetaSkeleton
otherwise. -/
theorem fromTemplate_cardinality (ms : MetaSkeletonPtr) (cds : List CollisionDetectorPtr)
    (castedPlanner : Bool) (rngs : List RNGPtr) (c : ConcreteParallelMetaPlanner)
    (h : (ConcreteParallelMetaPlanner.fromTemplate ms cds castedPlanner rngs).outcome
      = Except.ok c) :
    c.mPlanners.length = cds.length ∧ c.mClonedMetaSkeletons.length = cds.length
      ∧ c.mCollisionDetectors = cds
      ∧ ∀ i, i < cds.length →
          c.mClonedMetaSkeletons[i]? = some (MetaSkeletonPtr.clone ms i)
            ∧ ∃ p, c.mPlanners[i]? = some p
                ∧ p.createdFrom
                    = if castedPlanner then some (MetaSkeletonPtr.clone ms i) else none := by
  obtain ⟨_, h2, h3, h4, _, _⟩ := fromTemplate_ok ms cds castedPlanner rngs c h
  refine ⟨by rw [h3]; simp, by rw [h4]; simp, h2, ?_⟩
  intro i hi
  refine ⟨by rw [h4]; simp [hi], clonedPlanner ms castedPlanner rngs cds.length i,
    by rw [h3]; simp [hi], ?_⟩
  unfold clonedPlanner
  cases castedPlanner <;> split <;> rfl

/-- Witness for C11, amended: three collision detectors, a `DartPlanner` template. -/
theorem fromTemplate_cardinality_witness :
    pool3.mPlanners.length = 3 ∧ pool3.mClonedMetaSkeletons.length = 3
      ∧ pool3.mCollisionDetectors = [10, 11, 12]
      ∧ ∀ i, i < 3 →
          pool3.mClonedMetaSkeletons[i]? = some (MetaSkeletonPtr.clone (MetaSkeletonPtr.external 0) i)
            ∧ ∃ p, pool3.mPlanners[i]? = some p
                ∧ p.createdFrom
                    = if true then some (MetaSkeletonPtr.clone (MetaSkeletonPtr.external 0) i)
                      else none :=
  fromTemplate_cardinality (MetaSkeletonPtr.external 0) [10, 11, 12] true [] pool3 rfl

/-- C12. RNG pairing: after every successful construction from `K` collision
detectors and `M` RNGs, if `M = K` then planner `i` is the template cloned with
`rngs[i]`, for each `i < K`; otherwise every planner is the template cloned
without an RNG argument. (The clone call takes cloned MetaSkeleton `i` as well
when the template is a `DartPlanner`.) -/
theorem fromTemplate_rng_pairing (ms : MetaSkeletonPtr) (cds : List CollisionDetectorPtr)
    (castedPlanner : Bool) (rngs : List RNGPtr) (c : ConcreteParallelMetaPlanner)
    (h : (ConcreteParallelMetaPlanner.fromTemplate ms cds castedPlanner rngs).outcome
      = Except.ok c) :
    (rngs.length = cds.length → ∀ i, i < cds.length →
        ∃ r, rngs[i]? = some r
          ∧ c.mPlanners[i]? = some
              (if castedPlanner then PlannerPtr.dartClone (MetaSkeletonPtr.clone ms i) (some r)
               else PlannerPtr.plainClone (some r)))
      ∧ (rngs.length ≠ cds.length → ∀ i, i < cds.length →
          c.mPlanners[i]? = some
            (if castedPlanner then PlannerPtr.dartClone (MetaSkeletonPtr.clone ms i) none
             else PlannerPtr.plainClone none)) := by
  obtain ⟨_, _, h3, _, _, _⟩ := fromTemplate_ok ms cds castedPlanner rngs c h
  refine ⟨?_, ?_⟩
  · intro hlen i hi
    have hr : rngs[i]? = some (rngs[i]) := List.getElem?_eq_getElem (by omega)
    refine ⟨rngs[i], hr, ?_⟩
    rw [h3]
    simp [hi, clonedPlanner, hlen, hr]
  · intro hlen i hi
    rw [h3]
    simp [hi, clonedPlanner, hlen]

/-- Witness for C12: two collision detectors, RNGs 5 and 6, a `DartPlanner`
template: planner 1 is the template cloned with RNG 6. -/
theorem fromTemplate_rng_pairing_witness :
    ∃ c, (ConcreteParallelMetaPlanner.fromTemplate (MetaSkeletonPtr.external 0) [10, 11] true
          [5, 6]).outcome = Except.ok c
      ∧ ∃ r, [5, 6][1]? = some r
          ∧ c.mPlanners[1]? = some
              (if true then
                PlannerPtr.dartClone (MetaSkeletonPtr.clone (MetaSkeletonPtr.external 0) 1) (some r)
               else PlannerPtr.plainClone (some r)) :=
  ⟨_, rfl,
    (fromTemplate_rng_pairing (MetaSkeletonPtr.external 0) [10, 11] true [5, 6] _ rfl).1 rfl 1
      (by decide)⟩

/-- Counterexample to C13 as stated: construction from an empty list of collision
detectors (and no RNGs) does not fail; it yields a coordinator with no planner. -/
theorem fromTemplate_no_detectors_succeeds :
    (ConcreteParallelMetaPlanner.fromTemplate (MetaSkeletonPtr.external 0) [] true []).outcome
      = Except.ok
          { mMetaSkeleton := MetaSkeletonPtr.external 0, mCollisionDetectors := []
            mPlanners := [], mClonedMetaSkeletons := [], mRunning := false } :=
  rfl

/-- C13, amended. Zero resources: construction from an empty list of collision
detectors fails (with `std::invalid_argument`, by the count check) exactly when a
non-empty list of RNGs is given. With no RNGs it succeeds without cloning
anything and yields a coordinator with zero planners; every race started on that
coordinator ends at once with `nullptr` (no planner eligible), no worker launched
and `mRunning` false again. -/
theorem fromTemplate_no_detectors (ms : MetaSkeletonPtr) (castedPlanner : Bool)
    (rngs : List RNGPtr) (env : RaceEnv) (result : Result) (fuel : Nat) :
    (rngs ≠ [] →
        (ConcreteParallelMetaPlanner.fromTemplate ms [] castedPlanner rngs).outcome
          = Except.error (Exception.invalid_argument (mismatchMessage 0 rngs.length)))
      ∧ (rngs = [] →
          (ConcreteParallelMetaPlanner.fromTemplate ms [] castedPlanner rngs).log = []
            ∧ ∃ c, (ConcreteParallelMetaPlanner.fromTemplate ms [] castedPlanner rngs).outcome
                  = Except.ok c
              ∧ c.mPlanners = [] ∧ c.mClonedMetaSkeletons = [] ∧ c.mRunning = false
              ∧ ∃ run, c.plan env result fuel = some run
                  ∧ run.exit = Exit.noneEligible
                  ∧ run.exit.returned = Returned.value none
                  ∧ launched run.log = [] ∧ run.self.mRunning = false) := by
  refine ⟨?_, ?_⟩
  · intro hne
    have hpos : 0 < rngs.length := List.length_pos.mpr hne
    unfold ConcreteParallelMetaPlanner.fromTemplate
    rw [if_pos ⟨hpos, by simp only [List.length_nil]; omega⟩]
    rfl
  · intro hnil
    subst hnil
    refine ⟨rfl, _, rfl, rfl, rfl, rfl, ?_⟩
    have hplan : ∃ log, (ConcreteParallelMetaPlanner.mk ms [] [] [] false).plan env result fuel
        = some (Run.mk Exit.noneEligible (ConcreteParallelMetaPlanner.mk ms [] [] [] false)
            result log) ∧ launched log = [] := by
      cases hd : env.isDartProblem
      · exact ⟨[Event.setRunning true, Event.cloneProblem, Event.setRunning false],
          by simp [ConcreteParallelMetaPlanner.plan, launchLoop, hd], rfl⟩
      · exact ⟨[Event.setRunning true, Event.setRunning false],
          by simp [ConcreteParallelMetaPlanner.plan, launchLoop, hd], rfl⟩
    obtain ⟨log, hlog, hlaunched⟩ := hplan
    exact ⟨_, hlog, rfl, rfl, hlaunched, rfl⟩

/-- Witness for C13, amended: no collision detectors; with RNGs 1 and 2 the
construction throws, with none it succeeds and a race on it returns `nullptr`. -/
theorem fromTemplate_no_detectors_witness :
    (ConcreteParallelMetaPlanner.fromTemplate (MetaSkeletonPtr.external 0) [] true [1, 2]).outcome
        = Except.error (Exception.invalid_argument (mismatchMessage 0 2))
      ∧ (ConcreteParallelMetaPlanner.fromTemplate (MetaSkeletonPtr.external 0) [] true []).log = []
      ∧ ∃ c, (ConcreteParallelMetaPlanner.fromTemplate (MetaSkeletonPtr.external 0) [] true
            []).outcome = Except.ok c
          ∧ c.mPlanners = [] ∧ c.mClonedMetaSkeletons = [] ∧ c.mRunning = false
          ∧ ∃ run, c.plan simultaneousFailures emptyResult 1 = some run
              ∧ run.exit = Exit.noneEligible
              ∧ run.exit.returned = Returned.value none
              ∧ launched run.log = [] ∧ run.self.mRunning = false :=
  ⟨(fromTemplate_no_detectors (MetaSkeletonPtr.external 0) true [1, 2] simultaneousFailures
      emptyResult 1).1 (by decide),
   (fromTemplate_no_detectors (MetaSkeletonPtr.external 0) true [] simultaneousFailures
      emptyResult 1).2 rfl⟩

/-- Counterexample to C14 as stated: on the pool of two workers with a race in
flight (`mRunning` true, the state `plan` is in while its workers run),
`stopPlanning` returns false and calls `stopPlanning` on no planner. -/
theorem stopPlanning_during_race_returns_false :
    ({ pool2 with mRunning := true } : ConcreteParallelMetaPlanner).stopPlanning.1 = false
      ∧ ({ pool2 with mRunning := true } : ConcreteParallelMetaPlanner).stopPlanning.2.2 = []
      ∧ ({ pool2 with mRunning := true } : ConcreteParallelMetaPlanner).mPlanners.length = 2 :=
  ⟨rfl, rfl, rfl⟩

/-- C14, amended. Abort contract: in every state of the coordinator, with a race
in flight or not and whatever the number of planners, `stopPlanning` returns
false, leaves the coordinator as it is and calls `stopPlanning` on no planner. -/
theorem stopPlanning_is_inert (self : ConcreteParallelMetaPlanner) :
    self.stopPlanning.1 = false ∧ self.stopPlanning.2.1 = self
      ∧ ∀ i, Event.stopPlanning i ∉ self.stopPlanning.2.2 :=
  ⟨rfl, rfl, fun _ h => nomatch h⟩

/-- Counterexample to C15 as stated: a worker whose `planner->plan` call throws
makes no `set_value`, so its slot never holds the failure value `nullptr`: the
exception leaves `_plan`, the function of the worker thread, and `std::terminate`
aborts the process. With both workers of the pool of two faulting, the call of
`plan` ends in that abort at the first poll: no slot has been observed ready, no
failure has been counted and nothing is returned. -/
theorem faulting_worker_aborts_the_process :
    _plan SolveOutcome.faulted = ThreadEnd.terminate
      ∧ _plan SolveOutcome.faulted ≠ ThreadEnd.set_value none
      ∧ faultyWorkers.finished 0 0 = true ∧ waitFor faultyWorkers 0 0 = Polled.aborted
      ∧ ∃ run, pool2.plan faultyWorkers emptyResult 1 = some run
          ∧ run.exit = Exit.terminated ∧ run.exit.returned = Returned.aborted
          ∧ run.exit ≠ Exit.allFailed
          ∧ run.log
            = [Event.setRunning true, Event.canSolve 0,
                Event.cloneDartProblem 0 10 (MetaSkeletonPtr.clone (MetaSkeletonPtr.external 0) 0),
                Event.launch 0, Event.canSolve 1,
                Event.cloneDartProblem 1 11 (MetaSkeletonPtr.clone (MetaSkeletonPtr.external 0) 1),
                Event.launch 1] :=
  ⟨rfl, by decide, rfl, rfl, _, rfl, rfl, rfl, by decide, rfl⟩

/-- C15, amended. A worker whose `planner->plan` call returns deposits exactly one
result in its slot: the trajectory found, or `nullptr` on failure. A worker whose
call throws deposits nothing: the exception leaves `_plan`, the function of the
worker thread, and `std::terminate` aborts the process, the coordinator's polling
loop included. So the slot of such a worker is never observed ready and a race in
which it was launched never ends with the all-failed return; and on an idle
coordinator racing a `DartProblem`, once the thread of an eligible worker
has ended that way by pass `p`, the call of `plan` is over within `p + 1` passes: by
the abort, or by the return of a trajectory observed before the abort was met. -/
theorem worker_fault_aborts_the_race (env : RaceEnv) :
    (∀ t, _plan (SolveOutcome.found t) = ThreadEnd.set_value (some t))
      ∧ _plan SolveOutcome.failed = ThreadEnd.set_value none
      ∧ _plan SolveOutcome.faulted = ThreadEnd.terminate
      ∧ (∀ p i, env.solve i = SolveOutcome.faulted → ∀ v, waitFor env p i ≠ Polled.ready v)
      ∧ (∀ (self : ConcreteParallelMetaPlanner) result fuel run w,
          self.plan env result fuel = some run → w ∈ launched run.log →
          env.solve w = SolveOutcome.faulted → run.exit ≠ Exit.allFailed)
      ∧ (∀ (self : ConcreteParallelMetaPlanner) result fuel w p,
          self.mRunning = false → env.isDartProblem = true →
          (∀ i, i < self.mPlanners.length → env.canSolve i = true →
            i < self.mCollisionDetectors.length ∧ i < self.mClonedMetaSkeletons.length) →
          w < self.mPlanners.length → env.canSolve w = true →
          env.solve w = SolveOutcome.faulted → env.finished p w = true → p < fuel →
          ∃ run, self.plan env result fuel = some run
            ∧ (run.exit = Exit.terminated ∨ ∃ t, run.exit = Exit.succeeded t)
            ∧ (run.exit = Exit.terminated → run.exit.returned = Returned.aborted)) := by
  refine ⟨fun _ => rfl, rfl, rfl, ?_, ?_, ?_⟩
  · intro p i h v
    exact waitFor_faulted env p i h v
  · intro self result fuel run w h hw hfault hexit
    cases hrun : self.mRunning with
    | true =>
      rw [plan_running self env result fuel hrun] at h
      simp only [Option.some.injEq] at h
      subst h
      cases hexit
    | false =>
      obtain ⟨_, steps, _, h2⟩ := plan_idle_some self env result fuel run hrun h
      rcases h2 with ⟨h3 | h3, _⟩ | ⟨h3, _⟩ | ⟨_, polls, h6, h5⟩
      · rw [h3] at hexit; cases hexit
      · rw [h3] at hexit; cases hexit
      · rw [h3] at hexit; cases hexit
      · rcases h5 with ⟨h3, _⟩ | ⟨t1, w1, p, h3, _⟩ | ⟨p, _, _, h7, h8⟩ | ⟨w1, p, h3, _⟩
        · rw [h3] at hexit; cases hexit
        · rw [h3] at hexit; cases hexit
        · have hl : launched run.log = launched steps := by
            rw [h7, launched_append, launched_append, launched_of_isLaunchStep_raceLog,
              launched_of_isPoll polls h6]
            simp [launched, Event.launchee]
          rw [hl] at hw
          obtain ⟨j, hj, hjw⟩ := List.getElem_of_mem hw
          obtain ⟨h9, _⟩ := h8 j w (List.getElem?_eq_some.mpr ⟨hj, hjw⟩)
          obtain ⟨h10, _⟩ := waitFor_some_none env p w h9
          rw [h10] at hfault
          cases hfault
        · rw [h3] at hexit; cases hexit
  · intro self result fuel w p hidle hdart hbounds hw hcan hfault hfin hfuel
    obtain ⟨run, hrun, hexit⟩ := plan_faulted self env result w p hidle hdart hbounds hw hcan
      hfault hfin fuel hfuel
    refine ⟨run, hrun, hexit, ?_⟩
    intro ht
    rw [ht]
    rfl

/-- Witness for C15, amended: in the pool of two, worker 0 faults and worker 1
would find trajectory 5; at the first poll the process is gone. -/
theorem worker_fault_aborts_the_race_witness :
    (∃ run, pool2.plan faultThenWinner emptyResult 1 = some run
        ∧ (run.exit = Exit.terminated ∨ ∃ t, run.exit = Exit.succeeded t)
        ∧ (run.exit = Exit.terminated → run.exit.returned = Returned.aborted))
      ∧ ∃ run, pool2.plan faultThenWinner emptyResult 1 = some run
          ∧ run.exit = Exit.terminated ∧ 0 ∈ launched run.log :=
  ⟨(worker_fault_aborts_the_race faultThenWinner).2.2.2.2.2 pool2 emptyResult 1 0 0 rfl rfl
      (fun _ hi _ => ⟨hi, hi⟩) (by decide) rfl rfl rfl (by decide),
    _, rfl, rfl, by decide⟩

/-- C16 (the code departs from the claim). In the pool of three, planner 1 cannot
solve the `DartProblem` and planners 0 and 2 can: `canSolve` is called once on
each of the three planners and exactly workers 0 and 2 are launched, so the
all-failed threshold is 2 (when both slots are ready with `nullptr` in the first
pass, `plan` returns `nullptr` in that pass). But when the two failures are first
observed in different passes (worker 0 in the first pass, worker 2 in the fifth),
both slots have reported failure and `plan` has no exit within any number of
passes. -/
theorem plan_eligible_staggered_failures_never_returns :
    launchLoop { pool3 with mRunning := true } staggeredWithIneligible 3 0
        { futures := [], results := 0, log := [Event.setRunning true] }
      = Step.next
          { futures := [0, 2], results := 2
            log := [Event.setRunning true, Event.canSolve 0,
              Event.cloneDartProblem 0 10 (MetaSkeletonPtr.clone (MetaSkeletonPtr.external 0) 0),
              Event.launch 0, Event.canSolve 1, Event.canSolve 2,
              Event.cloneDartProblem 2 12 (MetaSkeletonPtr.clone (MetaSkeletonPtr.external 0) 2),
              Event.launch 2] }
      ∧ (∃ run, pool3.plan simultaneousWithIneligible emptyResult 1 = some run
          ∧ run.exit = Exit.allFailed ∧ launched run.log = [0, 2])
      ∧ waitFor staggeredWithIneligible 0 0 = Polled.ready none
      ∧ waitFor staggeredWithIneligible 4 2 = Polled.ready none
      ∧ ∀ fuel, pool3.plan staggeredWithIneligible emptyResult fuel = none := by
  refine ⟨rfl, ⟨_, rfl, rfl, rfl⟩, rfl, rfl, ?_⟩
  intro fuel
  cases fuel with
  | zero => rfl
  | succ f =>
    have hstep : ∃ log, pool3.plan staggeredWithIneligible emptyResult (f + 1)
        = pollLoop { pool3 with mRunning := true } staggeredWithIneligible emptyResult
            ([] ++ 0 :: [2]) f 1 [true, false] log := ⟨_, rfl⟩
    obtain ⟨log, hlog⟩ := hstep
    rw [hlog]
    apply pollLoop_stuck
    · intro p w _
      unfold waitFor
      split
      · exact Or.inr rfl
      · exact Or.inl rfl
    · rfl
    · rfl

/-- Counterexample to C17 as stated: in the pool built from two collision
detectors and a template that is not a `DartPlanner`, worker 1 is launched on a
problem copy holding cloned MetaSkeleton 1, but planner 1 was made by
`planner->clone()` and was not provisioned with that clone. -/
theorem plain_template_worker_clone_not_the_planners :
    ∃ c run, (ConcreteParallelMetaPlanner.fromTemplate (MetaSkeletonPtr.external 0) [10, 11]
          false []).outcome = Except.ok c
      ∧ c.plan simultaneousFailures emptyResult 1 = some run
      ∧ Event.launch 1 ∈ run.log
      ∧ Event.cloneDartProblem 1 11 (MetaSkeletonPtr.clone (MetaSkeletonPtr.external 0) 1)
          ∈ run.log
      ∧ ∃ p, c.mPlanners[1]? = some p
          ∧ p.createdFrom ≠ some (MetaSkeletonPtr.clone (MetaSkeletonPtr.external 0) 1) :=
  ⟨_, _, rfl, rfl, by decide, by decide, _, rfl, by decide⟩

/-- C17, amended. Resource isolation by index: for a coordinator built by the
template constructor, in any of its two states, and every race on a
`DartProblem`, the worker launched for planner `i` runs on a problem copy cloned
with collision detector `i` and cloned MetaSkeleton `i`, the `i`-th clone of the
coordinator's MetaSkeleton; planner `i` was created from that same clone when the
template is a `DartPlanner`, and holds no MetaSkeleton otherwise. The cloned
MetaSkeleton handed to a worker is never the original, two different workers
never get the same one, and no worker is launched twice. -/
theorem template_pool_isolates_resources (ms : MetaSkeletonPtr)
    (cds : List CollisionDetectorPtr) (castedPlanner : Bool) (rngs : List RNGPtr)
    (c : ConcreteParallelMetaPlanner) (running : Bool) (env : RaceEnv) (result : Result)
    (fuel : Nat) (run : Run)
    (hbuilt : (ConcreteParallelMetaPlanner.fromTemplate ms cds castedPlanner rngs).outcome
      = Except.ok c)
    (hdart : env.isDartProblem = true)
    (h : ({ c with mRunning := running } : ConcreteParallelMetaPlanner).plan env result fuel
      = some run) :
    (∀ i, Event.launch i ∈ run.log →
        ∃ cd, cds[i]? = some cd
          ∧ Event.cloneDartProblem i cd (MetaSkeletonPtr.clone ms i) ∈ run.log
          ∧ c.mClonedMetaSkeletons[i]? = some (MetaSkeletonPtr.clone ms i)
          ∧ ∃ p, c.mPlanners[i]? = some p
              ∧ p.createdFrom
                  = if castedPlanner then some (MetaSkeletonPtr.clone ms i) else none)
      ∧ (∀ i cd m, Event.cloneDartProblem i cd m ∈ run.log →
          cds[i]? = some cd ∧ m = MetaSkeletonPtr.clone ms i ∧ m ≠ ms)
      ∧ (∀ i j cd1 cd2 m, Event.cloneDartProblem i cd1 m ∈ run.log →
          Event.cloneDartProblem j cd2 m ∈ run.log → i = j)
      ∧ (launched run.log).Nodup := by
  obtain ⟨_, b2, b3, b4, b5, _⟩ := fromTemplate_ok ms cds castedPlanner rngs c hbuilt
  have hsound := plan_log_sound _ env result fuel run h
  have hclone : ∀ i cd m, Event.cloneDartProblem i cd m ∈ run.log →
      cds[i]? = some cd ∧ m = MetaSkeletonPtr.clone ms i ∧ i < cds.length := by
    intro i cd m hm
    obtain ⟨k1, k2⟩ := hsound.1 i cd m hm
    simp only [b2, b4] at k1 k2
    have hi : i < cds.length := by
      have := (List.getElem?_eq_some.mp k1).1
      exact this
    refine ⟨k1, ?_, hi⟩
    simp [hi] at k2
    exact k2.symm
  refine ⟨?_, ?_, ?_, ?_⟩
  · intro i hl
    obtain ⟨cd, m, hm⟩ := hsound.2 i hl
    obtain ⟨k1, k2, hi⟩ := hclone i cd m hm
    subst k2
    refine ⟨cd, k1, hm, by rw [b4]; simp [hi], clonedPlanner ms castedPlanner rngs cds.length i,
      by rw [b3]; simp [hi], ?_⟩
    unfold clonedPlanner
    cases castedPlanner <;> split <;> rfl
  · intro i cd m hm
    obtain ⟨k1, k2, _⟩ := hclone i cd m hm
    exact ⟨k1, k2, by rw [k2]; exact MetaSkeletonPtr.clone_ne_self ms i⟩
  · intro i j cd1 cd2 m h1 h2
    obtain ⟨_, k2, _⟩ := hclone i cd1 m h1
    obtain ⟨_, k4, _⟩ := hclone j cd2 m h2
    rw [k2] at k4
    injection k4
  · cases running with
    | true =>
      rw [plan_running _ env result fuel rfl] at h
      simp only [Option.some.injEq] at h
      subst h
      exact List.nodup_nil
    | false =>
      have hl := plan_launched_of_dart _ env result fuel run rfl hdart
        (by
          intro k hk _
          simp only [b2, b3, b4, List.length_map, List.length_range] at hk ⊢
          exact ⟨hk, hk⟩) h
      rw [hl]
      exact (List.nodup_range _).filter _

/-- Witness for C17, amended: a race of the pool of two built from a `DartPlanner`
template, both workers failing in the first pass. -/
theorem template_pool_isolates_resources_witness :
    ∃ run, pool2.plan simultaneousFailures emptyResult 1 = some run
      ∧ (∀ i, Event.launch i ∈ run.log →
          ∃ cd, [10, 11][i]? = some cd
            ∧ Event.cloneDartProblem i cd (MetaSkeletonPtr.clone (MetaSkeletonPtr.external 0) i)
                ∈ run.log
            ∧ pool2.mClonedMetaSkeletons[i]?
                = some (MetaSkeletonPtr.clone (MetaSkeletonPtr.external 0) i)
            ∧ ∃ p, pool2.mPlanners[i]? = some p
                ∧ p.createdFrom
                    = if true then some (MetaSkeletonPtr.clone (MetaSkeletonPtr.external 0) i)
                      else none)
      ∧ (∀ i cd m, Event.cloneDartProblem i cd m ∈ run.log →
          [10, 11][i]? = some cd ∧ m = MetaSkeletonPtr.clone (MetaSkeletonPtr.external 0) i
            ∧ m ≠ MetaSkeletonPtr.external 0)
      ∧ (∀ i j cd1 cd2 m, Event.cloneDartProblem i cd1 m ∈ run.log →
          Event.cloneDartProblem j cd2 m ∈ run.log → i = j)
      ∧ (launched run.log).Nodup :=
  ⟨_, rfl,
    template_pool_isolates_resources (MetaSkeletonPtr.external 0) [10, 11] true [] pool2 false
      simultaneousFailures emptyResult 1 _ rfl rfl rfl⟩

/-! ## Lemmas on the order of doubles -/

theorem Double.lt_def (a b : Double) : a < b ↔ Double.lt a b = true := Iff.rfl

theorem Double.le_def (a b : Double) : a ≤ b ↔ Double.le a b = true := Iff.rfl

theorem Double.not_nan_of_lt {a b : Double} (h : a < b) : a.isNaN = false ∧ b.isNaN = false := by
  rw [Double.lt_def] at h
  cases a <;> cases b <;> simp_all [Double.lt, Double.isNaN]

theorem Double.not_nan_of_le {a b : Double} (h : a ≤ b) : a.isNaN = false ∧ b.isNaN = false := by
  rw [Double.le_def] at h
  cases a <;> cases b <;> simp_all [Double.le, Double.isNaN]

theorem Double.le_refl {a : Double} (h : a.isNaN = false) : a ≤ a := by
  rw [Double.le_def]
  cases a <;> simp_all [Double.le, Double.isNaN]

theorem Double.lt_irrefl (a : Double) : ¬ (a < a) := by
  rw [Double.lt_def]
  cases a <;> simp [Double.lt]

theorem Double.le_of_lt {a b : Double} (h : a < b) : a ≤ b := by
  rw [Double.lt_def] at h
  rw [Double.le_def]
  rcases a with _ | ⟨_ | _⟩ | ⟨na, ma⟩ <;> rcases b with _ | ⟨_ | _⟩ | ⟨nb, mb⟩ <;>
    simp_all [Double.lt, Double.le]
  omega

theorem Double.le_trans {a b c : Double} (h1 : a ≤ b) (h2 : b ≤ c) : a ≤ c := by
  rw [Double.le_def] at h1 h2 ⊢
  rcases a with _ | ⟨_ | _⟩ | ⟨na, ma⟩ <;> rcases b with _ | ⟨_ | _⟩ | ⟨nb, mb⟩ <;>
    rcases c with _ | ⟨_ | _⟩ | ⟨nc, mc⟩ <;> simp_all [Double.le]
  omega

theorem Double.lt_of_le_of_lt {a b c : Double} (h1 : a ≤ b) (h2 : b < c) : a < c := by
  rw [Double.le_def] at h1
  rw [Double.lt_def] at h2 ⊢
  rcases a with _ | ⟨_ | _⟩ | ⟨na, ma⟩ <;> rcases b with _ | ⟨_ | _⟩ | ⟨nb, mb⟩ <;>
    rcases c with _ | ⟨_ | _⟩ | ⟨nc, mc⟩ <;> simp_all [Double.le, Double.lt]
  omega

theorem Double.lt_of_lt_of_le {a b c : Double} (h1 : a < b) (h2 : b ≤ c) : a < c := by
  rw [Double.le_def] at h2
  rw [Double.lt_def] at h1 ⊢
  rcases a with _ | ⟨_ | _⟩ | ⟨na, ma⟩ <;> rcases b with _ | ⟨_ | _⟩ | ⟨nb, mb⟩ <;>
    rcases c with _ | ⟨_ | _⟩ | ⟨nc, mc⟩ <;> simp_all [Double.le, Double.lt]
  omega

theorem Double.lt_trans {a b c : Double} (h1 : a < b) (h2 : b < c) : a < c :=
  Double.lt_of_le_of_lt (Double.le_of_lt h1) h2

theorem Double.not_lt_of_le {a b : Double} (h : a ≤ b) : ¬ (b < a) := by
  rw [Double.le_def] at h
  rw [Double.lt_def]
  rcases a with _ | ⟨_ | _⟩ | ⟨na, ma⟩ <;> rcases b with _ | ⟨_ | _⟩ | ⟨nb, mb⟩ <;>
    simp_all [Double.le, Double.lt]

theorem Double.le_of_not_lt {a b : Double} (ha : a.isNaN = false) (hb : b.isNaN = false)
    (h : ¬ (a < b)) : b ≤ a := by
  rw [Double.lt_def] at h
  rw [Double.le_def]
  rcases a with _ | ⟨_ | _⟩ | ⟨na, ma⟩ <;> rcases b with _ | ⟨_ | _⟩ | ⟨nb, mb⟩ <;>
    simp_all [Double.le, Double.lt, Double.isNaN]

theorem Double.lt_or_le {a b : Double} (ha : a.isNaN = false) (hb : b.isNaN = false) :
    a < b ∨ b ≤ a := by
  by_cases h : a < b
  · exact Or.inl h
  · exact Or.inr (Double.le_of_not_lt ha hb h)

theorem Double.not_lt_nan (a : Double) : ¬ (a < Double.nan) := by
  rw [Double.lt_def]
  cases a <;> simp [Double.lt]

theorem Double.not_nan_lt (a : Double) : ¬ (Double.nan < a) := by
  rw [Double.lt_def]
  cases a <;> simp [Double.lt]

theorem Double.not_le_nan (a : Double) : ¬ (a ≤ Double.nan) := by
  rw [Double.le_def]
  cases a <;> simp [Double.le]

theorem Double.not_nan_le (a : Double) : ¬ (Double.nan ≤ a) := by
  rw [Double.le_def]
  cases a <;> simp [Double.le]

/-! ## Lemmas on rounding -/

theorem ilog2Aux_spec :
    ∀ (n q acc : Nat), 0 < q → q < 2 ^ 2 ^ n →
      ∃ e, ilog2Aux (halvings n) q acc = acc + e ∧ 2 ^ e ≤ q ∧ q < 2 ^ (e + 1) := by
  intro n
  induction n with
  | zero =>
    intro q acc hq hlt
    have h1 : q = 1 := by
      simp only [Nat.pow_zero, Nat.pow_one] at hlt
      omega
    subst h1
    exact ⟨0, by simp [halvings, ilog2Aux], by simp, by simp⟩
  | succ n ih =>
    intro q acc hq hlt
    have hpow : (2 : Nat) ^ 2 ^ (n + 1) = 2 ^ 2 ^ n * 2 ^ 2 ^ n := by
      rw [← Nat.pow_add]
      congr 1
      rw [Nat.pow_succ]
      omega
    have hkpos : 0 < 2 ^ 2 ^ n := Nat.pow_pos (by decide)
    simp only [halvings, ilog2Aux]
    by_cases hk : 2 ^ 2 ^ n ≤ q
    · rw [if_pos hk]
      have hq1 : 0 < q / 2 ^ 2 ^ n := Nat.div_pos hk hkpos
      have hq2 : q / 2 ^ 2 ^ n < 2 ^ 2 ^ n := by
        rw [Nat.div_lt_iff_lt_mul hkpos]
        rw [hpow] at hlt
        exact hlt
      obtain ⟨e, h1, h2, h3⟩ := ih (q / 2 ^ 2 ^ n) (acc + 2 ^ n) hq1 hq2
      refine ⟨2 ^ n + e, by rw [h1]; omega, ?_, ?_⟩
      · rw [Nat.pow_add]
        calc 2 ^ 2 ^ n * 2 ^ e ≤ 2 ^ 2 ^ n * (q / 2 ^ 2 ^ n) := Nat.mul_le_mul_left _ h2
          _ ≤ q := Nat.mul_div_le q _
      · have h4 : q < 2 ^ 2 ^ n * (q / 2 ^ 2 ^ n + 1) := Nat.lt_mul_div_succ q hkpos
        have h5 : q / 2 ^ 2 ^ n + 1 ≤ 2 ^ (e + 1) := h3
        calc q < 2 ^ 2 ^ n * (q / 2 ^ 2 ^ n + 1) := h4
          _ ≤ 2 ^ 2 ^ n * 2 ^ (e + 1) := Nat.mul_le_mul_left _ h5
          _ = 2 ^ (2 ^ n + e + 1) := by rw [← Nat.pow_add]; rfl
    · rw [if_neg hk]
      exact ih q acc hq (by omega)

theorem ilog2_spec (q : Nat) (hq : 0 < q) : 2 ^ ilog2 q ≤ q ∧ q < 2 ^ (ilog2 q + 1) := by
  unfold ilog2
  by_cases h : q < 2 ^ 4096
  · rw [if_pos h]
    obtain ⟨e, h1, h2, h3⟩ := ilog2Aux_spec 12 q 0 hq (by simpa using h)
    rw [h1, Nat.zero_add]
    exact ⟨h2, h3⟩
  · rw [if_neg h]
    exact ⟨Nat.log2_self_le (by omega), Nat.lt_log2_self⟩

theorem ilog2_zero : ilog2 0 = 0 := by decide

theorem ilog2_mono {a b : Nat} (h : a ≤ b) : ilog2 a ≤ ilog2 b := by
  by_cases ha : a = 0
  · subst ha
    rw [ilog2_zero]
    omega
  · have hb : 0 < b := by omega
    obtain ⟨h1, _⟩ := ilog2_spec a (by omega)
    obtain ⟨_, h4⟩ := ilog2_spec b hb
    have h5 : 2 ^ ilog2 a < 2 ^ (ilog2 b + 1) := by omega
    have h6 := (Nat.pow_lt_pow_iff_right (by decide : 1 < 2)).mp h5
    omega

theorem ilog2_le_of_lt_pow {q e : Nat} (h : q < 2 ^ (e + 1)) : ilog2 q ≤ e := by
  by_cases hq : q = 0
  · subst hq
    rw [ilog2_zero]
    omega
  · obtain ⟨h1, _⟩ := ilog2_spec q (by omega)
    have h5 : 2 ^ ilog2 q < 2 ^ (e + 1) := by omega
    have h6 := (Nat.pow_lt_pow_iff_right (by decide : 1 < 2)).mp h5
    omega

theorem roundedMagnitude_bounds (N D : Nat) (hD : 0 < D) :
    N / (D * 2 ^ (ilog2 (N / D) - 52)) * 2 ^ (ilog2 (N / D) - 52) ≤ roundedMagnitude N D
      ∧ roundedMagnitude N D
          ≤ (N / (D * 2 ^ (ilog2 (N / D) - 52)) + 1) * 2 ^ (ilog2 (N / D) - 52)
      ∧ (N % (D * 2 ^ (ilog2 (N / D) - 52)) = 0 →
          roundedMagnitude N D
            = N / (D * 2 ^ (ilog2 (N / D) - 52)) * 2 ^ (ilog2 (N / D) - 52)) := by
  have hu : 0 < D * 2 ^ (ilog2 (N / D) - 52) := Nat.mul_pos hD (Nat.pow_pos (by decide))
  refine ⟨?_, ?_, ?_⟩
  · unfold roundedMagnitude
    simp only
    apply Nat.mul_le_mul_right
    split_ifs <;> omega
  · unfold roundedMagnitude
    simp only
    apply Nat.mul_le_mul_right
    split_ifs <;> omega
  · intro h0
    unfold roundedMagnitude
    simp only [h0, Nat.mul_zero]
    rw [if_pos hu]

theorem roundedMagnitude_lower (N : Nat) (hN : 0 < N) : 2 ^ ilog2 N ≤ roundedMagnitude N 1 := by
  obtain ⟨h1, _⟩ := ilog2_spec N hN
  obtain ⟨h2, _, _⟩ := roundedMagnitude_bounds N 1 (by decide)
  simp only [Nat.div_one, Nat.one_mul] at h2
  refine Nat.le_trans ?_ h2
  have hs : ilog2 N - 52 ≤ ilog2 N := Nat.sub_le _ _
  have hsplit : 2 ^ ilog2 N = 2 ^ (ilog2 N - (ilog2 N - 52)) * 2 ^ (ilog2 N - 52) := by
    rw [← Nat.pow_add]
    congr 1
    omega
  have hq : 2 ^ (ilog2 N - (ilog2 N - 52)) ≤ N / 2 ^ (ilog2 N - 52) := by
    rw [Nat.le_div_iff_mul_le (Nat.pow_pos (by decide))]
    rw [← hsplit]
    exact h1
  calc 2 ^ ilog2 N = 2 ^ (ilog2 N - (ilog2 N - 52)) * 2 ^ (ilog2 N - 52) := hsplit
    _ ≤ N / 2 ^ (ilog2 N - 52) * 2 ^ (ilog2 N - 52) := Nat.mul_le_mul_right _ hq

theorem roundedMagnitude_upper (N : Nat) (hN : 0 < N) :
    roundedMagnitude N 1 ≤ 2 ^ (ilog2 N + 1) := by
  obtain ⟨_, h1⟩ := ilog2_spec N hN
  obtain ⟨_, h2, _⟩ := roundedMagnitude_bounds N 1 (by decide)
  simp only [Nat.div_one, Nat.one_mul] at h2
  refine Nat.le_trans h2 ?_
  have hsplit : 2 ^ (ilog2 N + 1) = 2 ^ (ilog2 N + 1 - (ilog2 N - 52)) * 2 ^ (ilog2 N - 52) := by
    rw [← Nat.pow_add]
    congr 1
    omega
  have hq : N / 2 ^ (ilog2 N - 52) < 2 ^ (ilog2 N + 1 - (ilog2 N - 52)) := by
    rw [Nat.div_lt_iff_lt_mul (Nat.pow_pos (by decide))]
    rw [← hsplit]
    exact h1
  rw [hsplit]
  exact Nat.mul_le_mul_right _ hq

theorem roundedMagnitude_pos (N : Nat) (hN : 0 < N) : 0 < roundedMagnitude N 1 :=
  Nat.lt_of_lt_of_le (Nat.pow_pos (by decide)) (roundedMagnitude_lower N hN)

theorem roundedMagnitude_mono {N1 N2 : Nat} (h1 : 0 < N1) (h : N1 ≤ N2) :
    roundedMagnitude N1 1 ≤ roundedMagnitude N2 1 := by
  have h2 : 0 < N2 := by omega
  have hb := ilog2_mono h
  by_cases hlt : ilog2 N1 < ilog2 N2
  · calc roundedMagnitude N1 1 ≤ 2 ^ (ilog2 N1 + 1) := roundedMagnitude_upper N1 h1
      _ ≤ 2 ^ ilog2 N2 := Nat.pow_le_pow_right (by decide) hlt
      _ ≤ roundedMagnitude N2 1 := roundedMagnitude_lower N2 h2
  · have heq : ilog2 N1 = ilog2 N2 := by omega
    have hu : 0 < 2 ^ (ilog2 N2 - 52) := Nat.pow_pos (by decide)
    have hq : N1 / 2 ^ (ilog2 N2 - 52) ≤ N2 / 2 ^ (ilog2 N2 - 52) := Nat.div_le_div_right h
    have hd1 := Nat.div_add_mod N1 (2 ^ (ilog2 N2 - 52))
    have hd2 := Nat.div_add_mod N2 (2 ^ (ilog2 N2 - 52))
    have hm1 := Nat.mod_lt N1 hu
    have hm2 := Nat.mod_lt N2 hu
    by_cases hqlt : N1 / 2 ^ (ilog2 N2 - 52) < N2 / 2 ^ (ilog2 N2 - 52)
    · obtain ⟨_, k1, _⟩ := roundedMagnitude_bounds N1 1 (by decide)
      obtain ⟨k2, _, _⟩ := roundedMagnitude_bounds N2 1 (by decide)
      simp only [Nat.div_one, Nat.one_mul, heq] at k1 k2
      calc roundedMagnitude N1 1
          ≤ (N1 / 2 ^ (ilog2 N2 - 52) + 1) * 2 ^ (ilog2 N2 - 52) := k1
        _ ≤ N2 / 2 ^ (ilog2 N2 - 52) * 2 ^ (ilog2 N2 - 52) := Nat.mul_le_mul_right _ hqlt
        _ ≤ roundedMagnitude N2 1 := k2
    · have hqeq : N1 / 2 ^ (ilog2 N2 - 52) = N2 / 2 ^ (ilog2 N2 - 52) := by omega
      have hr : N1 % 2 ^ (ilog2 N2 - 52) ≤ N2 % 2 ^ (ilog2 N2 - 52) := by
        rw [hqeq] at hd1
        omega
      unfold roundedMagnitude
      simp only [Nat.div_one, Nat.one_mul, heq, hqeq]
      apply Nat.mul_le_mul_right
      split_ifs <;> omega

theorem roundedMagnitude_le_one (N D : Nat) (hD : 0 < D) (h : N ≤ D * 2 ^ 1074) :
    roundedMagnitude N D ≤ 2 ^ 1074 ∧ (N = D * 2 ^ 1074 → roundedMagnitude N D = 2 ^ 1074) := by
  have hq : N / D ≤ 2 ^ 1074 := by
    rw [Nat.mul_comm] at h
    exact Nat.div_le_of_le_mul' (by rw [Nat.mul_comm]; exact h)
  have hb : ilog2 (N / D) ≤ 1074 :=
    ilog2_le_of_lt_pow (Nat.lt_of_le_of_lt hq (Nat.pow_lt_pow_right (by decide) (by decide)))
  obtain ⟨k1, k2, k3⟩ := roundedMagnitude_bounds N D hD
  obtain ⟨s, hsdef⟩ : ∃ s, s = ilog2 (N / D) - 52 := ⟨_, rfl⟩
  rw [← hsdef] at k1 k2 k3
  have hs : s ≤ 1074 := by omega
  have hsplit : (2 : Nat) ^ 1074 = 2 ^ (1074 - s) * 2 ^ s := by
    rw [← Nat.pow_add]
    congr 1
    omega
  have hu : 0 < D * 2 ^ s := Nat.mul_pos hD (Nat.pow_pos (by decide))
  have hK : D * 2 ^ 1074 = D * 2 ^ s * 2 ^ (1074 - s) := by
    rw [hsplit, Nat.mul_assoc, Nat.mul_comm (2 ^ (1074 - s))]
  have hQ : N / (D * 2 ^ s) ≤ 2 ^ (1074 - s) := by
    apply Nat.div_le_of_le_mul
    rw [← hK]
    exact h
  have hexact : N = D * 2 ^ 1074 → roundedMagnitude N D = 2 ^ 1074 := by
    intro hN
    have hN1 : N = D * 2 ^ s * 2 ^ (1074 - s) := hN.trans hK
    have hmod : N % (D * 2 ^ s) = 0 := by
      rw [hN1]
      exact Nat.mul_mod_right _ _
    have hdiv : N / (D * 2 ^ s) = 2 ^ (1074 - s) := by
      rw [hN1]
      exact Nat.mul_div_cancel_left _ hu
    rw [k3 hmod, hdiv, ← hsplit]
  refine ⟨?_, hexact⟩
  by_cases hlt : N / (D * 2 ^ s) < 2 ^ (1074 - s)
  · calc roundedMagnitude N D ≤ (N / (D * 2 ^ s) + 1) * 2 ^ s := k2
      _ ≤ 2 ^ (1074 - s) * 2 ^ s := Nat.mul_le_mul_right _ hlt
      _ = 2 ^ 1074 := hsplit.symm
  · have heq : N / (D * 2 ^ s) = 2 ^ (1074 - s) := by omega
    have hge : D * 2 ^ 1074 ≤ N := by
      rw [hK, ← heq]
      rw [Nat.mul_comm]
      exact Nat.div_mul_le_self N _
    rw [hexact (by omega)]

/-! ## Lemmas on the arithmetic of doubles -/

theorem Double.ofRat_zero : Double.ofRat 0 1 = Double.finite false 0 := rfl

theorem Double.ofRat_one : Double.ofRat 1 1 = Double.finite false (2 ^ 1074) := by decide

theorem Double.sub_def (a b : Double) : a - b = Double.add a (Double.neg b) := rfl

theorem Double.div_def (a b : Double) : a / b = Double.div a b := rfl

theorem signed_not (negative : Bool) (m : Nat) : signed (!negative) m = -signed negative m := by
  cases negative <;> simp [signed]

theorem Double.sub_finite (na nb : Bool) (ma mb : Nat) (h : signed na ma < signed nb mb) :
    Double.finite nb mb - Double.finite na ma
      = roundNat false (signed nb mb - signed na ma).natAbs 1 := by
  show Double.add (Double.finite nb mb) (Double.neg (Double.finite na ma)) = _
  simp only [Double.neg, Double.add, signed_not]
  have h1 : ¬ (signed nb mb + -signed na ma = 0) := by omega
  have h2 : ¬ (signed nb mb + -signed na ma < 0) := by omega
  rw [if_neg h1]
  simp only [h2, decide_False]
  congr 1

theorem roundNat_pos (N : Nat) (hN : 0 < N) : Double.finite false 0 < roundNat false N 1 := by
  rw [Double.lt_def]
  unfold roundNat
  have hpos := roundedMagnitude_pos N hN
  split
  · rfl
  · simp only [Double.lt, signed, decide_eq_true_eq, Bool.false_eq_true, if_false]
    exact_mod_cast hpos

theorem Double.sub_pos {a b : Double} (h : a < b) : Double.ofRat 0 1 < b - a := by
  rw [Double.ofRat_zero]
  rcases a with _ | ⟨_ | _⟩ | ⟨na, ma⟩ <;> rcases b with _ | ⟨_ | _⟩ | ⟨nb, mb⟩
  all_goals first
    | exact absurd h (by decide)
    | exact absurd h (Double.not_nan_lt _)
    | exact absurd h (Double.not_lt_nan _)
    | (have hs : signed na ma < signed nb mb := by
         rw [Double.lt_def] at h
         simpa [Double.lt] using h
       rw [Double.sub_finite na nb ma mb hs]
       exact roundNat_pos _ (by omega))
    | (rw [Double.lt_def] at h
       simp [Double.lt] at h
       done)
    | (rw [Double.lt_def, Double.sub_def]
       simp [Double.add, Double.neg, Double.lt])

theorem Double.isFinite_sub {a b : Double} (h : (b - a).isFinite = true) :
    a.isFinite = true ∧ b.isFinite = true := by
  rcases a with _ | ⟨_ | _⟩ | ⟨na, ma⟩ <;> rcases b with _ | ⟨_ | _⟩ | ⟨nb, mb⟩
  all_goals first
    | exact ⟨rfl, rfl⟩
    | (exfalso
       rw [Double.sub_def] at h
       simp [Double.add, Double.neg, Double.isFinite] at h)

theorem Double.segment {prev t cur : Double} (h1 : prev < t) (h2 : t ≤ cur)
    (hfin : (cur - prev).isFinite = true) :
    ∃ mn md, t - prev = Double.finite false mn ∧ cur - prev = Double.finite false md
      ∧ 0 < mn ∧ mn ≤ md := by
  obtain ⟨hp, hc⟩ := Double.isFinite_sub hfin
  have hpc : prev < cur := Double.lt_of_lt_of_le h1 h2
  rcases prev with _ | _ | ⟨np, mp⟩
  · cases hp
  · cases hp
  rcases cur with _ | _ | ⟨nc, mc⟩
  · cases hc
  · cases hc
  rcases t with _ | ⟨_ | _⟩ | ⟨nt, mt⟩
  · exact absurd h1 (Double.not_lt_nan _)
  · rw [Double.le_def] at h2
    simp [Double.le] at h2
  · rw [Double.lt_def] at h1
    simp [Double.lt] at h1
  have hs1 : signed np mp < signed nt mt := by
    rw [Double.lt_def] at h1
    simpa [Double.lt] using h1
  have hs2 : signed nt mt ≤ signed nc mc := by
    rw [Double.le_def] at h2
    simpa [Double.le] using h2
  have hs3 : signed np mp < signed nc mc := by omega
  rw [Double.sub_finite np nc mp mc hs3] at hfin ⊢
  rw [Double.sub_finite np nt mp mt hs1]
  have hn : 0 < (signed nt mt - signed np mp).natAbs := by omega
  have hle : (signed nt mt - signed np mp).natAbs ≤ (signed nc mc - signed np mp).natAbs := by
    omega
  have hmono := roundedMagnitude_mono hn hle
  have hposn := roundedMagnitude_pos _ hn
  unfold roundNat at hfin ⊢
  by_cases hov : 2 ^ 2098 ≤ roundedMagnitude (signed nc mc - signed np mp).natAbs 1
  · rw [if_pos hov] at hfin
    cases hfin
  · rw [if_neg hov]
    have hov1 : ¬ (2 ^ 2098 ≤ roundedMagnitude (signed nt mt - signed np mp).natAbs 1) := by
      omega
    rw [if_neg hov1]
    exact ⟨_, _, rfl, rfl, hposn, hmono⟩

theorem Double.div_finite_le_one (mn md : Nat) (hn : 0 < mn) (h : mn ≤ md) :
    ∃ r, Double.finite false mn / Double.finite false md = Double.finite false r
      ∧ r ≤ 2 ^ 1074 ∧ (mn = md → r = 2 ^ 1074) := by
  have hd : md ≠ 0 := by omega
  have hn0 : mn ≠ 0 := by omega
  obtain ⟨k1, k2⟩ := roundedMagnitude_le_one (mn * 2 ^ 1074) md (by omega)
    (Nat.mul_le_mul_right _ h)
  have hov : ¬ (2 ^ 2098 ≤ roundedMagnitude (mn * 2 ^ 1074) md) := by
    have : (2 : Nat) ^ 1074 < 2 ^ 2098 := Nat.pow_lt_pow_right (by decide) (by decide)
    omega
  refine ⟨roundedMagnitude (mn * 2 ^ 1074) md, ?_, k1, ?_⟩
  · show Double.div (Double.finite false mn) (Double.finite false md) = _
    simp only [Double.div, hd, hn0, if_false, roundNat, if_neg hov]
    rfl
  · intro heq
    exact k2 (by rw [heq])

theorem Double.ratio_bounds {prev t cur : Double} (h1 : prev < t) (h2 : t ≤ cur)
    (hfin : (cur - prev).isFinite = true) :
    Double.ofRat 0 1 ≤ (t - prev) / (cur - prev)
      ∧ (t - prev) / (cur - prev) ≤ Double.ofRat 1 1 := by
  obtain ⟨mn, md, hn, hd, hpos, hle⟩ := Double.segment h1 h2 hfin
  obtain ⟨r, hr, hr1, _⟩ := Double.div_finite_le_one mn md hpos hle
  rw [hn, hd, hr, Double.ofRat_zero, Double.ofRat_one, Double.le_def, Double.le_def]
  simp only [Double.le, signed, decide_eq_true_eq, Bool.false_eq_true, if_false]
  exact ⟨by exact_mod_cast Nat.zero_le r, by exact_mod_cast hr1⟩

theorem Double.ratio_one {prev cur : Double} (h : prev < cur)
    (hfin : (cur - prev).isFinite = true) :
    (cur - prev) / (cur - prev) = Double.ofRat 1 1 := by
  obtain ⟨mn, md, hn, hd, hpos, hle⟩ :=
    Double.segment h (Double.le_refl (Double.not_nan_of_lt h).2) hfin
  have hmm : mn = md := by
    rw [hn] at hd
    injection hd
  subst hmm
  obtain ⟨r, hr, _, hr2⟩ := Double.div_finite_le_one mn mn hpos hle
  rw [hd, hr, hr2 rfl, Double.ofRat_one]

theorem Double.sub_eq_of_le_of_le {prev t cur : Double} (h1 : prev < t) (h2 : t ≤ cur)
    (h3 : cur ≤ t) : t - prev = cur - prev := by
  rcases prev with _ | ⟨_ | _⟩ | ⟨np, mp⟩ <;> rcases t with _ | ⟨_ | _⟩ | ⟨nt, mt⟩ <;>
    rcases cur with _ | ⟨_ | _⟩ | ⟨nc, mc⟩
  all_goals first
    | rfl
    | exact absurd h1 (by decide)
    | exact absurd h2 (by decide)
    | exact absurd h3 (by decide)
    | exact absurd h1 (Double.not_nan_lt _)
    | exact absurd h1 (Double.not_lt_nan _)
    | exact absurd h2 (Double.not_le_nan _)
    | exact absurd h2 (Double.not_nan_le _)
    | (rw [Double.le_def] at h2
       simp [Double.le] at h2
       done)
    | (rw [Double.le_def] at h3
       simp [Double.le] at h3
       done)
    | (rw [Double.lt_def] at h1
       simp [Double.lt] at h1
       done)
    | (have hs1 : signed np mp < signed nt mt := by
         rw [Double.lt_def] at h1
         simpa [Double.lt] using h1
       have hs2 : signed nt mt ≤ signed nc mc := by
         rw [Double.le_def] at h2
         simpa [Double.le] using h2
       have hs3 : signed nc mc ≤ signed nt mt := by
         rw [Double.le_def] at h3
         simpa [Double.le] using h3
       have heq : signed nt mt = signed nc mc := by omega
       rw [Double.sub_finite np nt mp mt hs1, Double.sub_finite np nc mp mc (by omega), heq])

/-! ## Lemmas on waypoint lists -/

theorem lowerBoundLoop_partition {S : Type} (ws : List (Waypoint S)) (t : Double) :
    ∀ (fuel first len k : Nat), len ≤ fuel → first + len ≤ ws.length → k ≤ len →
      (∀ j w, j < k → ws[first + j]? = some w → w.ltTime t = true) →
      (∀ j w, k ≤ j → j < len → ws[first + j]? = some w → w.ltTime t = false) →
      lowerBoundLoop ws t fuel first len = first + k := by
  intro fuel
  induction fuel with
  | zero =>
    intro first len k hfuel _ hk _ _
    simp only [lowerBoundLoop]
    omega
  | succ fuel ih =>
    intro first len k hfuel hlen hk htrue hfalse
    unfold lowerBoundLoop
    by_cases h0 : len = 0
    · rw [if_pos h0]
      omega
    · rw [if_neg h0]
      have hhalf : len / 2 < len := Nat.div_lt_self (by omega) (by decide)
      have hmid : first + len / 2 < ws.length := by omega
      have hget : ws.get? (first + len / 2) = some (ws[first + len / 2]) := by
        rw [List.get?_eq_getElem?]
        exact List.getElem?_eq_getElem hmid
      simp only [hget]
      have hget1 : ws[first + len / 2]? = some (ws[first + len / 2]) :=
        List.getElem?_eq_getElem hmid
      by_cases hlt : (ws[first + len / 2]).ltTime t = true
      · rw [if_pos hlt]
        have hk1 : len / 2 < k := by
          by_contra hcon
          have := hfalse (len / 2) _ (by omega) hhalf hget1
          rw [this] at hlt
          cases hlt
        rw [ih (first + len / 2 + 1) (len - len / 2 - 1) (k - len / 2 - 1) (by omega) (by omega)
          (by omega)]
        · omega
        · intro j w hj hw
          have hidx : first + len / 2 + 1 + j = first + (len / 2 + 1 + j) := by omega
          rw [hidx] at hw
          exact htrue _ w (by omega) hw
        · intro j w hj1 hj2 hw
          have hidx : first + len / 2 + 1 + j = first + (len / 2 + 1 + j) := by omega
          rw [hidx] at hw
          exact hfalse _ w (by omega) (by omega) hw
      · rw [if_neg hlt]
        have hk1 : k ≤ len / 2 := by
          by_contra hcon
          exact hlt (htrue (len / 2) _ (by omega) hget1)
        exact ih first (len / 2) k (by omega) (by omega) hk1 htrue
          (fun j w hj1 hj2 hw => hfalse j w hj1 (by omega) hw)

theorem lower_bound_partition {S : Type} (ws : List (Waypoint S)) (t : Double) (k : Nat)
    (hk : k ≤ ws.length)
    (htrue : ∀ j w, j < k → ws[j]? = some w → w.t < t)
    (hfalse : ∀ j w, k ≤ j → ws[j]? = some w → ¬ (w.t < t)) :
    lower_bound ws t = k := by
  unfold lower_bound
  rw [lowerBoundLoop_partition ws t ws.length 0 ws.length k (Nat.le_refl _) (by omega) hk]
  · omega
  · intro j w hj hw
    rw [Nat.zero_add] at hw
    simpa [Waypoint.ltTime] using htrue j w hj hw
  · intro j w hj _ hw
    rw [Nat.zero_add] at hw
    simpa [Waypoint.ltTime] using hfalse j w hj hw

theorem sorted_partition {S : Type} (t : Double) :
    ∀ ws : List (Waypoint S), List.Sorted (· ≤ ·) (ws.map Waypoint.t) →
      ∃ k, k ≤ ws.length ∧ (∀ j w, j < k → ws[j]? = some w → w.t < t)
        ∧ (∀ j w, k ≤ j → ws[j]? = some w → ¬ (w.t < t)) := by
  intro ws
  induction ws with
  | nil => intro _; exact ⟨0, by simp, by simp, by simp⟩
  | cons w0 rest ih =>
    intro hs
    simp only [List.map_cons, List.sorted_cons, List.mem_map, forall_exists_index, and_imp,
      forall_apply_eq_imp_iff₂] at hs
    by_cases h0 : w0.t < t
    · obtain ⟨k, hk, h1, h2⟩ := ih hs.2
      refine ⟨k + 1, by simp only [List.length_cons]; omega, ?_, ?_⟩
      · intro j w hj hw
        cases j with
        | zero =>
          simp only [List.getElem?_cons_zero, Option.some.injEq] at hw
          subst hw
          exact h0
        | succ j =>
          simp only [List.getElem?_cons_succ] at hw
          exact h1 j w (by omega) hw
      · intro j w hj hw
        cases j with
        | zero => omega
        | succ j =>
          simp only [List.getElem?_cons_succ] at hw
          exact h2 j w (by omega) hw
    · refine ⟨0, by omega, by intro j w hj; omega, ?_⟩
      intro j w _ hw
      cases j with
      | zero =>
        simp only [List.getElem?_cons_zero, Option.some.injEq] at hw
        subst hw
        exact h0
      | succ j =>
        simp only [List.getElem?_cons_succ] at hw
        intro hlt
        exact h0 (Double.lt_of_le_of_lt (hs.1 w (List.getElem?_mem hw)) hlt)

theorem lower_bound_sorted {S : Type} (ws : List (Waypoint S)) (t : Double)
    (hs : List.Sorted (· ≤ ·) (ws.map Waypoint.t)) :
    lower_bound ws t ≤ ws.length
      ∧ (∀ j w, j < lower_bound ws t → ws[j]? = some w → w.t < t)
      ∧ (∀ j w, lower_bound ws t ≤ j → ws[j]? = some w → ¬ (w.t < t)) := by
  obtain ⟨k, hk, h1, h2⟩ := sorted_partition t ws hs
  rw [lower_bound_partition ws t k hk h1 h2]
  exact ⟨hk, h1, h2⟩

theorem sorted_getElem_le {S : Type} :
    ∀ (ws : List (Waypoint S)), List.Sorted (· ≤ ·) (ws.map Waypoint.t) →
      ∀ (i j : Nat) (wi wj : Waypoint S), i < j → ws[i]? = some wi → ws[j]? = some wj →
      wi.t ≤ wj.t := by
  intro ws
  induction ws with
  | nil => intro _ i j wi wj _ hi; simp at hi
  | cons w rest ih =>
    intro hs i j wi wj hij hi hj
    simp only [List.map_cons, List.sorted_cons, List.mem_map, forall_exists_index, and_imp,
      forall_apply_eq_imp_iff₂] at hs
    cases j with
    | zero => omega
    | succ j =>
      simp only [List.getElem?_cons_succ] at hj
      cases i with
      | zero =>
        simp only [List.getElem?_cons_zero, Option.some.injEq] at hi
        subst hi
        exact hs.1 wj (List.getElem?_mem hj)
      | succ i =>
        simp only [List.getElem?_cons_succ] at hi
        exact ih hs.2 i j wi wj (by omega) hi hj

theorem sorted_getElem_le_of_le {S : Type} (ws : List (Waypoint S))
    (hs : List.Sorted (· ≤ ·) (ws.map Waypoint.t)) (i j : Nat) (wi wj : Waypoint S)
    (hij : i ≤ j) (hi : ws[i]? = some wi) (hj : ws[j]? = some wj)
    (hnan : wi.t.isNaN = false) : wi.t ≤ wj.t := by
  by_cases h : i = j
  · subst h
    rw [hi] at hj
    simp only [Option.some.injEq] at hj
    subst hj
    exact Double.le_refl hnan
  · exact sorted_getElem_le ws hs i j wi wj (by omega) hi hj

theorem sorted_head_le {S : Type} (ws : List (Waypoint S)) (first : Waypoint S)
    (hs : List.Sorted (· ≤ ·) (ws.map Waypoint.t)) (hh : ws.head? = some first)
    (hnan : first.t.isNaN = false) : ∀ w ∈ ws, first.t ≤ w.t := by
  intro w hw
  obtain ⟨j, hj, hjw⟩ := List.getElem_of_mem hw
  have h0 : ws[0]? = some first := by
    cases ws with
    | nil => cases hh
    | cons w0 rest => simpa using hh
  exact sorted_getElem_le_of_le ws hs 0 j first w (Nat.zero_le _) h0
    (List.getElem?_eq_some.mpr ⟨hj, hjw⟩) hnan

theorem sorted_le_getLast {S : Type} (ws : List (Waypoint S)) (last : Waypoint S)
    (hs : List.Sorted (· ≤ ·) (ws.map Waypoint.t)) (hl : ws.getLast? = some last)
    (hnan : ∀ w ∈ ws, w.t.isNaN = false) : ∀ w ∈ ws, w.t ≤ last.t := by
  intro w hw
  obtain ⟨j, hj, hjw⟩ := List.getElem_of_mem hw
  have hlast : ws[ws.length - 1]? = some last := by
    rw [List.getLast?_eq_getElem?] at hl
    exact hl
  exact sorted_getElem_le_of_le ws hs j (ws.length - 1) w last (by omega)
    (List.getElem?_eq_some.mpr ⟨hj, hjw⟩) hlast (hnan w hw)

theorem sorted_not_nan {S : Type} (ws : List (Waypoint S))
    (hs : List.Sorted (· ≤ ·) (ws.map Waypoint.t)) (hlen : 2 ≤ ws.length) :
    ∀ w ∈ ws, w.t.isNaN = false := by
  intro w hw
  obtain ⟨j, hj, hjw⟩ := List.getElem_of_mem hw
  have hjw1 : ws[j]? = some w := List.getElem?_eq_some.mpr ⟨hj, hjw⟩
  by_cases h0 : j = 0
  · subst h0
    have h1 : ws[1]? = some (ws[1]) := List.getElem?_eq_getElem (by omega)
    exact (Double.not_nan_of_le (sorted_getElem_le ws hs 0 1 w _ (by decide) hjw1 h1)).1
  · have h1 : ws[0]? = some (ws[0]) := List.getElem?_eq_getElem (by omega)
    exact (Double.not_nan_of_le (sorted_getElem_le ws hs 0 j _ w (by omega) h1 hjw1)).2

theorem addWaypoint_perm {S : Type} (traj : Interpolated S) (t : Double) (state : S) :
    List.Perm (traj.addWaypoint t state).mWaypoints ({ t := t, state := state } :: traj.mWaypoints) := by
  unfold Interpolated.addWaypoint
  simp only
  have h := @List.perm_middle (Waypoint S) { t := t, state := state }
    (traj.mWaypoints.take (lower_bound traj.mWaypoints t))
    (traj.mWaypoints.drop (lower_bound traj.mWaypoints t))
  rw [List.take_append_drop] at h
  exact h

theorem addWaypoint_length {S : Type} (traj : Interpolated S) (t : Double) (state : S) :
    (traj.addWaypoint t state).mWaypoints.length = traj.mWaypoints.length + 1 :=
  (addWaypoint_perm traj t state).length_eq

theorem addWaypoint_split {S : Type} (traj : Interpolated S) (t : Double) (state : S)
    (hsorted : List.Sorted (· ≤ ·) traj.times) :
    ∃ before after, traj.mWaypoints = before ++ after
      ∧ (traj.addWaypoint t state).mWaypoints = before ++ { t := t, state := state } :: after
      ∧ (∀ w ∈ before, w.t < t) ∧ (∀ w ∈ after, ¬ (w.t < t)) := by
  obtain ⟨_, h1, h2⟩ := lower_bound_sorted traj.mWaypoints t hsorted
  refine ⟨traj.mWaypoints.take (lower_bound traj.mWaypoints t),
    traj.mWaypoints.drop (lower_bound traj.mWaypoints t), (List.take_append_drop _ _).symm, rfl,
    ?_, ?_⟩
  · intro w hw
    obtain ⟨j, hj, hjw⟩ := List.getElem_of_mem hw
    rw [List.getElem_take] at hjw
    rw [List.length_take] at hj
    exact h1 j w (by omega) (List.getElem?_eq_some.mpr ⟨by omega, hjw⟩)
  · intro w hw
    obtain ⟨j, hj, hjw⟩ := List.getElem_of_mem hw
    rw [List.getElem_drop] at hjw
    rw [List.length_drop] at hj
    exact h2 (lower_bound traj.mWaypoints t + j) w (by omega)
      (List.getElem?_eq_some.mpr ⟨by omega, hjw⟩)

theorem addWaypoint_placement {S : Type} (traj : Interpolated S) (t : Double) (state : S)
    (hsorted : List.Sorted (· ≤ ·) traj.times)
    (hnan : ∀ w ∈ traj.mWaypoints, w.t.isNaN = false) (ht : t.isNaN = false) :
    ∃ before after, traj.mWaypoints = before ++ after
      ∧ (traj.addWaypoint t state).mWaypoints = before ++ { t := t, state := state } :: after
      ∧ (∀ w ∈ before, w.t < t) ∧ (∀ w ∈ after, t ≤ w.t) := by
  obtain ⟨before, after, h1, h2, h3, h4⟩ := addWaypoint_split traj t state hsorted
  refine ⟨before, after, h1, h2, h3, ?_⟩
  intro w hw
  exact Double.le_of_not_lt (hnan w (by rw [h1]; exact List.mem_append_right _ hw)) ht (h4 w hw)

theorem addWaypoint_sorted {S : Type} (traj : Interpolated S) (t : Double) (state : S)
    (hsorted : List.Sorted (· ≤ ·) traj.times)
    (hnan : ∀ w ∈ traj.mWaypoints, w.t.isNaN = false) (ht : t.isNaN = false) :
    List.Sorted (· ≤ ·) (traj.addWaypoint t state).times
      ∧ ∀ w ∈ (traj.addWaypoint t state).mWaypoints, w.t.isNaN = false := by
  obtain ⟨before, after, h1, h2, h3, h4⟩ := addWaypoint_placement traj t state hsorted hnan ht
  refine ⟨?_, ?_⟩
  · unfold Interpolated.times at hsorted ⊢
    rw [h1] at hsorted
    rw [h2]
    simp only [List.map_append, List.map_cons, List.Sorted, List.pairwise_append,
      List.pairwise_cons, List.mem_map, List.mem_cons, forall_exists_index, and_imp,
      forall_apply_eq_imp_iff₂, forall_eq_or_imp] at hsorted ⊢
    obtain ⟨k1, k2, k3⟩ := hsorted
    refine ⟨k1, ⟨fun w hw => h4 w hw, k2⟩, ?_⟩
    intro w hw
    exact ⟨Double.le_of_lt (h3 w hw), fun w1 hw1 => k3 w hw w1 hw1⟩
  · intro w hw
    rcases List.mem_cons.mp ((addWaypoint_perm traj t state).mem_iff.mp hw) with rfl | hw1
    · exact ht
    · exact hnan w hw1

theorem foldl_addWaypoint {S : Type} :
    ∀ (calls : List (Double × S)) (traj : Interpolated S),
      List.Sorted (· ≤ ·) traj.times → (∀ w ∈ traj.mWaypoints, w.t.isNaN = false) →
      (∀ c ∈ calls, c.1.isNaN = false) →
      List.Sorted (· ≤ ·)
          (calls.foldl (fun tr call => tr.addWaypoint call.1 call.2) traj).times
        ∧ (∀ w ∈ (calls.foldl (fun tr call => tr.addWaypoint call.1 call.2) traj).mWaypoints,
            w.t.isNaN = false)
        ∧ List.Perm (calls.foldl (fun tr call => tr.addWaypoint call.1 call.2) traj).times
            (traj.times ++ calls.map Prod.fst)
        ∧ (calls.foldl (fun tr call => tr.addWaypoint call.1 call.2) traj).mInterpolator
            = traj.mInterpolator := by
  intro calls
  induction calls with
  | nil => intro traj hs hn _; simp [hs]; exact hn
  | cons call calls ih =>
    intro traj hs hn hc
    obtain ⟨hs1, hn1⟩ := addWaypoint_sorted traj call.1 call.2 hs hn
      (hc call (List.mem_cons_self _ _))
    obtain ⟨h1, h0, h2, h3⟩ := ih (traj.addWaypoint call.1 call.2) hs1 hn1
      (fun c hcm => hc c (List.mem_cons_of_mem _ hcm))
    refine ⟨h1, h0, ?_, h3⟩
    simp only [List.foldl_cons, List.map_cons]
    refine h2.trans ?_
    have hp : List.Perm (traj.addWaypoint call.1 call.2).times (call.1 :: traj.times) :=
      (addWaypoint_perm traj call.1 call.2).map Waypoint.t
    refine (hp.append_right _).trans ?_
    simp only [List.cons_append]
    exact List.perm_middle.symm

theorem ofCalls_sorted {S : Type} (interpolator : Interpolator S) (calls : List (Double × S))
    (hnan : ∀ c ∈ calls, c.1.isNaN = false) :
    List.Sorted (· ≤ ·) (Interpolated.ofCalls interpolator calls).times
      ∧ (∀ w ∈ (Interpolated.ofCalls interpolator calls).mWaypoints, w.t.isNaN = false)
      ∧ List.Perm (Interpolated.ofCalls interpolator calls).times (calls.map Prod.fst) := by
  obtain ⟨h1, h0, h2, _⟩ := foldl_addWaypoint calls (Interpolated.new interpolator)
    (by simp [Interpolated.new, Interpolated.times])
    (by simp [Interpolated.new]) hnan
  exact ⟨h1, h0, by simpa [Interpolated.new, Interpolated.times, Interpolated.ofCalls] using h2⟩

theorem testTrajectory_waypoints :
    testTrajectory.mWaypoints
      = [{ t := Double.ofRat 1 1, state := point 0 0 }, { t := Double.ofRat 3 1, state := point 3 3 },
          { t := Double.ofRat 7 1, state := point 8 1 }] := by
  rfl

theorem testTrajectory_sorted : List.Sorted (· ≤ ·) testTrajectory.times :=
  (ofCalls_sorted _ _ (by decide)).1

/-! ## The claims on interpolated trajectories -/

/-- Counterexample to C18 as stated: a NaN among the times. After `addWaypoint` at
NaN and then at 1 (each search runs on a range partitioned by `w < _t`) the
waypoints are at 1, NaN: `getEndTime` returns NaN, which is not the greatest of
the times (`1 <= NaN` is false), and `getDuration` returns NaN. After `addWaypoint`
at 1, NaN, 0.5, 2 the waypoints are at 0.5, 2, NaN, 1, and `getEndTime` returns 1
although a waypoint was added at 2. -/
theorem addWaypoint_nan_breaks_time_bounds :
    (Interpolated.ofCalls linearR2
        [(Double.nan, point 0 0), (Double.ofRat 1 1, point 1 1)]).times
      = [Double.ofRat 1 1, Double.nan]
      ∧ (Interpolated.ofCalls linearR2
          [(Double.nan, point 0 0), (Double.ofRat 1 1, point 1 1)]).getEndTime
        = Except.ok Double.nan
      ∧ ¬ (Double.ofRat 1 1 ≤ Double.nan)
      ∧ (Interpolated.ofCalls linearR2
          [(Double.nan, point 0 0), (Double.ofRat 1 1, point 1 1)]).getDuration
        = Except.ok Double.nan
      ∧ (Interpolated.ofCalls linearR2
          [(Double.ofRat 1 1, point 0 0), (Double.nan, point 1 1), (Double.ofRat 1 2, point 2 2),
            (Double.ofRat 2 1, point 3 3)]).times
        = [Double.ofRat 1 2, Double.ofRat 2 1, Double.nan, Double.ofRat 1 1]
      ∧ (Interpolated.ofCalls linearR2
          [(Double.ofRat 1 1, point 0 0), (Double.nan, point 1 1), (Double.ofRat 1 2, point 2 2),
            (Double.ofRat 2 1, point 3 3)]).getEndTime
        = Except.ok (Double.ofRat 1 1)
      ∧ ¬ (Double.ofRat 2 1 ≤ Double.ofRat 1 1) :=
  ⟨rfl, rfl, by decide, rfl, rfl, rfl, by decide⟩

/-- C18, amended. Time bounds: after any non-empty sequence of `addWaypoint` calls
on an empty trajectory, in any order, none of whose times is NaN, `getStartTime`
returns the least of the times added, `getEndTime` the greatest, and `getDuration`
their difference as `double`s (the rounded difference). On a trajectory with no
waypoints `getDuration` returns 0 and `getStartTime` and `getEndTime` throw
`std::domain_error`. -/
theorem ofCalls_time_bounds {S : Type} (interpolator : Interpolator S)
    (calls : List (Double × S)) (hnan : ∀ c ∈ calls, c.1.isNaN = false) :
    (calls ≠ [] →
        ∃ lo hi, (Interpolated.ofCalls interpolator calls).getStartTime = Except.ok lo
          ∧ (Interpolated.ofCalls interpolator calls).getEndTime = Except.ok hi
          ∧ (Interpolated.ofCalls interpolator calls).getDuration = Except.ok (hi - lo)
          ∧ lo ∈ calls.map Prod.fst ∧ hi ∈ calls.map Prod.fst
          ∧ ∀ x ∈ calls.map Prod.fst, lo ≤ x ∧ x ≤ hi)
      ∧ (Interpolated.new interpolator).getDuration = Except.ok (Double.ofRat 0 1)
      ∧ (Interpolated.new interpolator).getStartTime
          = Except.error (Abort.thrown
              (Exception.domain_error "Requested getEndTime on empty trajectory."))
      ∧ (Interpolated.new interpolator).getEndTime
          = Except.error (Abort.thrown
              (Exception.domain_error "Requested getEndTime on empty trajectory.")) := by
  refine ⟨?_, rfl, rfl, rfl⟩
  intro hne
  obtain ⟨hs, hn, hp⟩ := ofCalls_sorted interpolator calls hnan
  generalize Interpolated.ofCalls interpolator calls = traj at hs hn hp
  have hlen : traj.mWaypoints ≠ [] := by
    intro hnil
    have : traj.times = [] := by simp [Interpolated.times, hnil]
    rw [this] at hp
    exact hne (List.map_eq_nil_iff.mp hp.symm.eq_nil)
  obtain ⟨first, hfirst⟩ : ∃ first, traj.mWaypoints.head? = some first := by
    cases hw : traj.mWaypoints with
    | nil => exact absurd hw hlen
    | cons w rest => exact ⟨w, rfl⟩
  obtain ⟨last, hlast⟩ : ∃ last, traj.mWaypoints.getLast? = some last := by
    cases hl : traj.mWaypoints.getLast? with
    | none => exact absurd (List.getLast?_eq_none_iff.mp hl) hlen
    | some l => exact ⟨l, rfl⟩
  have hfm : first ∈ traj.mWaypoints := List.mem_of_mem_head? hfirst
  have hlm : last ∈ traj.mWaypoints := List.mem_of_getLast?_eq_some hlast
  have hmem : ∀ w ∈ traj.mWaypoints, w.t ∈ calls.map Prod.fst := fun w hw =>
    hp.mem_iff.mp (List.mem_map_of_mem Waypoint.t hw)
  have hempty : traj.mWaypoints.isEmpty = false := by
    cases hw : traj.mWaypoints with
    | nil => exact absurd hw hlen
    | cons w rest => rfl
  refine ⟨first.t, last.t, ?_, ?_, ?_, hmem first hfm, hmem last hlm, ?_⟩
  · simp [Interpolated.getStartTime, hfirst]
  · simp [Interpolated.getEndTime, hlast]
  · simp [Interpolated.getDuration, Interpolated.getStartTime, Interpolated.getEndTime, hfirst,
      hlast, hempty]
  · intro x hx
    obtain ⟨w, hw, rfl⟩ := List.mem_map.mp (hp.mem_iff.mpr hx)
    exact ⟨sorted_head_le _ first hs hfirst (hn first hfm) w hw,
      sorted_le_getLast _ last hs hlast hn w hw⟩

/-- Witness for C18, amended: waypoints added at times 7, 1, 3, in that order;
the test trajectory has start time 1, end time 7 and duration 6. -/
theorem ofCalls_time_bounds_witness :
    (∃ lo hi,
        (Interpolated.ofCalls linearR2
            [(Double.ofRat 7 1, point 8 1), (Double.ofRat 1 1, point 0 0),
              (Double.ofRat 3 1, point 3 3)]).getStartTime = Except.ok lo
          ∧ (Interpolated.ofCalls linearR2
              [(Double.ofRat 7 1, point 8 1), (Double.ofRat 1 1, point 0 0),
                (Double.ofRat 3 1, point 3 3)]).getEndTime = Except.ok hi
          ∧ (Interpolated.ofCalls linearR2
              [(Double.ofRat 7 1, point 8 1), (Double.ofRat 1 1, point 0 0),
                (Double.ofRat 3 1, point 3 3)]).getDuration = Except.ok (hi - lo)
          ∧ lo ∈ [(Double.ofRat 7 1, point 8 1), (Double.ofRat 1 1, point 0 0),
                (Double.ofRat 3 1, point 3 3)].map Prod.fst
          ∧ hi ∈ [(Double.ofRat 7 1, point 8 1), (Double.ofRat 1 1, point 0 0),
                (Double.ofRat 3 1, point 3 3)].map Prod.fst
          ∧ ∀ x ∈ [(Double.ofRat 7 1, point 8 1), (Double.ofRat 1 1, point 0 0),
                (Double.ofRat 3 1, point 3 3)].map Prod.fst, lo ≤ x ∧ x ≤ hi)
      ∧ testTrajectory.getStartTime = Except.ok (Double.ofRat 1 1)
      ∧ testTrajectory.getEndTime = Except.ok (Double.ofRat 7 1)
      ∧ testTrajectory.getDuration = Except.ok (Double.ofRat 6 1) :=
  ⟨(ofCalls_time_bounds linearR2
      [(Double.ofRat 7 1, point 8 1), (Double.ofRat 1 1, point 0 0),
        (Double.ofRat 3 1, point 3 3)] (by decide)).1 (by simp),
    rfl, rfl, rfl⟩

theorem lower_bound_eq {S : Type} (t : Double) (ws : List (Waypoint S)) (k : Nat)
    (cur : Waypoint S) (hcur : ws[k]? = some cur) (hle : t ≤ cur.t)
    (hsorted : List.Sorted (· ≤ ·) (ws.map Waypoint.t))
    (hbefore : ∀ j w, j < k → ws[j]? = some w → w.t < t) :
    lower_bound ws t = k := by
  have hlen : k < ws.length := (List.getElem?_eq_some.mp hcur).1
  apply lower_bound_partition ws t k (by omega) hbefore
  intro j w hj hw hlt
  by_cases hjk : j = k
  · subst hjk
    rw [hcur] at hw
    simp only [Option.some.injEq] at hw
    subst hw
    exact Double.not_lt_of_le hle hlt
  · have h1 := sorted_getElem_le ws hsorted k j cur w (by omega) hcur hw
    exact Double.not_lt_of_le (Double.le_trans hle h1) hlt

theorem index_segment {S : Type} (traj : Interpolated S) (t : Double) (k : Nat)
    (hsorted : List.Sorted (· ≤ ·) traj.times)
    (hk : traj.getWaypointIndexAfterTime t = Except.ok k) (hpos : 0 < k) :
    k = lower_bound traj.mWaypoints t ∧
    ∃ prev cur, traj.mWaypoints[k - 1]? = some prev ∧ traj.mWaypoints[k]? = some cur
      ∧ prev.t < t ∧ t ≤ cur.t
      ∧ (∀ j w, j < k → traj.mWaypoints[j]? = some w → w.t < t)
      ∧ (∀ j w, k ≤ j → traj.mWaypoints[j]? = some w → t ≤ w.t) := by
  unfold Interpolated.getWaypointIndexAfterTime at hk
  simp only at hk
  split at hk
  · cases hk
  · rename_i hne
    simp only [Except.ok.injEq] at hk
    obtain ⟨hle, hbefore, hafter⟩ := lower_bound_sorted traj.mWaypoints t hsorted
    rw [hk] at hle hbefore hafter
    rw [hk] at hne
    have hlt : k < traj.mWaypoints.length := by omega
    have hcur : traj.mWaypoints[k]? = some (traj.mWaypoints[k]) := List.getElem?_eq_getElem hlt
    have hprev : traj.mWaypoints[k - 1]? = some (traj.mWaypoints[k - 1]) :=
      List.getElem?_eq_getElem (by omega)
    have hnan := sorted_not_nan traj.mWaypoints hsorted (by omega)
    have hplt := hbefore (k - 1) _ (by omega) hprev
    have htn := (Double.not_nan_of_lt hplt).2
    have hge : ∀ j w, k ≤ j → traj.mWaypoints[j]? = some w → t ≤ w.t := by
      intro j w hj hw
      exact Double.le_of_not_lt (hnan w (List.getElem?_mem hw)) htn (hafter j w hj hw)
    exact ⟨hk.symm, _, _, hprev, hcur, hplt, hge k _ (Nat.le_refl k) hcur, hbefore, hge⟩

theorem evaluate_ok_of_index {S : Type} (traj : Interpolated S) (t : Double) (k : Nat)
    (prev cur : Waypoint S)
    (hk : traj.getWaypointIndexAfterTime t = Except.ok k) (hpos : 0 < k)
    (hprev : traj.mWaypoints[k - 1]? = some prev) (hcur : traj.mWaypoints[k]? = some cur) :
    traj.evaluateTry t
        = Except.ok (StateWrite.interpolate prev.state cur.state
            ((t - prev.t) / (cur.t - prev.t)))
      ∧ traj.evaluateCall t
        = Except.ok (StateWrite.interpolate prev.state cur.state
            ((t - prev.t) / (cur.t - prev.t)))
      ∧ traj.evaluate t
        = Except.ok (traj.mInterpolator.interpolate prev.state cur.state
            ((t - prev.t) / (cur.t - prev.t)))
      ∧ ∀ derivative, traj.evaluateDerivativeTry t derivative
        = Except.ok ((traj.mInterpolator.getDerivative prev.state cur.state derivative
            ((t - prev.t) / (cur.t - prev.t))).map (fun x => x / (cur.t - prev.t))) := by
  have hk0 : k ≠ 0 := by omega
  have hempty : traj.mWaypoints.isEmpty = false := by
    cases hw : traj.mWaypoints with
    | nil => rw [hw] at hcur; simp at hcur
    | cons w rest => rfl
  have htry : traj.evaluateTry t
      = Except.ok (StateWrite.interpolate prev.state cur.state
          ((t - prev.t) / (cur.t - prev.t))) := by
    simp [Interpolated.evaluateTry, hk, hk0, hprev, hcur]
  have hcall : traj.evaluateCall t
      = Except.ok (StateWrite.interpolate prev.state cur.state
          ((t - prev.t) / (cur.t - prev.t))) := by
    simp [Interpolated.evaluateCall, htry, hempty]
  refine ⟨htry, hcall, ?_, ?_⟩
  · simp [Interpolated.evaluate, hcall, StateWrite.run]
  · intro derivative
    simp [Interpolated.evaluateDerivativeTry, hk, hk0, hprev, hcur]

theorem addWaypointUnbounded_some {S : Type} (traj : Interpolated S) (copy : S → S) (t : Double)
    (state : S) :
    traj.addWaypointUnbounded (some copy) t state = Except.ok (traj.addWaypoint t (copy state)) :=
  rfl

theorem applyCalls_invariant {S : Type} (subspaceCopy : Option (S → S)) :
    ∀ (calls : List (WaypointCall S)) (traj result : Interpolated S),
      List.Sorted (· ≤ ·) traj.times → (∀ w ∈ traj.mWaypoints, w.t.isNaN = false) →
      (∀ c ∈ calls, c.time.isNaN = false) →
      Interpolated.applyCalls subspaceCopy traj calls = Except.ok result →
      List.Sorted (· ≤ ·) result.times
        ∧ (∀ w ∈ result.mWaypoints, w.t.isNaN = false)
        ∧ result.mWaypoints.length = traj.mWaypoints.length + calls.length
        ∧ List.Perm result.times (traj.times ++ calls.map WaypointCall.time) := by
  intro calls
  induction calls with
  | nil =>
    intro traj result hs hn _ h
    simp only [Interpolated.applyCalls, Except.ok.injEq] at h
    subst h
    simp [hs]
    exact hn
  | cons call calls ih =>
    intro traj result hs hn hc h
    have hrest : ∀ c ∈ calls, c.time.isNaN = false := fun c hcm =>
      hc c (List.mem_cons_of_mem _ hcm)
    have step : ∀ (state : S) (t : Double), t.isNaN = false →
        Interpolated.applyCalls subspaceCopy (traj.addWaypoint t state) calls = Except.ok result →
        List.Sorted (· ≤ ·) result.times
          ∧ (∀ w ∈ result.mWaypoints, w.t.isNaN = false)
          ∧ result.mWaypoints.length = traj.mWaypoints.length + (calls.length + 1)
          ∧ List.Perm result.times (traj.times ++ t :: calls.map WaypointCall.time) := by
      intro state t ht h1
      obtain ⟨hs1, hn1⟩ := addWaypoint_sorted traj t state hs hn ht
      obtain ⟨k1, k0, k2, k3⟩ := ih _ result hs1 hn1 hrest h1
      refine ⟨k1, k0, by rw [k2, addWaypoint_length]; omega, k3.trans ?_⟩
      have hp : List.Perm (traj.addWaypoint t state).times (t :: traj.times) :=
        (addWaypoint_perm traj t state).map Waypoint.t
      refine (hp.append_right _).trans ?_
      simp only [List.cons_append]
      exact List.perm_middle.symm
    cases call with
    | addWaypoint t state =>
      simp only [Interpolated.applyCalls] at h
      have ht : t.isNaN = false := hc (WaypointCall.addWaypoint t state) (List.mem_cons_self _ _)
      simpa [WaypointCall.time] using step state t ht h
    | addWaypointUnbounded t state =>
      have ht : t.isNaN = false :=
        hc (WaypointCall.addWaypointUnbounded t state) (List.mem_cons_self _ _)
      cases subspaceCopy with
      | none => simp [Interpolated.applyCalls, Interpolated.addWaypointUnbounded] at h
      | some copy =>
        simp only [Interpolated.applyCalls, addWaypointUnbounded_some] at h
        simpa [WaypointCall.time] using step (copy state) t ht h

theorem curvedTrajectory_waypoints :
    curvedTrajectory.mWaypoints
      = [{ t := Double.ofRat 1 1, state := point 0 0 }, { t := Double.ofRat 3 1, state := point 3 3 },
          { t := Double.ofRat 7 1, state := point 8 1 }] := by
  rfl

theorem Double.ratio_inf {prev t cur : Double} (h1 : prev < t) (h2 : t ≤ cur)
    (hinf : (cur - prev).isFinite = false) :
    (t - prev) / (cur - prev) = Double.finite false 0
      ∨ (t - prev) / (cur - prev) = Double.nan := by
  have hd := Double.sub_pos (Double.lt_of_lt_of_le h1 h2)
  have hn := Double.sub_pos h1
  rw [Double.ofRat_zero] at hd hn
  generalize cur - prev = d at hd hinf
  generalize t - prev = n at hn
  rcases d with _ | ⟨_ | _⟩ | ⟨nd, md⟩
  · exact absurd hd (Double.not_lt_nan _)
  · rcases n with _ | ⟨_ | _⟩ | ⟨nn, mn⟩
    · exact absurd hn (Double.not_lt_nan _)
    · exact Or.inr rfl
    · exact absurd hn (by decide)
    · cases nn with
      | false => exact Or.inl rfl
      | true =>
        rw [Double.lt_def] at hn
        simp [Double.lt, signed] at hn
        omega
  · exact absurd hd (by decide)
  · simp [Double.isFinite] at hinf

/-! ## The claim on interpolation between waypoints -/

/-- Counterexample to C20 as stated, in its last clause (at `t` equal to a
waypoint's time the output is that waypoint's state). With the linear interpolator
on the plane, computing in doubles: (i) after `addWaypoint` of (0,0) at 1, (3,3) at
3, (4,4) at 3 and (8,1) at 7 the times are sorted, 1, 3, 3, 7, the waypoint (3,3)
at time 3 is in the list, and `evaluate(3)` returns (4,4), the state of the first
waypoint of time 3; (ii) with waypoints (0,0) at `-DBL_MAX` and (1,1) at
`DBL_MAX` the segment duration overflows to +infinity, the ratio at `t = DBL_MAX`
is infinity / infinity = NaN, and `evaluate(DBL_MAX)` returns (NaN, NaN); (iii)
with waypoints (10^16, 0) at 1 and (1, 0) at 3 the ratio at `t = 3` is 1 and
`evaluate(3)` returns (0, 0), as `1 - 10^16` rounds to `-10^16`. -/
theorem evaluate_at_waypoint_time_not_its_state :
    (List.Sorted (· ≤ ·) duplicateTrajectory.times
        ∧ duplicateTrajectory.times
          = [Double.ofRat 1 1, Double.ofRat 3 1, Double.ofRat 3 1, Double.ofRat 7 1]
        ∧ duplicateTrajectory.getStartTime = Except.ok (Double.ofRat 1 1)
        ∧ duplicateTrajectory.getEndTime = Except.ok (Double.ofRat 7 1)
        ∧ Double.ofRat 1 1 < Double.ofRat 3 1 ∧ Double.ofRat 3 1 ≤ Double.ofRat 7 1
        ∧ duplicateTrajectory.mWaypoints[2]?
          = some { t := Double.ofRat 3 1, state := point 3 3 }
        ∧ duplicateTrajectory.evaluate (Double.ofRat 3 1) = Except.ok (point 4 4)
        ∧ point 4 4 ≠ point 3 3)
      ∧ (List.Sorted (· ≤ ·) wideTrajectory.times
        ∧ wideTrajectory.getStartTime = Except.ok (-DBL_MAX)
        ∧ wideTrajectory.getEndTime = Except.ok DBL_MAX
        ∧ -DBL_MAX < DBL_MAX ∧ DBL_MAX ≤ DBL_MAX
        ∧ wideTrajectory.mWaypoints[1]? = some { t := DBL_MAX, state := point 1 1 }
        ∧ DBL_MAX - (-DBL_MAX) = Double.inf false
        ∧ wideTrajectory.evaluateCall DBL_MAX
          = Except.ok (StateWrite.interpolate (point 0 0) (point 1 1) Double.nan)
        ∧ wideTrajectory.evaluate DBL_MAX = Except.ok (Double.nan, Double.nan)
        ∧ (Double.nan, Double.nan) ≠ point 1 1)
      ∧ (List.Sorted (· ≤ ·) steepTrajectory.times
        ∧ steepTrajectory.mWaypoints[1]?
          = some { t := Double.ofRat 3 1, state := point 1 0 }
        ∧ steepTrajectory.evaluateCall (Double.ofRat 3 1)
          = Except.ok (StateWrite.interpolate (point 10000000000000000 0) (point 1 0)
              (Double.ofRat 1 1))
        ∧ steepTrajectory.evaluate (Double.ofRat 3 1) = Except.ok (point 0 0)
        ∧ point 0 0 ≠ point 1 0) :=
  ⟨⟨by decide, rfl, rfl, rfl, by decide, by decide, rfl, rfl, by decide⟩,
    ⟨by decide, rfl, rfl, by decide, by decide, rfl, rfl, rfl, rfl, by decide⟩,
    ⟨by decide, rfl, rfl, rfl, by decide⟩⟩

/-- C20, amended. Inside the time range: on a trajectory sorted by time, for every
`t` with start time < `t` <= end time, `getWaypointIndexAfterTime` returns the
least index `k` whose waypoint time is at least `t` (every waypoint before `k` is
earlier than `t`, every waypoint from `k` on is not), `k >= 1`, and `evaluate`
returns `interpolate(w[k-1].state, w[k].state, (t - w[k-1].t) / (w[k].t - w[k-1].t))`,
the ratio being computed in doubles. When `t` equals the time of waypoint `k`,
the first waypoint of that time, and the segment duration `w[k].t - w[k-1].t` is
finite, the ratio is exactly 1, so with an interpolator that returns its second
state at ratio 1 the output is the state of waypoint `k`. -/
theorem evaluate_interpolates {S : Type} (traj : Interpolated S) (t start stop : Double)
    (hsorted : List.Sorted (· ≤ ·) traj.times)
    (hstart : traj.getStartTime = Except.ok start) (hstop : traj.getEndTime = Except.ok stop)
    (hlo : start < t) (hhi : t ≤ stop) :
    ∃ k prev cur, traj.getWaypointIndexAfterTime t = Except.ok k ∧ 0 < k
      ∧ traj.mWaypoints[k - 1]? = some prev ∧ traj.mWaypoints[k]? = some cur
      ∧ t ≤ cur.t ∧ (∀ j w, j < k → traj.mWaypoints[j]? = some w → w.t < t)
      ∧ (∀ j w, k ≤ j → traj.mWaypoints[j]? = some w → t ≤ w.t)
      ∧ traj.evaluateCall t
          = Except.ok (StateWrite.interpolate prev.state cur.state
              ((t - prev.t) / (cur.t - prev.t)))
      ∧ traj.evaluate t
          = Except.ok (traj.mInterpolator.interpolate prev.state cur.state
              ((t - prev.t) / (cur.t - prev.t)))
      ∧ (cur.t ≤ t → (cur.t - prev.t).isFinite = true →
          (t - prev.t) / (cur.t - prev.t) = Double.ofRat 1 1
            ∧ (traj.mInterpolator.interpolate prev.state cur.state (Double.ofRat 1 1) = cur.state →
                traj.evaluate t = Except.ok cur.state)) := by
  obtain ⟨first, hfirst⟩ : ∃ first, traj.mWaypoints.head? = some first := by
    cases hh : traj.mWaypoints.head? with
    | none => simp [Interpolated.getStartTime, hh] at hstart
    | some f => exact ⟨f, rfl⟩
  obtain ⟨last, hlast⟩ : ∃ last, traj.mWaypoints.getLast? = some last := by
    cases hl : traj.mWaypoints.getLast? with
    | none => simp [Interpolated.getEndTime, hl] at hstop
    | some l => exact ⟨l, rfl⟩
  simp only [Interpolated.getStartTime, hfirst, Except.ok.injEq] at hstart
  simp only [Interpolated.getEndTime, hlast, Except.ok.injEq] at hstop
  subst hstart hstop
  obtain ⟨hle, hbefore, hafter⟩ := lower_bound_sorted traj.mWaypoints t hsorted
  have hfirst0 : traj.mWaypoints[0]? = some first := by
    cases hw : traj.mWaypoints with
    | nil => rw [hw] at hfirst; cases hfirst
    | cons w rest => rw [hw] at hfirst; simpa using hfirst
  have hlen0 : 0 < traj.mWaypoints.length := (List.getElem?_eq_some.mp hfirst0).1
  have hlastn : traj.mWaypoints[traj.mWaypoints.length - 1]? = some last := by
    rw [List.getLast?_eq_getElem?] at hlast
    exact hlast
  have hpos : 0 < lower_bound traj.mWaypoints t := by
    by_contra h0
    exact hafter 0 first (by omega) hfirst0 hlo
  have hlt : lower_bound traj.mWaypoints t < traj.mWaypoints.length := by
    by_contra hge
    exact Double.not_lt_of_le hhi (hbefore _ last (by omega) hlastn)
  have hk : traj.getWaypointIndexAfterTime t = Except.ok (lower_bound traj.mWaypoints t) := by
    unfold Interpolated.getWaypointIndexAfterTime
    simp only
    rw [if_neg (by omega)]
  obtain ⟨_, prev, cur, hprev, hcur, hplt, hcle, hb, ha⟩ :=
    index_segment traj t _ hsorted hk hpos
  obtain ⟨_, hcall, heval, _⟩ := evaluate_ok_of_index traj t _ prev cur hk hpos hprev hcur
  refine ⟨lower_bound traj.mWaypoints t, prev, cur, hk, hpos, hprev, hcur, hcle, hb, ha, hcall,
    heval, ?_⟩
  intro hct hfin
  have hone : (t - prev.t) / (cur.t - prev.t) = Double.ofRat 1 1 := by
    rw [Double.sub_eq_of_le_of_le hplt hcle hct]
    exact Double.ratio_one (Double.lt_of_lt_of_le hplt hcle) hfin
  refine ⟨hone, ?_⟩
  intro hend
  rw [heval, hone, hend]

/-- Witness for C20, amended: on the test trajectory, (0,0) at 1, (3,3) at 3,
(8,1) at 7, with the linear interpolator: `evaluate` gives (0.75, 0.75) at 1.5 and
(6.75, 1.5) at 6, and the waypoint states (8,1) at 7 and (3,3) at 3. -/
theorem evaluate_interpolates_witness :
    (∃ k prev cur, testTrajectory.getWaypointIndexAfterTime (Double.ofRat 3 1) = Except.ok k
        ∧ 0 < k
        ∧ testTrajectory.mWaypoints[k - 1]? = some prev ∧ testTrajectory.mWaypoints[k]? = some cur
        ∧ Double.ofRat 3 1 ≤ cur.t
        ∧ (∀ j w, j < k → testTrajectory.mWaypoints[j]? = some w → w.t < Double.ofRat 3 1)
        ∧ (∀ j w, k ≤ j → testTrajectory.mWaypoints[j]? = some w → Double.ofRat 3 1 ≤ w.t)
        ∧ testTrajectory.evaluateCall (Double.ofRat 3 1)
            = Except.ok (StateWrite.interpolate prev.state cur.state
                ((Double.ofRat 3 1 - prev.t) / (cur.t - prev.t)))
        ∧ testTrajectory.evaluate (Double.ofRat 3 1)
            = Except.ok (testTrajectory.mInterpolator.interpolate prev.state cur.state
                ((Double.ofRat 3 1 - prev.t) / (cur.t - prev.t)))
        ∧ (cur.t ≤ Double.ofRat 3 1 → (cur.t - prev.t).isFinite = true →
            (Double.ofRat 3 1 - prev.t) / (cur.t - prev.t) = Double.ofRat 1 1
              ∧ (testTrajectory.mInterpolator.interpolate prev.state cur.state (Double.ofRat 1 1)
                    = cur.state →
                  testTrajectory.evaluate (Double.ofRat 3 1) = Except.ok cur.state)))
      ∧ testTrajectory.getWaypointIndexAfterTime (Double.ofRat 3 2) = Except.ok 1
      ∧ testTrajectory.evaluate (Double.ofRat 3 2) = Except.ok (Double.ofRat 3 4, Double.ofRat 3 4)
      ∧ testTrajectory.evaluate (Double.ofRat 6 1) = Except.ok (Double.ofRat 27 4, Double.ofRat 3 2)
      ∧ testTrajectory.evaluate (Double.ofRat 7 1) = Except.ok (point 8 1)
      ∧ testTrajectory.evaluate (Double.ofRat 3 1) = Except.ok (point 3 3) :=
  ⟨evaluate_interpolates testTrajectory (Double.ofRat 3 1) (Double.ofRat 1 1) (Double.ofRat 7 1)
      testTrajectory_sorted rfl rfl (by decide) (by decide),
    rfl, rfl, rfl, rfl, rfl⟩

/-! ## The claims on derivatives, indices and the sortedness invariant -/

/-- C21 (the code departs from the claim). On the waypoints of the test fixture,
with an interpolator that announces one derivative and whose `getDerivative`
yields (2, 2) at order 2, `evaluateDerivative` at 1.5 with order 2 returns (1, 1),
not the zero vector: the block for orders above `getNumDerivatives` zeroes the
vector but does not return, and the `try` block then overwrites it with
`getDerivative` divided by the segment time. With the interpolator of the test,
whose `getDerivative` is itself zero at order 2, the output is (0, 0). -/
theorem evaluateDerivative_high_order_not_zero :
    curvedR2.getNumDerivatives = 1
      ∧ castSizeT 2 > curvedTrajectory.mInterpolator.getNumDerivatives
      ∧ curvedTrajectory.evaluateDerivative (Double.ofRat 3 2) 2 []
        = Except.ok [Double.ofRat 1 1, Double.ofRat 1 1]
      ∧ [Double.ofRat 1 1, Double.ofRat 1 1]
        ≠ zeroVector curvedTrajectory.mInterpolator.getDimension
      ∧ testTrajectory.evaluateDerivative (Double.ofRat 3 2) 2 []
        = Except.ok [Double.ofRat 0 1, Double.ofRat 0 1] :=
  ⟨rfl, by decide, rfl, by decide, rfl⟩

/-- C22. First derivative: on a trajectory sorted by time, let waypoints `k - 1`
and `k` (`k >= 1`) satisfy `w[k-1].t < t <= w[k].t`. Then `k` is the index returned
by `getWaypointIndexAfterTime`, and `evaluateDerivative` at `t` with order 1
returns `getDerivative(w[k-1].state, w[k].state, 1, alpha)` with each coordinate
divided by the segment duration `w[k].t - w[k-1].t`, where
`alpha = (t - w[k-1].t) / (w[k].t - w[k-1].t)`, whatever the vector held before;
the differences and quotients are those of doubles. -/
theorem evaluateDerivative_first_order {S : Type} (traj : Interpolated S) (t : Double) (k : Nat)
    (prev cur : Waypoint S) (tangentVector : List Double)
    (hsorted : List.Sorted (· ≤ ·) traj.times) (hpos : 0 < k)
    (hprev : traj.mWaypoints[k - 1]? = some prev) (hcur : traj.mWaypoints[k]? = some cur)
    (hlo : prev.t < t) (hhi : t ≤ cur.t) :
    traj.getWaypointIndexAfterTime t = Except.ok k
      ∧ traj.evaluateDerivative t 1 tangentVector
        = Except.ok ((traj.mInterpolator.getDerivative prev.state cur.state 1
            ((t - prev.t) / (cur.t - prev.t))).map (fun x => x / (cur.t - prev.t))) := by
  have hlb : lower_bound traj.mWaypoints t = k := by
    apply lower_bound_eq t traj.mWaypoints k cur hcur hhi hsorted
    intro j w hj hw
    by_cases hjk : j = k - 1
    · subst hjk
      rw [hprev] at hw
      simp only [Option.some.injEq] at hw
      subst hw
      exact hlo
    · exact Double.lt_of_le_of_lt
        (sorted_getElem_le traj.mWaypoints hsorted j (k - 1) w prev (by omega) hw hprev) hlo
  have hlen : k < traj.mWaypoints.length := (List.getElem?_eq_some.mp hcur).1
  have hk : traj.getWaypointIndexAfterTime t = Except.ok k := by
    unfold Interpolated.getWaypointIndexAfterTime
    simp only [hlb]
    rw [if_neg (by omega)]
  obtain ⟨_, _, heval, hderiv⟩ := evaluate_ok_of_index traj t k prev cur hk hpos hprev hcur
  refine ⟨hk, ?_⟩
  simp [Interpolated.evaluateDerivative, heval, hderiv]

/-- Witness for C22: on the test trajectory with the linear interpolator, the
first derivative is (1.5, 1.5) at 1.5 and (5/4, -2/4) at 6, the difference of the
two waypoint states divided by the segment duration. -/
theorem evaluateDerivative_first_order_witness :
    (testTrajectory.getWaypointIndexAfterTime (Double.ofRat 3 2) = Except.ok 1
        ∧ testTrajectory.evaluateDerivative (Double.ofRat 3 2) 1 []
          = Except.ok ((testTrajectory.mInterpolator.getDerivative (point 0 0) (point 3 3) 1
              ((Double.ofRat 3 2 - Double.ofRat 1 1) / (Double.ofRat 3 1 - Double.ofRat 1 1))).map
                (fun x => x / (Double.ofRat 3 1 - Double.ofRat 1 1))))
      ∧ testTrajectory.evaluateDerivative (Double.ofRat 3 2) 1 []
        = Except.ok [Double.ofRat 3 2, Double.ofRat 3 2]
      ∧ testTrajectory.evaluateDerivative (Double.ofRat 6 1) 1 []
        = Except.ok [Double.ofRat 5 4, Double.ofRat (-2) 4] :=
  ⟨evaluateDerivative_first_order testTrajectory (Double.ofRat 3 2) 1
      { t := Double.ofRat 1 1, state := point 0 0 } { t := Double.ofRat 3 1, state := point 3 3 } []
      testTrajectory_sorted (by decide) rfl rfl (by decide) (by decide),
    rfl, rfl⟩

/-- C23 (the code departs from its documentation). On the test trajectory, sorted
with waypoints at times 1, 3, 7, `getWaypointIndexAfterTime(3)` returns index 1,
whose waypoint has time 3, which is not larger than 3; the first waypoint whose
time is larger than 3 is at index 2. (`std::lower_bound` with `operator<` stops at
the first waypoint whose time is not less than `_t`.) The throw for a time larger
than the last waypoint's is as documented. -/
theorem getWaypointIndexAfterTime_returns_equal_time :
    List.Sorted (· ≤ ·) testTrajectory.times
      ∧ testTrajectory.getWaypointIndexAfterTime (Double.ofRat 3 1) = Except.ok 1
      ∧ testTrajectory.mWaypoints[1]? = some { t := Double.ofRat 3 1, state := point 3 3 }
      ∧ ¬ (Double.ofRat 3 1 < Double.ofRat 3 1)
      ∧ testTrajectory.mWaypoints[2]? = some { t := Double.ofRat 7 1, state := point 8 1 }
      ∧ Double.ofRat 3 1 < Double.ofRat 7 1
      ∧ testTrajectory.getWaypointIndexAfterTime (Double.ofRat 8 1)
          = Except.error (Abort.thrown (Exception.domain_error
              "_t is larger than the time value on the last waypoint.")) :=
  ⟨testTrajectory_sorted, rfl, rfl, by decide, rfl, by decide, rfl⟩

/-- Counterexample to C26 as stated ("arbitrary times"): a NaN among the times.
After `addWaypoint` at 1 and then at NaN the waypoints are at NaN, 1, and after a
further `addWaypoint` at 0.5 they are at 0.5, NaN, 1: not sorted by non-decreasing
time, as `NaN <= 1` and `0.5 <= NaN` are false (each of these searches runs on a
range partitioned by `w < _t`). A further `addWaypoint` at 2 leaves the waypoints
at 0.5, 2, NaN, 1, with the waypoint of time 2 before the waypoint of time 1.
And on a state space that is no `CartesianProduct`, `addWaypointUnbounded` calls
through the null pointer left by the `dynamic_cast` (line 170) and leaves no
trajectory to speak of. -/
theorem addWaypoint_nan_breaks_sortedness :
    (∃ traj, Interpolated.applyCalls (some id) (Interpolated.new linearR2)
          [WaypointCall.addWaypoint (Double.ofRat 1 1) (point 0 0),
            WaypointCall.addWaypoint Double.nan (point 1 1)] = Except.ok traj
        ∧ traj.times = [Double.nan, Double.ofRat 1 1]
        ∧ ¬ List.Sorted (· ≤ ·) traj.times)
      ∧ (∃ traj, Interpolated.applyCalls (some id) (Interpolated.new linearR2)
          [WaypointCall.addWaypoint (Double.ofRat 1 1) (point 0 0),
            WaypointCall.addWaypoint Double.nan (point 1 1),
            WaypointCall.addWaypointUnbounded (Double.ofRat 1 2) (point 2 2)] = Except.ok traj
        ∧ traj.times = [Double.ofRat 1 2, Double.nan, Double.ofRat 1 1]
        ∧ ¬ List.Sorted (· ≤ ·) traj.times)
      ∧ (∃ traj, Interpolated.applyCalls (some id) (Interpolated.new linearR2)
          [WaypointCall.addWaypoint (Double.ofRat 1 1) (point 0 0),
            WaypointCall.addWaypoint Double.nan (point 1 1),
            WaypointCall.addWaypointUnbounded (Double.ofRat 1 2) (point 2 2),
            WaypointCall.addWaypoint (Double.ofRat 2 1) (point 3 3)] = Except.ok traj
        ∧ traj.times = [Double.ofRat 1 2, Double.ofRat 2 1, Double.nan, Double.ofRat 1 1]
        ∧ ¬ List.Sorted (· ≤ ·) traj.times
        ∧ ¬ (Double.ofRat 2 1 ≤ Double.ofRat 1 1))
      ∧ Interpolated.applyCalls none (Interpolated.new linearR2)
          [WaypointCall.addWaypointUnbounded (Double.ofRat 1 1) (point 0 0)]
        = Except.error Abort.nullDereference :=
  ⟨⟨_, rfl, rfl, by decide⟩, ⟨_, rfl, rfl, by decide⟩, ⟨_, rfl, rfl, by decide, by decide⟩, rfl⟩

/-- C26, amended. Sortedness invariant: after every sequence of `addWaypoint` and
`addWaypointUnbounded` calls that return, started on the empty trajectory, with
times none of which is NaN, the waypoints are sorted by non-decreasing time, their
number is the number of calls, and their times are the times given, rearranged.
Each such call on a sorted trajectory without NaN times puts the new waypoint after
the waypoints of smaller time and before all others, so before every waypoint of
equal time. -/
theorem applyCalls_sorted {S : Type} (interpolator : Interpolator S)
    (subspaceCopy : Option (S → S)) (calls : List (WaypointCall S)) (traj : Interpolated S)
    (hnan : ∀ c ∈ calls, c.time.isNaN = false)
    (h : Interpolated.applyCalls subspaceCopy (Interpolated.new interpolator) calls
      = Except.ok traj) :
    List.Sorted (· ≤ ·) traj.times
      ∧ traj.mWaypoints.length = calls.length
      ∧ List.Perm traj.times (calls.map WaypointCall.time)
      ∧ (∀ (tr : Interpolated S) (t : Double) (state : S), List.Sorted (· ≤ ·) tr.times →
          (∀ w ∈ tr.mWaypoints, w.t.isNaN = false) → t.isNaN = false →
          ∃ before after, tr.mWaypoints = before ++ after
            ∧ (tr.addWaypoint t state).mWaypoints = before ++ { t := t, state := state } :: after
            ∧ (∀ w ∈ before, w.t < t) ∧ (∀ w ∈ after, t ≤ w.t))
      ∧ (∀ (tr tr1 : Interpolated S) (t : Double) (state : S), List.Sorted (· ≤ ·) tr.times →
          (∀ w ∈ tr.mWaypoints, w.t.isNaN = false) → t.isNaN = false →
          tr.addWaypointUnbounded subspaceCopy t state = Except.ok tr1 →
          ∃ before after copied, tr.mWaypoints = before ++ after
            ∧ tr1.mWaypoints = before ++ { t := t, state := copied } :: after
            ∧ (∀ w ∈ before, w.t < t) ∧ (∀ w ∈ after, t ≤ w.t)) := by
  obtain ⟨h1, _, h2, h3⟩ := applyCalls_invariant subspaceCopy calls (Interpolated.new interpolator)
    traj (by simp [Interpolated.new, Interpolated.times]) (by simp [Interpolated.new]) hnan h
  refine ⟨h1, by simpa [Interpolated.new] using h2,
    by simpa [Interpolated.new, Interpolated.times] using h3, ?_, ?_⟩
  · intro tr t state hs hn ht
    exact addWaypoint_placement tr t state hs hn ht
  · intro tr tr1 t state hs hn ht hu
    cases subspaceCopy with
    | none => simp [Interpolated.addWaypointUnbounded] at hu
    | some copy =>
      rw [addWaypointUnbounded_some] at hu
      simp only [Except.ok.injEq] at hu
      subst hu
      obtain ⟨before, after, k1, k2, k3, k4⟩ := addWaypoint_placement tr t (copy state) hs hn ht
      exact ⟨before, after, copy state, k1, k2, k3, k4⟩

/-- Witness for C26, amended: waypoints added at times 3, 1 (unbounded), 3, 2 on
a Cartesian-product state space whose subspace copy is the identity; the second
waypoint of time 3 ends up before the first one. -/
theorem applyCalls_sorted_witness :
    ∃ traj, Interpolated.applyCalls (some id) (Interpolated.new linearR2)
          [WaypointCall.addWaypoint (Double.ofRat 3 1) (point 1 1),
            WaypointCall.addWaypointUnbounded (Double.ofRat 1 1) (point 2 2),
            WaypointCall.addWaypoint (Double.ofRat 3 1) (point 3 3),
            WaypointCall.addWaypoint (Double.ofRat 2 1) (point 0 0)]
        = Except.ok traj
      ∧ traj.mWaypoints
        = [{ t := Double.ofRat 1 1, state := point 2 2 }, { t := Double.ofRat 2 1, state := point 0 0 },
            { t := Double.ofRat 3 1, state := point 3 3 },
            { t := Double.ofRat 3 1, state := point 1 1 }]
      ∧ List.Sorted (· ≤ ·) traj.times
      ∧ traj.mWaypoints.length
        = [WaypointCall.addWaypoint (Double.ofRat 3 1) (point 1 1),
            WaypointCall.addWaypointUnbounded (Double.ofRat 1 1) (point 2 2),
            WaypointCall.addWaypoint (Double.ofRat 3 1) (point 3 3),
            WaypointCall.addWaypoint (Double.ofRat 2 1) (point 0 0)].length :=
  ⟨_, rfl, rfl,
    (applyCalls_sorted linearR2 (some id)
      [WaypointCall.addWaypoint (Double.ofRat 3 1) (point 1 1),
        WaypointCall.addWaypointUnbounded (Double.ofRat 1 1) (point 2 2),
        WaypointCall.addWaypoint (Double.ofRat 3 1) (point 3 3),
        WaypointCall.addWaypoint (Double.ofRat 2 1) (point 0 0)] _ (by decide) rfl).1,
    (applyCalls_sorted linearR2 (some id)
      [WaypointCall.addWaypoint (Double.ofRat 3 1) (point 1 1),
        WaypointCall.addWaypointUnbounded (Double.ofRat 1 1) (point 2 2),
        WaypointCall.addWaypoint (Double.ofRat 3 1) (point 3 3),
        WaypointCall.addWaypoint (Double.ofRat 2 1) (point 0 0)] _ (by decide) rfl).2.1⟩

/-- Counterexample to C27 as stated (the ratio lies in (0, 1]). (i) On sorted
waypoints at times 0 and 4, `getWaypointIndexAfterTime` at `t = DBL_TRUE_MIN`
(about 5e-324) returns 1, the segment duration is 4, and the ratio
`(t - 0) / (4 - 0)` that `evaluate` passes to the interpolator underflows to
exactly 0, which is not positive. (ii) On sorted waypoints at `-DBL_MAX` and
`DBL_MAX` the index at `t = DBL_MAX` is 1, the segment duration overflows to
+infinity and the ratio is NaN, which is neither positive nor at most 1. -/
theorem segment_ratio_zero_or_nan :
    (List.Sorted (· ≤ ·) shortTrajectory.times
        ∧ shortTrajectory.times = [Double.ofRat 0 1, Double.ofRat 4 1]
        ∧ shortTrajectory.getWaypointIndexAfterTime DBL_TRUE_MIN = Except.ok 1
        ∧ Double.ofRat 0 1 < DBL_TRUE_MIN
        ∧ Double.ofRat 4 1 - Double.ofRat 0 1 = Double.ofRat 4 1
        ∧ (DBL_TRUE_MIN - Double.ofRat 0 1) / (Double.ofRat 4 1 - Double.ofRat 0 1)
          = Double.ofRat 0 1
        ∧ shortTrajectory.evaluateTry DBL_TRUE_MIN
          = Except.ok (StateWrite.interpolate (point 0 0) (point 1 1) (Double.ofRat 0 1))
        ∧ ¬ (Double.ofRat 0 1 < Double.ofRat 0 1))
      ∧ (List.Sorted (· ≤ ·) wideTrajectory.times
        ∧ wideTrajectory.times = [-DBL_MAX, DBL_MAX]
        ∧ wideTrajectory.getWaypointIndexAfterTime DBL_MAX = Except.ok 1
        ∧ DBL_MAX - (-DBL_MAX) = Double.inf false
        ∧ (DBL_MAX - (-DBL_MAX)) / (DBL_MAX - (-DBL_MAX)) = Double.nan
        ∧ wideTrajectory.evaluateTry DBL_MAX
          = Except.ok (StateWrite.interpolate (point 0 0) (point 1 1) Double.nan)
        ∧ ¬ (Double.ofRat 0 1 < Double.nan) ∧ ¬ (Double.nan ≤ Double.ofRat 1 1)) :=
  ⟨⟨by decide, rfl, rfl, by decide, rfl, rfl, rfl, by decide⟩,
    ⟨by decide, rfl, rfl, rfl, rfl, rfl, by decide, by decide⟩⟩

/-- C27, amended. No division by zero: on a waypoint list sorted by time (equal
times allowed), whenever `getWaypointIndexAfterTime(t)` returns an index `k >= 1`,
waypoints `k - 1` and `k` exist with `w[k-1].t < t <= w[k].t` (and every waypoint
from `k` on is not earlier than `t`), so the segment duration `w[k].t - w[k-1].t`,
a difference of doubles, is strictly positive. When that duration is finite the
ratio `(t - w[k-1].t) / (w[k].t - w[k-1].t)` lies in [0, 1] (it is 0 when the
quotient underflows); when the duration has overflowed to +infinity the ratio is
0 or NaN. That duration and that ratio are the ones `evaluate` and
`evaluateDerivative` compute. -/
theorem segment_duration_positive {S : Type} (traj : Interpolated S) (t : Double) (k : Nat)
    (hsorted : List.Sorted (· ≤ ·) traj.times)
    (hk : traj.getWaypointIndexAfterTime t = Except.ok k) (hpos : 0 < k) :
    ∃ prev cur, traj.mWaypoints[k - 1]? = some prev ∧ traj.mWaypoints[k]? = some cur
      ∧ prev.t < t ∧ t ≤ cur.t
      ∧ (∀ j w, k ≤ j → traj.mWaypoints[j]? = some w → t ≤ w.t)
      ∧ Double.ofRat 0 1 < cur.t - prev.t
      ∧ ((cur.t - prev.t).isFinite = true →
          Double.ofRat 0 1 ≤ (t - prev.t) / (cur.t - prev.t)
            ∧ (t - prev.t) / (cur.t - prev.t) ≤ Double.ofRat 1 1)
      ∧ ((cur.t - prev.t).isFinite = false →
          (t - prev.t) / (cur.t - prev.t) = Double.ofRat 0 1
            ∨ (t - prev.t) / (cur.t - prev.t) = Double.nan)
      ∧ traj.evaluateTry t
          = Except.ok (StateWrite.interpolate prev.state cur.state
              ((t - prev.t) / (cur.t - prev.t)))
      ∧ ∀ derivative, traj.evaluateDerivativeTry t derivative
          = Except.ok ((traj.mInterpolator.getDerivative prev.state cur.state derivative
              ((t - prev.t) / (cur.t - prev.t))).map (fun x => x / (cur.t - prev.t))) := by
  obtain ⟨_, prev, cur, hprev, hcur, hlo, hhi, _, hafter⟩ := index_segment traj t k hsorted hk hpos
  obtain ⟨htry, _, _, hderiv⟩ := evaluate_ok_of_index traj t k prev cur hk hpos hprev hcur
  exact ⟨prev, cur, hprev, hcur, hlo, hhi, hafter, Double.sub_pos (Double.lt_of_lt_of_le hlo hhi),
    fun hfin => Double.ratio_bounds hlo hhi hfin, fun hinf => Double.ratio_inf hlo hhi hinf,
    htry, hderiv⟩

/-- Witness for C27, amended: on waypoints at times 1, 3, 3, 7 (an equal pair),
the index returned for time 3 is 1, between the waypoints at 1 and at 3. -/
theorem segment_duration_positive_witness :
    ∃ prev cur,
      duplicateTrajectory.mWaypoints[1 - 1]? = some prev
      ∧ duplicateTrajectory.mWaypoints[1]? = some cur
      ∧ prev.t < Double.ofRat 3 1 ∧ Double.ofRat 3 1 ≤ cur.t
      ∧ (∀ j w, 1 ≤ j → duplicateTrajectory.mWaypoints[j]? = some w → Double.ofRat 3 1 ≤ w.t)
      ∧ Double.ofRat 0 1 < cur.t - prev.t
      ∧ ((cur.t - prev.t).isFinite = true →
          Double.ofRat 0 1 ≤ (Double.ofRat 3 1 - prev.t) / (cur.t - prev.t)
            ∧ (Double.ofRat 3 1 - prev.t) / (cur.t - prev.t) ≤ Double.ofRat 1 1)
      ∧ ((cur.t - prev.t).isFinite = false →
          (Double.ofRat 3 1 - prev.t) / (cur.t - prev.t) = Double.ofRat 0 1
            ∨ (Double.ofRat 3 1 - prev.t) / (cur.t - prev.t) = Double.nan)
      ∧ duplicateTrajectory.evaluateTry (Double.ofRat 3 1)
          = Except.ok (StateWrite.interpolate prev.state cur.state
              ((Double.ofRat 3 1 - prev.t) / (cur.t - prev.t)))
      ∧ ∀ derivative, duplicateTrajectory.evaluateDerivativeTry (Double.ofRat 3 1) derivative
          = Except.ok ((duplicateTrajectory.mInterpolator.getDerivative
                prev.state cur.state derivative
                ((Double.ofRat 3 1 - prev.t) / (cur.t - prev.t))).map
              (fun x => x / (cur.t - prev.t))) :=
  segment_duration_positive duplicateTrajectory (Double.ofRat 3 1) 1 (by decide) rfl (by decide)

/-! ## Lemmas on the worker planner -/

theorem samplingLoop_some (env : SamplingEnv) :
    ∀ (fuel k : Nat) (self : ConfigurationToConfiguration_to_ConfigurationToTSR)
      (log : List WorkerEvent) (run : WorkerRun),
      samplingLoop env fuel k self log = some run →
      run.self.mPlanning = false
        ∧ run.self.mEndEffectorBodyNode = self.mEndEffectorBodyNode
        ∧ (∃ ext, run.log = log ++ ext)
        ∧ (self.mPlanning = true → ∀ j, WorkerEvent.stopObserved j ∈ run.log →
            WorkerEvent.stopObserved j ∈ log ∨ env.stopBefore j = true) := by
  intro fuel
  induction fuel with
  | zero => intro k self log run h; simp [samplingLoop] at h
  | succ f ih =>
    intro k self log run h
    have hrec : ∀ ext1 : List WorkerEvent,
        (∀ j, WorkerEvent.stopObserved j ∉ ext1) → self.mPlanning = true →
        samplingLoop env f (k + 1) self (log ++ ext1) = some run →
        run.self.mPlanning = false
          ∧ run.self.mEndEffectorBodyNode = self.mEndEffectorBodyNode
          ∧ (∃ ext, run.log = log ++ ext)
          ∧ (self.mPlanning = true → ∀ j, WorkerEvent.stopObserved j ∈ run.log →
              WorkerEvent.stopObserved j ∈ log ∨ env.stopBefore j = true) := by
      intro ext1 hext1 hp h1
      obtain ⟨h1a, h2, ⟨ext, h3⟩, h4⟩ := ih _ _ _ _ h1
      refine ⟨h1a, h2, ⟨ext1 ++ ext, by rw [h3, List.append_assoc]⟩, ?_⟩
      intro _ j hj
      rcases h4 hp j hj with hj1 | hj1
      · rcases List.mem_append.mp hj1 with hj2 | hj2
        · exact Or.inl hj2
        · exact absurd hj2 (hext1 j)
      · exact Or.inr hj1
    cases hc : env.canSample k with
    | false =>
      simp only [samplingLoop, hc, if_true, Option.some.injEq] at h
      subst h
      refine ⟨rfl, rfl, ⟨_, rfl⟩, ?_⟩
      intro _ j hj
      simp only [List.mem_append, List.mem_cons, List.mem_singleton] at hj
      rcases hj with hj | hj | hj | hj
      · exact Or.inl hj
      · cases hj
      · cases hj
      · cases hj
    | true =>
      cases hs : env.stopBefore k with
      | true =>
        simp only [samplingLoop, hc, hs, Bool.true_eq_false, if_false, if_true,
          ConfigurationToConfiguration_to_ConfigurationToTSR.stopPlanning,
          Option.some.injEq] at h
        subst h
        refine ⟨rfl, rfl, ⟨_, rfl⟩, ?_⟩
        intro _ j hj
        simp only [List.mem_append, List.mem_cons, List.mem_singleton,
          WorkerEvent.stopObserved.injEq] at hj
        rcases hj with hj | hj | hj | hj
        · exact Or.inl hj
        · cases hj
        · subst hj; exact Or.inr hs
        · cases hj
      | false =>
        cases hp : self.mPlanning with
        | false =>
          simp only [samplingLoop, hc, hs, hp, Bool.true_eq_false, Bool.false_eq_true, if_false,
            if_true, Option.some.injEq] at h
          subst h
          exact ⟨hp, rfl, ⟨_, rfl⟩, fun hcontra => nomatch hcontra⟩
        | true =>
          cases hsm : env.sample k with
          | false =>
            simp only [samplingLoop, hc, hs, hp, hsm, Bool.true_eq_false, Bool.false_eq_true,
              if_false, if_true] at h
            have hres := hrec _ (by simp) hp h
            exact ⟨hres.1, hres.2.1, hres.2.2.1, fun _ => hres.2.2.2 hp⟩
          | true =>
            cases hd : env.delegatePlan k with
            | some traj =>
              simp only [samplingLoop, hc, hs, hp, hsm, hd, Bool.true_eq_false,
                Bool.false_eq_true, if_false, Option.some.injEq] at h
              subst h
              refine ⟨rfl, rfl, ⟨_, rfl⟩, ?_⟩
              intro _ j hj
              simp only [List.mem_append, List.mem_cons, List.mem_singleton] at hj
              rcases hj with hj | hj | hj | hj | hj
              · exact Or.inl hj
              · cases hj
              · cases hj
              · cases hj
              · rcases hj with hj | hj <;> cases hj
            | none =>
              simp only [samplingLoop, hc, hs, hp, hsm, hd, Bool.true_eq_false,
                Bool.false_eq_true, if_false] at h
              have hres := hrec _ (by simp) hp h
              exact ⟨hres.1, hres.2.1, hres.2.2.1, fun _ => hres.2.2.2 hp⟩

theorem samplingLoop_stop (env : SamplingEnv) (k : Nat)
    (hcan : env.canSample k = true) (hstop : env.stopBefore k = true) :
    ∀ (d i : Nat) (self : ConfigurationToConfiguration_to_ConfigurationToTSR)
      (log : List WorkerEvent) (fuel : Nat),
      i + d = k → self.mPlanning = true →
      (∀ j, i ≤ j → j < k → env.canSample j = true ∧ env.stopBefore j = false
        ∧ (env.sample j = false ∨ env.delegatePlan j = none)) →
      d < fuel →
      ∃ ext, samplingLoop env fuel i self log
          = some { returned := Returned.value none, self := { self with mPlanning := false }
                   log := log ++ ext ++ [WorkerEvent.canSample k, WorkerEvent.stopObserved k] }
        ∧ (∀ j, WorkerEvent.sample j ∈ ext → j < k)
        ∧ (∀ j, WorkerEvent.delegatePlan j ∈ ext → j < k) := by
  intro d
  induction d with
  | zero =>
    intro i self log fuel hi hplanning _ hfuel
    obtain ⟨f, rfl⟩ : ∃ f, fuel = f + 1 := ⟨fuel - 1, by omega⟩
    have hik : i = k := by omega
    subst hik
    refine ⟨[], ?_, fun j hj => (nomatch hj), fun j hj => (nomatch hj)⟩
    unfold samplingLoop
    simp [hcan, hstop, ConfigurationToConfiguration_to_ConfigurationToTSR.stopPlanning]
  | succ d ih =>
    intro i self log fuel hi hplanning hreach hfuel
    obtain ⟨f, rfl⟩ : ∃ f, fuel = f + 1 := ⟨fuel - 1, by omega⟩
    obtain ⟨h1, h2, h3⟩ := hreach i (Nat.le_refl i) (by omega)
    have hrest : ∀ j, i + 1 ≤ j → j < k → env.canSample j = true ∧ env.stopBefore j = false
        ∧ (env.sample j = false ∨ env.delegatePlan j = none) :=
      fun j hj1 hj2 => hreach j (by omega) hj2
    unfold samplingLoop
    simp only [h1, h2, Bool.true_eq_false, if_false, hplanning, Bool.false_eq_true]
    by_cases hs : env.sample i = false
    · obtain ⟨ext, k1, k2, k3⟩ := ih (i + 1) self
        (log ++ [WorkerEvent.canSample i, WorkerEvent.sample i]) f (by omega) hplanning hrest
        (by omega)
      refine ⟨[WorkerEvent.canSample i, WorkerEvent.sample i] ++ ext, ?_, ?_, ?_⟩
      · simp only [hs, if_true]
        rw [k1]
        simp
      · intro j hj
        simp only [List.mem_append, List.mem_cons, List.mem_singleton, WorkerEvent.sample.injEq]
          at hj
        rcases hj with (hj | hj | hj) | hj
        · cases hj
        · omega
        · cases hj
        · exact k2 j hj
      · intro j hj
        simp only [List.mem_append, List.mem_cons, List.mem_singleton] at hj
        rcases hj with (hj | hj | hj) | hj
        · cases hj
        · cases hj
        · cases hj
        · exact k3 j hj
    · have hd : env.delegatePlan i = none := by
        rcases h3 with h3 | h3
        · exact absurd h3 hs
        · exact h3
      obtain ⟨ext, k1, k2, k3⟩ := ih (i + 1) self
        (log ++ [WorkerEvent.canSample i, WorkerEvent.sample i, WorkerEvent.delegatePlan i]) f
        (by omega) hplanning hrest (by omega)
      refine ⟨[WorkerEvent.canSample i, WorkerEvent.sample i, WorkerEvent.delegatePlan i] ++ ext,
        ?_, ?_, ?_⟩
      · simp only [hs, if_false, hd]
        rw [k1]
        simp
      · intro j hj
        simp only [List.mem_append, List.mem_cons, List.mem_singleton, WorkerEvent.sample.injEq]
          at hj
        rcases hj with (hj | hj | hj | hj) | hj
        · cases hj
        · omega
        · cases hj
        · cases hj
        · exact k2 j hj
      · intro j hj
        simp only [List.mem_append, List.mem_cons, List.mem_singleton,
          WorkerEvent.delegatePlan.injEq] at hj
        rcases hj with (hj | hj | hj | hj) | hj
        · cases hj
        · cases hj
        · omega
        · cases hj
        · exact k3 j hj

/-! ## The claims on the worker planner -/

/-- C24. Cooperative cancellation in the worker: `stopPlanning` clears the planning
flag (and returns true), and `plan` reads the flag at the top of each sampling
iteration, right after `canSample`. If the validations pass, the loop reaches
iteration `k` (no stop and no trajectory before) and another thread has called
`stopPlanning` before the check of iteration `k`, then `plan` returns `nullptr` at
that check: the check is the last event of the call, and neither `sample` nor the
delegate's `plan` is called in iteration `k` or later. -/
theorem stop_observed_ends_plan (self : ConfigurationToConfiguration_to_ConfigurationToTSR)
    (env : SamplingEnv) (k fuel : Nat)
    (hee : self.mEndEffectorBodyNode.isSome = true) (hdofs : env.numDofs ≠ 0)
    (hskel : env.dofOfOtherSkeleton = false) (hnodes : env.matchingNodes ≠ 0)
    (hreach : ∀ j, j < k → env.canSample j = true ∧ env.stopBefore j = false
      ∧ (env.sample j = false ∨ env.delegatePlan j = none))
    (hcan : env.canSample k = true) (hstop : env.stopBefore k = true) (hfuel : k < fuel) :
    self.stopPlanning.1 = true ∧ self.stopPlanning.2.mPlanning = false
      ∧ ∃ run before, self.plan env fuel = some run
          ∧ run.returned = Returned.value none ∧ run.self.mPlanning = false
          ∧ run.log = before ++ [WorkerEvent.canSample k, WorkerEvent.stopObserved k]
          ∧ (∀ j, WorkerEvent.sample j ∈ run.log → j < k)
          ∧ (∀ j, WorkerEvent.delegatePlan j ∈ run.log → j < k) := by
  refine ⟨rfl, rfl, ?_⟩
  obtain ⟨ext, h1, h2, h3⟩ := samplingLoop_stop env k hcan hstop k 0 { self with mPlanning := true }
    [WorkerEvent.setPlanning true] fuel (by omega) rfl (fun j _ hj => hreach j hj) hfuel
  have hnone : self.mEndEffectorBodyNode.isNone = false := by
    cases hn : self.mEndEffectorBodyNode with
    | none => rw [hn] at hee; cases hee
    | some n => rfl
  have hplan : self.plan env fuel
      = samplingLoop env fuel 0 { self with mPlanning := true } [WorkerEvent.setPlanning true] := by
    simp [ConfigurationToConfiguration_to_ConfigurationToTSR.plan, hnone, hdofs, hskel, hnodes]
  refine ⟨_, [WorkerEvent.setPlanning true] ++ ext, hplan.trans h1, rfl, rfl, rfl, ?_, ?_⟩
  · intro j hj
    simp only [List.mem_append, List.mem_cons, List.mem_singleton] at hj
    rcases hj with ((hj | hj) | hj) | hj
    · cases hj
    · cases hj
    · exact h2 j hj
    · rcases hj with hj | hj | hj <;> cases hj
  · intro j hj
    simp only [List.mem_append, List.mem_cons, List.mem_singleton] at hj
    rcases hj with ((hj | hj) | hj) | hj
    · cases hj
    · cases hj
    · exact h3 j hj
    · rcases hj with hj | hj | hj <;> cases hj

/-- Witness for C24: two iterations without a trajectory, then `stopPlanning`
lands before the check of iteration 2. -/
theorem stop_observed_ends_plan_witness :
    stoppedWorker.stopPlanning.1 = true ∧ stoppedWorker.stopPlanning.2.mPlanning = false
      ∧ ∃ run before, stoppedWorker.plan stoppedAtTwo 10 = some run
          ∧ run.returned = Returned.value none ∧ run.self.mPlanning = false
          ∧ run.log = before ++ [WorkerEvent.canSample 2, WorkerEvent.stopObserved 2]
          ∧ (∀ j, WorkerEvent.sample j ∈ run.log → j < 2)
          ∧ (∀ j, WorkerEvent.delegatePlan j ∈ run.log → j < 2) :=
  stop_observed_ends_plan stoppedWorker stoppedAtTwo 2 10 rfl (by decide) rfl (by decide)
    (fun j hj => by
      have hne : (j == 2) = false := by
        simp only [beq_eq_false_iff_ne]
        omega
      exact ⟨by simp only [stoppedAtTwo, decide_eq_true_eq]; omega,
        by simpa [stoppedAtTwo] using hne, Or.inr rfl⟩)
    rfl rfl (by decide)

/-- C25. Clean state on reuse: `plan` first sets the planning flag to true, so the
call does not depend on the value a `stopPlanning` of an earlier race left in the
flag, and the stop check fires in an iteration only if `stopPlanning` was called
during this call, before that check. Every exit of `plan`, by return or by a
validation throw, leaves the flag false. -/
theorem plan_resets_then_clears_flag (self : ConfigurationToConfiguration_to_ConfigurationToTSR)
    (env : SamplingEnv) (fuel : Nat) (run : WorkerRun) (h : self.plan env fuel = some run) :
    run.self.mPlanning = false
      ∧ (∃ rest, run.log = WorkerEvent.setPlanning true :: rest)
      ∧ ({ self with mPlanning := false } : ConfigurationToConfiguration_to_ConfigurationToTSR).plan
          env fuel = some run
      ∧ ({ self with mPlanning := true } : ConfigurationToConfiguration_to_ConfigurationToTSR).plan
          env fuel = some run
      ∧ (∀ k, WorkerEvent.stopObserved k ∈ run.log → env.stopBefore k = true) := by
  refine ⟨?_, ?_, h, h, ?_⟩
  all_goals
    unfold ConfigurationToConfiguration_to_ConfigurationToTSR.plan at h
    simp only at h
    split at h
    · simp only [Option.some.injEq] at h
      subst h
      first
        | rfl
        | exact ⟨_, rfl⟩
        | (intro k hk; simp [validationThrow] at hk)
    · split at h
      · simp only [Option.some.injEq] at h
        subst h
        first
          | rfl
          | exact ⟨_, rfl⟩
          | (intro k hk; simp [validationThrow] at hk)
      · split at h
        · simp only [Option.some.injEq] at h
          subst h
          first
            | rfl
            | exact ⟨_, rfl⟩
            | (intro k hk; simp [validationThrow] at hk)
        · split at h
          · simp only [Option.some.injEq] at h
            subst h
            first
              | rfl
              | exact ⟨_, rfl⟩
              | (intro k hk; simp [validationThrow] at hk)
          · obtain ⟨h1, _, ⟨ext, h3⟩, h4⟩ := samplingLoop_some env _ _ _ _ _ h
            first
              | exact h1
              | exact ⟨ext, by rw [h3]; rfl⟩
              | (intro k hk
                 rcases h4 rfl k hk with hk1 | hk1
                 · simp at hk1
                 · exact hk1)

/-- Witness for C25: a worker whose flag an earlier `stopPlanning` left false
plans again, no stop arrives, and the delegate's trajectory 9 is returned. -/
theorem plan_resets_then_clears_flag_witness :
    ∃ run, stoppedWorker.plan undisturbed 10 = some run
      ∧ stoppedWorker.mPlanning = false
      ∧ run.returned = Returned.value (some 9)
      ∧ run.self.mPlanning = false
      ∧ (∃ rest, run.log = WorkerEvent.setPlanning true :: rest)
      ∧ ({ stoppedWorker with mPlanning := false } :
          ConfigurationToConfiguration_to_ConfigurationToTSR).plan undisturbed 10 = some run
      ∧ ({ stoppedWorker with mPlanning := true } :
          ConfigurationToConfiguration_to_ConfigurationToTSR).plan undisturbed 10 = some run
      ∧ (∀ k, WorkerEvent.stopObserved k ∈ run.log → undisturbed.stopBefore k = true) :=
  ⟨_, rfl, rfl, rfl, plan_resets_then_clears_flag stoppedWorker undisturbed 10 _ rfl⟩

/-! ## The claims on index safety and on unsupported problems -/

/-- C28 (the code departs from the claim). The coordinator built by the first
constructor from one collision detector and one planner has no cloned
MetaSkeleton. On a `DartProblem` that planner 0 can solve, index 0 is not below
`mClonedMetaSkeletons.size()`, and `plan` reads `mClonedMetaSkeletons[0]` outside
the vector, before any worker is launched. For the pool built by the template
constructor the three vectors have the same length. -/
theorem plan_planner_list_index_out_of_bounds :
    (ConcreteParallelMetaPlanner.fromPlanners (MetaSkeletonPtr.external 0) [10]
        [PlannerPtr.given 0]).mPlanners.length = 1
      ∧ (ConcreteParallelMetaPlanner.fromPlanners (MetaSkeletonPtr.external 0) [10]
          [PlannerPtr.given 0]).mClonedMetaSkeletons.length = 0
      ∧ simultaneousFailures.isDartProblem = true ∧ simultaneousFailures.canSolve 0 = true
      ∧ (∃ run, (ConcreteParallelMetaPlanner.fromPlanners (MetaSkeletonPtr.external 0) [10]
            [PlannerPtr.given 0]).plan simultaneousFailures emptyResult 1 = some run
          ∧ run.exit = Exit.outOfBounds ∧ run.exit.returned = Returned.undefined
          ∧ launched run.log = [])
      ∧ pool2.mPlanners.length = pool2.mCollisionDetectors.length
      ∧ pool2.mPlanners.length = pool2.mClonedMetaSkeletons.length :=
  ⟨rfl, rfl, rfl, rfl, ⟨_, rfl, rfl, rfl, rfl⟩, rfl, rfl⟩

/-- C29 (the code departs from the claim). On the idle pool of two, for a problem
that is not a `DartProblem` and that every planner can solve, `plan` throws
`runtime_error("Not supported")` at the first eligible planner, before any worker
is launched, but with `mRunning` still true: the next call of `plan` on that
coordinator is rejected with "Currently planning another problem". -/
theorem plan_not_supported_leaves_running :
    ∃ run next, pool2.plan plainProblem emptyResult 1 = some run
      ∧ run.exit.returned = Returned.throws (Exception.runtime_error "Not supported")
      ∧ launched run.log = []
      ∧ run.self.mRunning = true
      ∧ run.self.plan simultaneousFailures emptyResult 1 = some next
      ∧ next.exit.returned
          = Returned.throws (Exception.runtime_error "Currently planning another problem") :=
  ⟨_, _, rfl, rfl, rfl, rfl, rfl, rfl⟩

/-! ## The claim on ConfigurationRanker -/

theorem sortedDoubles_not_nan :
    ∀ l : List Double, List.Sorted (· ≤ ·) l → 2 ≤ l.length → ∀ x ∈ l, x.isNaN = false := by
  intro l hs hlen x hx
  match l, hs, hlen, hx with
  | a :: b :: rest, hs, _, hx =>
    have hp := List.pairwise_cons.mp hs
    rcases List.mem_cons.mp hx with rfl | hx1
    · exact (Double.not_nan_of_le (hp.1 b (List.mem_cons_self _ _))).1
    · exact (Double.not_nan_of_le (hp.1 x hx1)).2

theorem orderedInsert_pairwise {α : Type} (r : α → α → Prop) [DecidableRel r] (P : α → Prop)
    (htot : ∀ a b, P a → P b → r a b ∨ r b a)
    (htrans : ∀ a b c, P a → P b → P c → r a b → r b c → r a c) (a : α) (ha : P a) :
    ∀ l : List α, (∀ x ∈ l, P x) → List.Pairwise r l →
      List.Pairwise r (List.orderedInsert r a l) := by
  intro l
  induction l with
  | nil => intro _ _; simp
  | cons b l ih =>
    intro hP hs
    have hb : P b := hP b (List.mem_cons_self _ _)
    have hl : ∀ x ∈ l, P x := fun x hx => hP x (List.mem_cons_of_mem _ hx)
    obtain ⟨hbl, hsl⟩ := List.pairwise_cons.mp hs
    by_cases hab : r a b
    · rw [List.orderedInsert, if_pos hab]
      refine List.pairwise_cons.mpr ⟨?_, hs⟩
      intro x hx
      rcases List.mem_cons.mp hx with rfl | hx1
      · exact hab
      · exact htrans a b x ha hb (hl x hx1) hab (hbl x hx1)
    · rw [List.orderedInsert, if_neg hab]
      have hba : r b a := (htot a b ha hb).resolve_left hab
      refine List.pairwise_cons.mpr ⟨?_, ih hl hsl⟩
      intro x hx
      rcases (List.mem_orderedInsert r).mp hx with rfl | hx1
      · exact hba
      · exact hbl x hx1

theorem insertionSort_pairwise {α : Type} (r : α → α → Prop) [DecidableRel r] (P : α → Prop)
    (htot : ∀ a b, P a → P b → r a b ∨ r b a)
    (htrans : ∀ a b c, P a → P b → P c → r a b → r b c → r a c) :
    ∀ l : List α, (∀ x ∈ l, P x) → List.Pairwise r (List.insertionSort r l) := by
  intro l
  induction l with
  | nil => intro _; simp
  | cons a l ih =>
    intro hP
    have hl : ∀ x ∈ l, P x := fun x hx => hP x (List.mem_cons_of_mem _ hx)
    rw [List.insertionSort]
    apply orderedInsert_pairwise r P htot htrans a (hP a (List.mem_cons_self _ _))
    · intro x hx
      exact hl x ((List.perm_insertionSort r l).mem_iff.mp hx)
    · exact ih hl

theorem strictWeakOrdering_of_not_nan {S : Type} (entries : List (S × Double))
    (hnan : ∀ entry ∈ entries, entry.2.isNaN = false) :
    strictWeakOrdering sortingFunction entries = true := by
  simp only [strictWeakOrdering, sortingFunction, Bool.and_eq_true, List.all_eq_true,
    Bool.or_eq_true, Bool.not_eq_true', decide_eq_false_iff_not, decide_eq_true_eq,
    Bool.and_eq_false_imp]
  refine ⟨⟨?_, ?_⟩, ?_⟩
  · intro a _
    exact Double.lt_irrefl a.2
  · intro a _ b _ c _
    by_cases h1 : a.2 < b.2
    · by_cases h2 : b.2 < c.2
      · exact Or.inr (Double.lt_trans h1 h2)
      · exact Or.inl (fun _ => h2)
    · exact Or.inl (fun h => absurd h h1)
  · intro a ha b hb c hc
    by_cases h : (¬ a.2 < b.2 ∧ ¬ b.2 < a.2) ∧ (¬ b.2 < c.2 ∧ ¬ c.2 < b.2)
    · obtain ⟨⟨h1, h2⟩, h3, h4⟩ := h
      have hab := Double.le_of_not_lt (hnan b hb) (hnan a ha) h2
      have hba := Double.le_of_not_lt (hnan a ha) (hnan b hb) h1
      have hbc := Double.le_of_not_lt (hnan c hc) (hnan b hb) h4
      have hcb := Double.le_of_not_lt (hnan b hb) (hnan c hc) h3
      exact Or.inr ⟨Double.not_lt_of_le (Double.le_trans hcb hba),
        Double.not_lt_of_le (Double.le_trans hab hbc)⟩
    · refine Or.inl ?_
      intro h1 h2
      by_contra h3
      exact h ⟨h1, h2, by simpa using h3⟩

theorem sort_perm_sorted {S : Type} (entries : List (S × Double))
    (hnan : ∀ entry ∈ entries, entry.2.isNaN = false) :
    ∃ sorted, sort sortingFunction entries = some sorted ∧ List.Perm sorted entries
      ∧ List.Sorted (· ≤ ·) (sorted.map Prod.snd) := by
  refine ⟨entries.insertionSort (fun a b => sortingFunction b a = false), ?_,
    List.perm_insertionSort _ entries, ?_⟩
  · simp [sort, strictWeakOrdering_of_not_nan entries hnan]
  · have hs := insertionSort_pairwise (fun a b : S × Double => sortingFunction b a = false)
      (fun entry => entry.2.isNaN = false)
      (fun a b ha hb => by
        simp only [sortingFunction, decide_eq_false_iff_not]
        rcases Double.lt_or_le ha hb with h | h
        · exact Or.inl (Double.not_lt_of_le (Double.le_of_lt h))
        · exact Or.inr (Double.not_lt_of_le h))
      (fun a b c ha hb hc hab hbc => by
        simp only [sortingFunction, decide_eq_false_iff_not] at hab hbc ⊢
        exact Double.not_lt_of_le
          (Double.le_trans (Double.le_of_not_lt hb ha hab) (Double.le_of_not_lt hc hb hbc)))
      entries hnan
    rw [List.Sorted, List.pairwise_map]
    have hmem : ∀ x ∈ entries.insertionSort (fun a b => sortingFunction b a = false),
        x.2.isNaN = false := fun x hx =>
      hnan x ((List.perm_insertionSort _ entries).mem_iff.mp hx)
    refine List.Pairwise.imp_of_mem ?_ hs
    intro a b ha hb hab
    simp only [sortingFunction, decide_eq_false_iff_not] at hab
    exact Double.le_of_not_lt (hmem b hb) (hmem a ha) hab

/-- Counterexample to C30 as stated ("every scoring function"): a NaN score. (i)
For the solutions 1, 2 with scores 1 and NaN the comparison object is a strict
weak ordering on the range (the two entries are equivalent), `std::sort`
is defined and `getRankedIKSolutions` returns a permutation of the two entries; but
neither `1 <= NaN` nor `NaN <= 1` holds, so no permutation of the entries is in
non-decreasing order of score. (ii) For the solutions 1, 2, 3 with scores 2, NaN,
1 the comparison object is no strict weak ordering (2 and NaN are equivalent, NaN
and 1 are equivalent, and 1 < 2), so the behaviour of `std::sort` is undefined. -/
theorem getRankedIKSolutions_nan_score_not_ordered :
    (∃ ranker, ConfigurationRanker.new (some 0) (some 0) [1, 2] = Except.ok ranker
        ∧ strictWeakOrdering sortingFunction [((1 : Nat), Double.ofRat 1 1), (2, Double.nan)]
          = true
        ∧ ranker.getRankedIKSolutions
            (fun s : Nat => if s = 1 then Double.ofRat 1 1 else Double.nan)
          = some ([(1, Double.ofRat 1 1), (2, Double.nan)],
              ConfigurationRanker.mk [(1, Double.ofRat 1 1), (2, Double.nan)])
        ∧ ¬ List.Sorted (· ≤ ·) ([((1 : Nat), Double.ofRat 1 1), (2, Double.nan)].map Prod.snd)
        ∧ ∀ l : List (Nat × Double), List.Perm l [(1, Double.ofRat 1 1), (2, Double.nan)] →
            ¬ List.Sorted (· ≤ ·) (l.map Prod.snd))
      ∧ (∃ ranker, ConfigurationRanker.new (some 0) (some 0) [1, 2, 3] = Except.ok ranker
        ∧ strictWeakOrdering sortingFunction
            [((1 : Nat), Double.ofRat 2 1), (2, Double.nan), (3, Double.ofRat 1 1)] = false
        ∧ ranker.getRankedIKSolutions
            (fun s : Nat => if s = 1 then Double.ofRat 2 1 else if s = 2 then Double.nan
              else Double.ofRat 1 1)
          = none) := by
  refine ⟨⟨_, rfl, by decide, rfl, by decide, ?_⟩, ⟨_, rfl, by decide, rfl⟩⟩
  intro l hp hs
  have hlen : 2 ≤ (l.map Prod.snd).length := by
    rw [List.length_map, hp.length_eq]
    exact Nat.le_refl 2
  have hmem : Double.nan ∈ l.map Prod.snd :=
    List.mem_map.mpr ⟨(2, Double.nan), hp.mem_iff.mpr (by simp), rfl⟩
  exact absurd (sortedDoubles_not_nan _ hs hlen Double.nan hmem) (by decide)

/-- C30, amended. Ranked IK solutions: for every ranker that the constructor
returns for a list of IK solutions, and every scoring function none of whose
scores on these solutions is NaN, `getRankedIKSolutions` returns (and stores) a
list whose states are a permutation of the constructor's solutions, of the same
length, in which each score is `evaluateIKSolution` of its state and the scores
are in non-decreasing order. On an empty list of solutions the constructor throws
`std::invalid_argument`. -/
theorem getRankedIKSolutions_sorted_permutation {S : Type}
    (metaSkeletonStateSpace metaSkeleton : Option Nat) (ikSolutions : List S)
    (evaluateIKSolution : S → Double) (ranker : ConfigurationRanker S)
    (hnew : ConfigurationRanker.new metaSkeletonStateSpace metaSkeleton ikSolutions
      = Except.ok ranker)
    (hnan : ∀ state ∈ ikSolutions, (evaluateIKSolution state).isNaN = false) :
    ikSolutions ≠ []
      ∧ (∃ ranked, ranker.getRankedIKSolutions evaluateIKSolution
            = some (ranked, ConfigurationRanker.mk ranked)
          ∧ List.Perm (ranked.map Prod.fst) ikSolutions
          ∧ ranked.length = ikSolutions.length
          ∧ (∀ entry ∈ ranked, entry.2 = evaluateIKSolution entry.1)
          ∧ List.Sorted (· ≤ ·) (ranked.map Prod.snd))
      ∧ ∀ a b : Option Nat, ∃ what,
          ConfigurationRanker.new a b ([] : List S)
            = Except.error (Exception.invalid_argument what) := by
  have hctor : ikSolutions ≠ []
      ∧ ranker.mIKSolutions = ikSolutions.map (fun state => (state, Double.ofRat 0 1)) := by
    unfold ConfigurationRanker.new at hnew
    split at hnew
    · cases hnew
    · split at hnew
      · cases hnew
      · split at hnew
        · cases hnew
        · rename_i hempty
          simp only [Except.ok.injEq] at hnew
          subst hnew
          exact ⟨fun hnil => hempty (by rw [hnil]; rfl), rfl⟩
  obtain ⟨hne, hsol⟩ := hctor
  have hscored : ranker.mIKSolutions.map (fun entry => (entry.1, evaluateIKSolution entry.1))
      = ikSolutions.map (fun state => (state, evaluateIKSolution state)) := by
    rw [hsol, List.map_map]
    rfl
  obtain ⟨sorted, hsort, hperm, hsorted⟩ := sort_perm_sorted
    (ikSolutions.map (fun state => (state, evaluateIKSolution state)))
    (by
      intro entry hentry
      obtain ⟨state, hstate, rfl⟩ := List.mem_map.mp hentry
      exact hnan state hstate)
  have hranked : ranker.getRankedIKSolutions evaluateIKSolution
      = some (sorted, ConfigurationRanker.mk sorted) := by
    simp only [ConfigurationRanker.getRankedIKSolutions, hscored, hsort]
  refine ⟨hne, ⟨sorted, hranked, ?_, ?_, ?_, hsorted⟩, ?_⟩
  · have := hperm.map Prod.fst
    simpa [List.map_map, Function.comp_def] using this
  · rw [hperm.length_eq, List.length_map]
  · intro entry hentry
    obtain ⟨state, _, rfl⟩ := List.mem_map.mp (hperm.mem_iff.mp hentry)
    rfl
  · intro a b
    unfold ConfigurationRanker.new
    cases a <;> cases b <;> simp

/-- Witness for C30, amended: four solutions with scores 5, 1, 5, 0; the ranked
list is solution 4, then 2, then 1 and 3. -/
theorem getRankedIKSolutions_sorted_permutation_witness :
    (([1, 2, 3, 4] : List Nat) ≠ []
        ∧ (∃ ranked,
            (ConfigurationRanker.mk [(1, Double.ofRat 0 1), (2, Double.ofRat 0 1),
                (3, Double.ofRat 0 1), (4, Double.ofRat 0 1)]).getRankedIKSolutions
              (fun s : Nat => if s = 1 then Double.ofRat 5 1 else if s = 2 then Double.ofRat 1 1
                else if s = 3 then Double.ofRat 5 1 else Double.ofRat 0 1)
              = some (ranked, ConfigurationRanker.mk ranked)
            ∧ List.Perm (ranked.map Prod.fst) [1, 2, 3, 4]
            ∧ ranked.length = [1, 2, 3, 4].length
            ∧ (∀ entry ∈ ranked,
                entry.2 = (fun s : Nat => if s = 1 then Double.ofRat 5 1
                  else if s = 2 then Double.ofRat 1 1
                  else if s = 3 then Double.ofRat 5 1 else Double.ofRat 0 1) entry.1)
            ∧ List.Sorted (· ≤ ·) (ranked.map Prod.snd))
        ∧ ∀ a b : Option Nat, ∃ what,
            ConfigurationRanker.new a b ([] : List Nat)
              = Except.error (Exception.invalid_argument what))
      ∧ ((ConfigurationRanker.mk [(1, Double.ofRat 0 1), (2, Double.ofRat 0 1),
            (3, Double.ofRat 0 1), (4, Double.ofRat 0 1)]).getRankedIKSolutions
          (fun s : Nat => if s = 1 then Double.ofRat 5 1 else if s = 2 then Double.ofRat 1 1
            else if s = 3 then Double.ofRat 5 1 else Double.ofRat 0 1)).map Prod.fst
        = some [(4, Double.ofRat 0 1), (2, Double.ofRat 1 1), (1, Double.ofRat 5 1),
            (3, Double.ofRat 5 1)] :=
  ⟨getRankedIKSolutions_sorted_permutation (some 0) (some 0) [1, 2, 3, 4]
      (fun s : Nat => if s = 1 then Double.ofRat 5 1 else if s = 2 then Double.ofRat 1 1
        else if s = 3 then Double.ofRat 5 1 else Double.ofRat 0 1)
      (ConfigurationRanker.mk [(1, Double.ofRat 0 1), (2, Double.ofRat 0 1),
        (3, Double.ofRat 0 1), (4, Double.ofRat 0 1)]) rfl (by decide),
    rfl⟩

end Aikido
